import Mathlib

/-!
# MoreMath `matrix` package: embedding and verified properties

A shallow embedding of `matrix/matrix.go` (package `matrix` of `jcriger/MoreMath`).

* `Matrix T` is the Go struct `Matrix[T]`: a `Dimension` (two Go `int`s, here `Int`) and
  a slice of slices `[][]T` (here `List (List T)`).
* The element type `T` is generic.  The Go operators `+ - * / == !=`, unary `-` and the
  constants `T(0)`, `1` are the operations of the classes `Add Sub Mul Div BEq Neg Zero
  One`; no law is assumed of them unless a theorem says so.  In particular `==` need not
  be reflexive: it is not for the `float64` value NaN.
* `F64` is the Go type `float64` (IEEE 754 binary64, round to nearest, ties to even) with
  its own `+ - * / ==`, `>`, `math.Abs` and the conversion `float64(n)` of an integer.
* The `err *error` parameter is an explicit error slot `ErrorSlot` that is passed in and
  returned next to the matrix.
* A Go runtime panic (index out of range, `make` with a negative length) is the value
  `none` of `Option`; every `for` loop is a monadic left fold over the index range, its
  body updating the slice being built.
-/

namespace MoreMath

/-! ## Data model -/

/-- The Go struct `Dimension`. -/
structure Dimension where
  Width : Int
  Height : Int
deriving DecidableEq, Repr

/-- The Go struct `Matrix[T]`. -/
structure Matrix (T : Type) where
  Dimensions : Dimension
  Values : List (List T)
deriving DecidableEq, Repr

/-- One constructor for each `errors.New(...)` call site of `matrix.go`. -/
inductive MatrixError where
  | dimensionLessThanOne
  | differentRowLengths
  | identityNotSquare
  | multiplyIncompatible
  | addIncompatible
  | subtractIncompatible
  | inverseNotSquare
  | singular
  | inverseNotImplemented
deriving DecidableEq, Repr

/-- The message passed to `errors.New` at each call site. -/
def MatrixError.message : MatrixError → String
  | .dimensionLessThanOne => "cannot create a Matrix with a dimension that is less than 1"
  | .differentRowLengths => "cannot create a Matrix with different row lengths"
  | .identityNotSquare => "an identity matrix must be square"
  | .multiplyIncompatible => "cannot multiply matrices due to incompatible dimensions"
  | .addIncompatible => "cannot add matrices due to incompatible dimensions"
  | .subtractIncompatible => "cannot subtract matrices due to incompatible dimensions"
  | .inverseNotSquare => "cannot calculate the inverse of a non-square matrix"
  | .singular => "cannot invert, matrix is singular"
  | .inverseNotImplemented => "Inverse not implemented for matrixes width dimensions above 2x2"

/-- The content of `*err`: `none` is Go's `nil`. -/
abbrev ErrorSlot := Option MatrixError

/-- The zero value `Matrix[T]{}` returned on every error path. -/
def Matrix.empty {T : Type} : Matrix T := ⟨⟨0, 0⟩, []⟩

/-! ## The element type `float64` -/

/-- The number of binary digits of `n`, counted with `fuel` halvings at most. -/
def bitLengthAux : Nat → Nat → Nat
  | 0, _ => 0
  | fuel + 1, n => if n = 0 then 0 else bitLengthAux fuel (n / 2) + 1

/-- The number of binary digits of `n`: `0` for `0`, and `k` when `2 ^ (k-1) ≤ n < 2 ^ k`. -/
def bitLength (n : Nat) : Nat := bitLengthAux n n

/-- A Go `float64` (IEEE 754 binary64) value: NaN, an infinity, or the finite number
`(-1) ^ neg * m * 2 ^ e`.  Zero is `m = 0` and keeps its sign. -/
inductive F64 where
  | nan : F64
  | inf (neg : Bool) : F64
  | fin (neg : Bool) (m : Nat) (e : Int) : F64
deriving DecidableEq, Repr

/-- The integer `(-1) ^ neg * m`. -/
def F64.signed (neg : Bool) (m : Nat) : Int := if neg then -(m : Int) else (m : Int)

/-- The integer nearest to `m / 2 ^ k`, the one of the two nearest that is even when `m`
lies half-way between them (`k ≥ 1`). -/
def F64.roundShift (m k : Nat) : Nat :=
  let q := m / 2 ^ k
  let r := m % 2 ^ k
  let half := 2 ^ (k - 1)
  if half < r ∨ (r = half ∧ q % 2 = 1) then q + 1 else q

/-- Rounding of the exact number `(-1) ^ neg * m * 2 ^ e` to `float64`: to the nearest
number with at most 53 significant binary digits and exponent at least `-1074`, ties to
the even one, and to an infinity from `2 ^ 1024` on.  `drop` is the number of low binary
digits of `m` that do not fit. -/
def F64.round (neg : Bool) (m : Nat) (e : Int) : F64 :=
  if m = 0 then .fin neg 0 0
  else
    let drop : Int := max ((bitLength m : Int) - 53) (-1074 - e)
    if drop ≤ 0 then
      if e + bitLength m > 1024 then .inf neg else .fin neg m e
    else
      let q := F64.roundShift m drop.toNat
      if e + drop + bitLength q > 1024 then .inf neg else .fin neg q (e + drop)

/-- The Go unary `-x` on `float64`. -/
def F64.neg : F64 → F64
  | .nan => .nan
  | .inf s => .inf (!s)
  | .fin s m e => .fin (!s) m e

/-- The Go `x + y` on `float64`. -/
def F64.add : F64 → F64 → F64
  | .nan, _ => .nan
  | .inf _, .nan => .nan
  | .inf s, .inf t => if s = t then .inf s else .nan
  | .inf s, .fin _ _ _ => .inf s
  | .fin _ _ _, .nan => .nan
  | .fin _ _ _, .inf t => .inf t
  | .fin s m e, .fin t n f =>
    let g := min e f
    let z := F64.signed s (m * 2 ^ (e - g).toNat) + F64.signed t (n * 2 ^ (f - g).toNat)
    if z = 0 then .fin (s && t) 0 0 else F64.round (decide (z < 0)) z.natAbs g

/-- The Go `x - y` on `float64`. -/
def F64.sub (x y : F64) : F64 := F64.add x (F64.neg y)

/-- The Go `x * y` on `float64`. -/
def F64.mul : F64 → F64 → F64
  | .nan, _ => .nan
  | .inf _, .nan => .nan
  | .inf s, .inf t => .inf (xor s t)
  | .inf s, .fin t n _ => if n = 0 then .nan else .inf (xor s t)
  | .fin _ _ _, .nan => .nan
  | .fin s m _, .inf t => if m = 0 then .nan else .inf (xor s t)
  | .fin s m e, .fin t n f => F64.round (xor s t) (m * n) (e + f)

/-- The Go `x / y` on `float64`.  The quotient of two finite numbers is cut after at least
56 binary digits, a last digit recording whether anything was cut off, and then rounded. -/
def F64.div : F64 → F64 → F64
  | .nan, _ => .nan
  | .inf _, .nan => .nan
  | .inf _, .inf _ => .nan
  | .inf s, .fin t _ _ => .inf (xor s t)
  | .fin _ _ _, .nan => .nan
  | .fin s _ _, .inf t => .fin (xor s t) 0 0
  | .fin s m e, .fin t n f =>
    if n = 0 then (if m = 0 then .nan else .inf (xor s t))
    else
      let k := bitLength n + 55
      let q := (m * 2 ^ k) / n
      let r := (m * 2 ^ k) % n
      F64.round (xor s t) (2 * q + (if r = 0 then 0 else 1)) (e - f - k - 1)

/-- The Go `x == y` on `float64`: NaN equals nothing, the two zeros are equal. -/
def F64.eq : F64 → F64 → Bool
  | .inf s, .inf t => s == t
  | .fin s m e, .fin t n f =>
    let g := min e f
    decide (F64.signed s (m * 2 ^ (e - g).toNat) = F64.signed t (n * 2 ^ (f - g).toNat))
  | _, _ => false

/-- The Go `x > y` on `float64`: false when either side is NaN. -/
def F64.gt : F64 → F64 → Bool
  | .inf s, .inf t => !s && t
  | .inf s, .fin _ _ _ => !s
  | .fin _ _ _, .inf t => t
  | .fin s m e, .fin t n f =>
    let g := min e f
    decide (F64.signed s (m * 2 ^ (e - g).toNat) > F64.signed t (n * 2 ^ (f - g).toNat))
  | _, _ => false

/-- The Go `math.Abs(x)`. -/
def F64.abs : F64 → F64
  | .nan => .nan
  | .inf _ => .inf false
  | .fin _ m e => .fin false m e

/-- The Go conversion `float64(n)` of an integer `n`. -/
def F64.ofInt (n : Int) : F64 := F64.round (decide (n < 0)) n.natAbs 0

/-- Whether `x` is a number that `float64` can compare: not NaN, and, when finite, a
multiple of `2 ^ (-1074)`, as every finite `float64` is. -/
def F64.isNumber : F64 → Bool
  | .nan => false
  | .inf _ => true
  | .fin _ _ e => decide (-1074 ≤ e)

/-- The exact value of a finite `float64`, as a rational number (0 for NaN and the
infinities). -/
def F64.toRat : F64 → ℚ
  | .fin s m e => (F64.signed s m : ℚ) * 2 ^ e
  | _ => 0

/-- Whether `x` is finite with an exponent of at least `L`. -/
def F64.IsFinAbove (x : F64) (L : Int) : Prop :=
  match x with
  | .fin _ _ e => L ≤ e
  | _ => False

/-- A finite `float64` of moderate size: the number `(-1) ^ neg * m * 2 ^ e` with
`m < 2 ^ 53` and `-200 ≤ e ≤ 200`; zero is among them. -/
def F64.Moderate (x : F64) : Prop :=
  match x with
  | .fin _ m e => m < 2 ^ 53 ∧ -200 ≤ e ∧ e ≤ 200
  | _ => False

instance (x : F64) : Decidable x.Moderate := by
  cases x <;> unfold F64.Moderate <;> infer_instance

instance : Zero F64 := ⟨.fin false 0 0⟩
instance : One F64 := ⟨.fin false 1 0⟩
instance : Add F64 := ⟨F64.add⟩
instance : Sub F64 := ⟨F64.sub⟩
instance : Mul F64 := ⟨F64.mul⟩
instance : Div F64 := ⟨F64.div⟩
instance : Neg F64 := ⟨F64.neg⟩
instance : BEq F64 := ⟨F64.eq⟩

/-! ## Slices and loops -/

/-- The Go expression `make([]T, n)`: `n` zero elements; panics when `n` is negative. -/
def make {T : Type} [Zero T] (n : Int) : Option (List T) :=
  if n < 0 then none else some (List.replicate n.toNat 0)

/-- The Go expression `make([][]T, n)`: `n` nil rows; panics when `n` is negative. -/
def makeRows {T : Type} (n : Int) : Option (List (List T)) :=
  if n < 0 then none else some (List.replicate n.toNat [])

/-- The Go loop `for k := 0; k < n; k++ { body }` threading the state `s`. -/
def forRange {σ : Type} (n : Int) (init : σ) (body : σ → Nat → Option σ) : Option σ :=
  (List.range n.toNat).foldlM body init

/-- The Go read `vs[j][i]`; panics when an index is out of range. -/
def index2 {T : Type} (vs : List (List T)) (j i : Nat) : Option T :=
  match vs[j]? with
  | none => none
  | some row => row[i]?

/-- The Go assignment `vs[j][i] = v`; panics when an index is out of range. -/
def assign2 {T : Type} (vs : List (List T)) (j i : Nat) (v : T) : Option (List (List T)) :=
  match vs[j]? with
  | none => none
  | some row => if i < row.length then some (vs.set j (row.set i v)) else none

/-- The Go assignment `vs[j] = row`; panics when the index is out of range. -/
def assignRow {T : Type} (vs : List (List T)) (j : Nat) (row : List T) :
    Option (List (List T)) :=
  if j < vs.length then some (vs.set j row) else none

/-! ## Constructors -/

/-- The Go function `New`.  The read `values[0]` is the `match`; its empty branch cannot be
reached after the check `height < 1`. -/
def New {T : Type} (err : ErrorSlot) (values : List (List T)) : Matrix T × ErrorSlot :=
  if err ≠ none then (Matrix.empty, err)
  else
    let height : Int := values.length
    if height < 1 then (Matrix.empty, some .dimensionLessThanOne)
    else
      match values with
      | [] => (Matrix.empty, some .dimensionLessThanOne)
      | row0 :: _ =>
        let width : Int := row0.length
        if width < 1 then (Matrix.empty, some .dimensionLessThanOne)
        else if values.any (fun row => decide ((row.length : Int) ≠ width)) then
          (Matrix.empty, some .differentRowLengths)
        else (⟨⟨width, height⟩, values⟩, err)

/-- The Go function `NewZero`. -/
def NewZero {T : Type} [Zero T] (err : ErrorSlot) (dim : Dimension) :
    Option (Matrix T × ErrorSlot) :=
  if err ≠ none then some (Matrix.empty, err)
  else if dim.Width < 1 ∨ dim.Height < 1 then
    some (Matrix.empty, some .dimensionLessThanOne)
  else do
    let values0 ← makeRows dim.Height
    let values ← forRange dim.Height values0 (fun vs y => do
      let row ← make dim.Width
      assignRow vs y row)
    pure (⟨⟨dim.Width, dim.Height⟩, values⟩, err)

/-- The Go function `NewIdentity`. -/
def NewIdentity {T : Type} [Zero T] [One T] (err : ErrorSlot) (dim : Dimension) :
    Option (Matrix T × ErrorSlot) :=
  if err ≠ none then some (Matrix.empty, err)
  else if dim.Width < 1 ∨ dim.Height < 1 then
    some (Matrix.empty, some .dimensionLessThanOne)
  else if dim.Height ≠ dim.Width then some (Matrix.empty, some .identityNotSquare)
  else do
    let values0 ← makeRows dim.Height
    let values ← forRange dim.Height values0 (fun vs y => do
      let row ← make dim.Width
      let vs1 ← assignRow vs y row
      assign2 vs1 y y 1)
    pure (⟨⟨dim.Width, dim.Height⟩, values⟩, err)

/-! ## Operations -/

/-- The Go method `Clone`. -/
def Matrix.Clone {T : Type} [Zero T] (a : Matrix T) : Option (Matrix T) := do
  let values0 ← makeRows a.Dimensions.Height
  let values ← forRange a.Dimensions.Height values0 (fun vs j => do
    let row ← make a.Dimensions.Width
    let vs1 ← assignRow vs j row
    forRange a.Dimensions.Width vs1 (fun vs2 i => do
      let v ← index2 a.Values j i
      assign2 vs2 j i v))
  pure ⟨⟨a.Dimensions.Width, a.Dimensions.Height⟩, values⟩

/-- The Go method `MultiplyScalar`. -/
def Matrix.MultiplyScalar {T : Type} [Zero T] [Mul T] (a : Matrix T) (err : ErrorSlot)
    (x : T) : Option (Matrix T × ErrorSlot) :=
  if err ≠ none then some (Matrix.empty, err)
  else do
    let m ← a.Clone
    let values ← forRange a.Dimensions.Width m.Values (fun vs i =>
      forRange a.Dimensions.Height vs (fun vs1 j => do
        let v ← index2 vs1 j i
        assign2 vs1 j i (v * x)))
    pure (⟨m.Dimensions, values⟩, err)

/-- The Go method `Multiply`. -/
def Matrix.Multiply {T : Type} [Zero T] [Add T] [Mul T] (a : Matrix T) (err : ErrorSlot)
    (b : Matrix T) : Option (Matrix T × ErrorSlot) :=
  if err ≠ none then some (Matrix.empty, err)
  else if a.Dimensions.Width ≠ b.Dimensions.Height then
    some (Matrix.empty, some .multiplyIncompatible)
  else do
    let width := b.Dimensions.Width
    let height := a.Dimensions.Height
    let m0 ← makeRows height
    let m1 ← forRange height m0 (fun m j => do
      let row ← make width
      assignRow m j row)
    let m2 ← forRange a.Dimensions.Height m1 (fun m j =>
      forRange b.Dimensions.Width m (fun m' x => do
        let sum ← forRange a.Dimensions.Width (0 : T) (fun sum i => do
          let p ← index2 a.Values j i
          let q ← index2 b.Values i x
          pure (sum + p * q))
        assign2 m' j x sum))
    pure (⟨⟨width, height⟩, m2⟩, err)

/-- The Go method `Add`. -/
def Matrix.Add {T : Type} [Zero T] [Add T] (a : Matrix T) (err : ErrorSlot)
    (b : Matrix T) : Option (Matrix T × ErrorSlot) :=
  if err ≠ none then some (Matrix.empty, err)
  else if a.Dimensions.Width ≠ b.Dimensions.Width ∨
      a.Dimensions.Height ≠ b.Dimensions.Height then
    some (Matrix.empty, some .addIncompatible)
  else do
    let m ← a.Clone
    let values ← forRange a.Dimensions.Height m.Values (fun vs j =>
      forRange a.Dimensions.Width vs (fun vs1 i => do
        let v ← index2 vs1 j i
        let w ← index2 b.Values j i
        assign2 vs1 j i (v + w)))
    pure (⟨m.Dimensions, values⟩, err)

/-- The Go method `Subtract`. -/
def Matrix.Subtract {T : Type} [Zero T] [Sub T] (a : Matrix T) (err : ErrorSlot)
    (b : Matrix T) : Option (Matrix T × ErrorSlot) :=
  if err ≠ none then some (Matrix.empty, err)
  else if a.Dimensions.Width ≠ b.Dimensions.Width ∨
      a.Dimensions.Height ≠ b.Dimensions.Height then
    some (Matrix.empty, some .subtractIncompatible)
  else do
    let m ← a.Clone
    let values ← forRange a.Dimensions.Height m.Values (fun vs j =>
      forRange a.Dimensions.Width vs (fun vs1 i => do
        let v ← index2 vs1 j i
        let w ← index2 b.Values j i
        assign2 vs1 j i (v - w)))
    pure (⟨m.Dimensions, values⟩, err)

/-- The Go method `Inverse`. -/
def Matrix.Inverse {T : Type} [Zero T] [One T] [Sub T] [Mul T] [Neg T] [Div T]
    [BEq T] (a : Matrix T) (err : ErrorSlot) : Option (Matrix T × ErrorSlot) :=
  if err ≠ none then some (Matrix.empty, err)
  else if a.Dimensions.Height ≠ a.Dimensions.Width then
    some (Matrix.empty, some .inverseNotSquare)
  else if a.Dimensions.Width = 2 then do
    let a00 ← index2 a.Values 0 0
    let a11 ← index2 a.Values 1 1
    let a01 ← index2 a.Values 0 1
    let a10 ← index2 a.Values 1 0
    let detA := a00 * a11 - a01 * a10
    if detA == 0 then some (Matrix.empty, some .singular)
    else
      let detA1 := 1 / detA
      let r := New err [[a11, -a01], [-a10, a00]]
      if r.2 ≠ none then some (Matrix.empty, r.2)
      else r.1.MultiplyScalar r.2 detA1
  else some (Matrix.empty, some .inverseNotImplemented)

/-- The Go method `Transpose`; it never reads or writes `*err`. -/
def Matrix.Transpose {T : Type} [Zero T] (a : Matrix T) (err : ErrorSlot) :
    Option (Matrix T × ErrorSlot) := do
  let values0 ← makeRows a.Dimensions.Width
  let values ← forRange a.Dimensions.Width values0 (fun vs j => do
    let row ← make a.Dimensions.Height
    let vs1 ← assignRow vs j row
    forRange a.Dimensions.Height vs1 (fun vs2 i => do
      let v ← index2 a.Values i j
      assign2 vs2 j i v))
  pure (⟨⟨a.Dimensions.Height, a.Dimensions.Width⟩, values⟩, err)

/-- The Go method `Equal`: the two loops return `false` at the first pair of elements for
which the element type's `!=` holds. -/
def Matrix.Equal {T : Type} [BEq T] (a b : Matrix T) : Option Bool :=
  if a.Dimensions.Height ≠ b.Dimensions.Height then some false
  else if a.Dimensions.Width ≠ b.Dimensions.Width then some false
  else
    (List.range a.Dimensions.Width.toNat).allM (fun i =>
      (List.range a.Dimensions.Height.toNat).allM (fun j => do
        let v ← index2 a.Values j i
        let w ← index2 b.Values j i
        pure (!(v != w))))

/-- The Go method `ApproxEqual`.  The conversion `float64(·)` of the element type is the
parameter `toFloat64`; the subtraction, `math.Abs` and the comparison `>` are those of
`float64`. -/
def Matrix.ApproxEqual {T : Type} (toFloat64 : T → F64) (a b : Matrix T) (errorMargin : T) :
    Option Bool :=
  if a.Dimensions.Height ≠ b.Dimensions.Height then some false
  else if a.Dimensions.Width ≠ b.Dimensions.Width then some false
  else
    (List.range a.Dimensions.Width.toNat).allM (fun i =>
      (List.range a.Dimensions.Height.toNat).allM (fun j => do
        let v ← index2 a.Values j i
        let w ← index2 b.Values j i
        pure (!(F64.gt (F64.abs (toFloat64 v - toFloat64 w)) (toFloat64 errorMargin)))))

/-! ## Specification vocabulary -/

/-- The shape invariant of the data model: both dimensions are at least 1, there are
`Height` rows and every row has `Width` elements. -/
def Matrix.WellFormed {T : Type} (a : Matrix T) : Prop :=
  1 ≤ a.Dimensions.Width ∧ 1 ≤ a.Dimensions.Height ∧
    (a.Values.length : Int) = a.Dimensions.Height ∧
    ∀ row ∈ a.Values, (row.length : Int) = a.Dimensions.Width

instance {T : Type} (a : Matrix T) : Decidable a.WellFormed := by
  unfold Matrix.WellFormed
  infer_instance

/-- The element in row `j`, column `i` (zero outside the stored values). -/
def Matrix.entry {T : Type} [Zero T] (a : Matrix T) (j i : Nat) : T :=
  (index2 a.Values j i).getD 0

/-- The error kinds of the specification's taxonomy. -/
inductive ErrorKind where
  | DimensionError
  | RaggedRowsError
  | NotSquareError
  | IncompatibleDimensionsError
  | SingularMatrixError
  | UnsupportedSizeError
deriving DecidableEq, Repr

/-- The kind of the specification's taxonomy that each error of the code belongs to. -/
def MatrixError.kind : MatrixError → ErrorKind
  | .dimensionLessThanOne => .DimensionError
  | .differentRowLengths => .RaggedRowsError
  | .identityNotSquare => .NotSquareError
  | .multiplyIncompatible => .IncompatibleDimensionsError
  | .addIncompatible => .IncompatibleDimensionsError
  | .subtractIncompatible => .IncompatibleDimensionsError
  | .inverseNotSquare => .NotSquareError
  | .singular => .SingularMatrixError
  | .inverseNotImplemented => .UnsupportedSizeError

/-- The list of rows `R 0, …, R (h-1)`. -/
def rowsOf {T : Type} (h : Nat) (R : Nat → List T) : List (List T) := (List.range h).map R

/-- The row `g 0, …, g (w-1)`. -/
def rowOf {T : Type} (w : Nat) (g : Nat → T) : List T := (List.range w).map g

/-- The `h × w` table with entry `f j i` in row `j`, column `i`. -/
def table {T : Type} (h w : Nat) (f : Nat → Nat → T) : List (List T) :=
  rowsOf h (fun j => rowOf w (f j))

/-- The running sum of `Multiply` for the cell in row `j`, column `x`: seeded at `0`, the
products `a[j][i] * b[i][x]` added for `i = 0, …, n-1` in ascending order. -/
def dotSum {T : Type} [Zero T] [Add T] [Mul T] (a b : Matrix T) (j x n : Nat) : T :=
  (List.range n).foldl (fun sum i => sum + a.entry j i * b.entry i x) 0

/-! ## Matrices of the test suite -/

/-- The matrix `[[1,2],[3,4]]` of `TestMultiply` and `TestOperationErrors`. -/
def test2x2 : Matrix Int := (New none [[1, 2], [3, 4]]).1

/-- The matrix `[[1,2,3],[4,5,6]]` of `TestMultiply`. -/
def test2x3 : Matrix Int := (New none [[1, 2, 3], [4, 5, 6]]).1

/-- The matrix `[[1],[2],[3]]` of `TestOperationErrors`. -/
def test3x1 : Matrix Int := (New none [[1], [2], [3]]).1

/-- The matrix `[[4,3],[2,1]]` of `TestSubtract`. -/
def test2x2b : Matrix Int := (New none [[4, 3], [2, 1]]).1

/-- The `float64` matrix `[[1,-1],[0,2]]` of `TestInverse`. -/
def testInverseA : Matrix F64 :=
  (New none [[F64.ofInt 1, F64.ofInt (-1)], [F64.ofInt 0, F64.ofInt 2]]).1

/-- The `float64` matrix `[[1,2],[3,-5]]` of `TestInverse`. -/
def testInverseB : Matrix F64 :=
  (New none [[F64.ofInt 1, F64.ofInt 2], [F64.ofInt 3, F64.ofInt (-5)]]).1

/-- The `float64` constant `0.0001`, the tolerance of `TestInverse`: the quotient of the
exact numbers 1 and 10000, correctly rounded. -/
def tolerance : F64 := F64.ofInt 1 / F64.ofInt 10000

/-- The singular matrix `[[1,2],[2,4]]`. -/
def testSingular : Matrix Int := (New none [[1, 2], [2, 4]]).1

/-- The 1×1 matrix `[[1]]` of `TestMultiply`. -/
def test1x1 : Matrix Int := (New none [[1]]).1

/-- The 1×1 `float64` matrix `[[1]]`. -/
def testUnit : Matrix F64 := (New none [[F64.ofInt 1]]).1

/-- The 1×1 `float64` matrix `[[NaN]]`. -/
def testNaN : Matrix F64 := (New none [[F64.nan]]).1

/-- The 1×1 `float64` matrix `[[2^53]]`. -/
def testPow53 : Matrix F64 := (New none [[F64.ofInt 9007199254740992]]).1

/-- The 1×1 `float64` matrix `[[2^54]]`. -/
def testPow54 : Matrix F64 := (New none [[F64.ofInt 18014398509481984]]).1

/-- The 1×1 `float64` matrix `[[0.1]]`, the constant being the quotient of 1 and 10,
correctly rounded. -/
def testTenth : Matrix F64 := (New none [[F64.ofInt 1 / F64.ofInt 10]]).1

/-- The 1×1 `float64` matrix `[[0.2]]`. -/
def testFifth : Matrix F64 := (New none [[F64.ofInt 2 / F64.ofInt 10]]).1

/-- The 1×1 `float64` matrix `[[0.7]]`. -/
def testSevenTenths : Matrix F64 := (New none [[F64.ofInt 7 / F64.ofInt 10]]).1

/-- The 2×2 `float64` matrix `[[+Inf,1],[1,1]]`. -/
def testInf : Matrix F64 :=
  (New none [[F64.inf false, F64.ofInt 1], [F64.ofInt 1, F64.ofInt 1]]).1

/-- The 2×2 `float64` matrix `[[2^600,0],[0,2^600]]`. -/
def testHuge : Matrix F64 :=
  (New none [[F64.fin false 1 600, F64.ofInt 0], [F64.ofInt 0, F64.fin false 1 600]]).1

/-- The 2×2 `float64` matrix `[[2^-600,0],[0,2^-600]]`, the exact inverse of `testHuge`. -/
def testTiny : Matrix F64 :=
  (New none [[F64.fin false 1 (-600), F64.ofInt 0], [F64.ofInt 0, F64.fin false 1 (-600)]]).1

/-- The 2×2 `float64` matrix `[[2^27+1, 2^27],[2^27, 2^27-1]]`, of determinant -1. -/
def testNearSingular : Matrix F64 :=
  (New none [[F64.ofInt 134217729, F64.ofInt 134217728],
    [F64.ofInt 134217728, F64.ofInt 134217727]]).1

/-- The determinant `a[0][0]*a[1][1] - a[0][1]*a[1][0]` of a `float64` matrix in exact
arithmetic. -/
def Matrix.exactDet (A : Matrix F64) : ℚ :=
  (A.entry 0 0).toRat * (A.entry 1 1).toRat - (A.entry 0 1).toRat * (A.entry 1 0).toRat

/-- The largest magnitude among the four elements of a 2×2 `float64` matrix. -/
def Matrix.maxAbs (A : Matrix F64) : ℚ :=
  max (max |(A.entry 0 0).toRat| |(A.entry 0 1).toRat|)
    (max |(A.entry 1 0).toRat| |(A.entry 1 1).toRat|)

/-- The identity law of the specification at `A`, as `TestInverse` checks it: starting from
an empty error slot, `inv := A.Inverse(&err)`, `r := inv.Multiply(&err, A)` and
`i := NewIdentity(&err, A.Dimensions)` run without panic, the slot is still empty at the
end, and `r.ApproxEqual(i, margin)` is `true`. -/
def IdentityLaw {T : Type} [Zero T] [One T] [Add T] [Sub T] [Mul T] [Neg T] [Div T]
    [BEq T] (toFloat64 : T → F64) (A : Matrix T) (margin : T) : Prop :=
  ∃ (inv : Matrix T) (e1 : ErrorSlot) (r : Matrix T) (e2 : ErrorSlot) (i : Matrix T),
    A.Inverse none = some (inv, e1) ∧ inv.Multiply e1 A = some (r, e2) ∧
      NewIdentity e2 A.Dimensions = some (i, none) ∧
      r.ApproxEqual toFloat64 i margin = some true

/-- The integer matrix `[[2,0],[0,2]]`, of determinant 4. -/
def testDouble : Matrix Int := (New none [[2, 0], [0, 2]]).1

/-- The matrix `[[1,2],[3,4],[5,6]]` of `TestMultiplyScalar`, `TestTranspose`, `TestClone`,
`TestEqual` and `TestApproxEqual`. -/
def test3x2 : Matrix Int := (New none [[1, 2], [3, 4], [5, 6]]).1

/-- The first two rows `[[1,2],[3,4]]` of `test3x2`: the matrix `d` of `TestEqual`. -/
def test3x2Top : Matrix Int := (New none [[1, 2], [3, 4]]).1

/-- The matrix `[[2,2],[3,4],[5,6]]` of `TestApproxEqual`. -/
def test3x2Off : Matrix Int := (New none [[2, 2], [3, 4], [5, 6]]).1

/-- The 1×1 matrix `[[2^53]]` of 64-bit integers. -/
def testBig : Matrix Int := (New none [[9007199254740992]]).1

/-- The 1×1 matrix `[[2^53 + 1]]` of 64-bit integers. -/
def testBigNext : Matrix Int := (New none [[9007199254740993]]).1

/-- The 1×1 matrix `[[-1]]` of 64-bit integers. -/
def testMinusOne : Matrix Int := (New none [[-1]]).1

/-! ## Storage: slices as references into memory

The operations above treat a matrix as a value.  To speak about aliasing, the same `Clone`
is given once more over an explicit memory, in which a slice is the address of its backing
array.  No slice of the package is ever resliced, so a slice always covers its whole
backing array and its length is the length of that array. -/

/-- The memory holding the backing arrays: `elems` those of the element slices `[]T`,
`rows` those of the slices of rows `[][]T`, each found by its address (its position).  A
row slot holds the element slice stored there: `none` for the nil slice, `some q` for the
slice over the array at address `q` of `elems`. -/
structure Heap (T : Type) where
  elems : List (List T)
  rows : List (List (Option Nat))
deriving DecidableEq, Repr

/-- The Go struct `Matrix[T]` as it lies in memory: the `Dimension` fields are part of
the struct value itself, `Values` is a slice: `none` for nil, `some p` for the slice over
the array at address `p` of `rows`. -/
structure MatrixRef where
  Dimensions : Dimension
  Values : Option Nat
deriving DecidableEq, Repr

/-- The Go expression `make([]T, n)` in memory: a fresh backing array of `n` zeros is
allocated and its address returned; panics when `n` is negative. -/
def Heap.makeElems {T : Type} [Zero T] (h : Heap T) (n : Int) : Option (Heap T × Nat) :=
  if n < 0 then none
  else some (⟨h.elems ++ [List.replicate n.toNat 0], h.rows⟩, h.elems.length)

/-- The Go expression `make([][]T, n)` in memory: a fresh backing array of `n` nil slices
is allocated and its address returned; panics when `n` is negative. -/
def Heap.makeRows {T : Type} (h : Heap T) (n : Int) : Option (Heap T × Nat) :=
  if n < 0 then none
  else some (⟨h.elems, h.rows ++ [List.replicate n.toNat none]⟩, h.rows.length)

/-- The address of the backing array of the row `vs[j]`; `none` when the read `vs[j]`
panics or yields the nil slice, on which every index panics. -/
def Heap.rowAt {T : Type} (h : Heap T) (vs : Option Nat) (j : Nat) : Option Nat :=
  match vs with
  | none => none
  | some p =>
    match h.rows[p]? with
    | none => none
    | some arr =>
      match arr[j]? with
      | none => none
      | some slot => slot

/-- The Go read `vs[j][i]` in memory; panics when an index is out of range. -/
def Heap.loadElem {T : Type} (h : Heap T) (vs : Option Nat) (j i : Nat) : Option T :=
  match h.rowAt vs j with
  | none => none
  | some q =>
    match h.elems[q]? with
    | none => none
    | some row => row[i]?

/-- The Go assignment `vs[j][i] = v` in memory: the backing array of row `j` is updated in
place; panics when an index is out of range. -/
def Heap.storeElem {T : Type} (h : Heap T) (vs : Option Nat) (j i : Nat) (v : T) :
    Option (Heap T) :=
  match h.rowAt vs j with
  | none => none
  | some q =>
    match h.elems[q]? with
    | none => none
    | some row => if i < row.length then some ⟨h.elems.set q (row.set i v), h.rows⟩ else none

/-- The Go assignment `vs[j] = row` in memory, `row` being the slice over the array at
address `q`: the backing array of `vs` is updated in place; panics when the index is out
of range. -/
def Heap.storeRow {T : Type} (h : Heap T) (vs : Option Nat) (j q : Nat) :
    Option (Heap T) :=
  match vs with
  | none => none
  | some p =>
    match h.rows[p]? with
    | none => none
    | some arr =>
      if j < arr.length then some ⟨h.elems, h.rows.set p (arr.set j (some q))⟩ else none

/-- The matrix value that the struct `a` denotes in the memory `h`: its dimensions and the
rows found by following its slices. -/
def Heap.load {T : Type} (h : Heap T) (a : MatrixRef) : Matrix T :=
  ⟨a.Dimensions,
    match a.Values with
    | none => []
    | some p =>
      (h.rows.getD p []).map (fun slot =>
        match slot with
        | none => []
        | some q => h.elems.getD q [])⟩

/-- The Go method `Clone` over memory: the same statements as `Matrix.Clone`, each `make`
allocating and each assignment writing in place. -/
def MatrixRef.Clone {T : Type} [Zero T] (a : MatrixRef) (h : Heap T) :
    Option (Heap T × MatrixRef) := do
  let (h0, values) ← h.makeRows a.Dimensions.Height
  let h1 ← forRange a.Dimensions.Height h0 (fun hp j => do
    let (hp1, row) ← hp.makeElems a.Dimensions.Width
    let hp2 ← hp1.storeRow (some values) j row
    forRange a.Dimensions.Width hp2 (fun hq i => do
      let v ← hq.loadElem a.Values j i
      hq.storeElem (some values) j i v))
  pure (h1, ⟨⟨a.Dimensions.Width, a.Dimensions.Height⟩, some values⟩)

/-- The memory of `TestClone` after `a := New(&err, []int{1,2}, []int{3,4}, []int{5,6})`:
three element arrays and the array of the three rows. -/
def testHeap : Heap Int := ⟨[[1, 2], [3, 4], [5, 6]], [[some 0, some 1, some 2]]⟩

/-- The struct `a` of `TestClone` in `testHeap`. -/
def testRef : MatrixRef := ⟨⟨2, 3⟩, some 0⟩

/-- A memory holding the 1×1 `float64` matrix `[[NaN]]`. -/
def testHeapNaN : Heap F64 := ⟨[[F64.nan]], [[some 0]]⟩

/-- The struct of the matrix `[[NaN]]` in `testHeapNaN`. -/
def testRefNaN : MatrixRef := ⟨⟨1, 1⟩, some 0⟩

/-- The memory `h` after allocations: the element arrays `extra` and one array of rows
`arr` have been added behind whatever `h` holds. -/
def Heap.extend {T : Type} (h : Heap T) (extra : List (List T)) (arr : List (Option Nat)) :
    Heap T :=
  ⟨h.elems ++ extra, h.rows ++ [arr]⟩

/-- The expression `detA` of `Inverse`: `a[0][0]*a[1][1] - a[0][1]*a[1][0]`. -/
def Matrix.det2 {T : Type} [Zero T] [Sub T] [Mul T] (a : Matrix T) : T :=
  a.entry 0 0 * a.entry 1 1 - a.entry 0 1 * a.entry 1 0

/-- The integer matrix `[[2,1],[1,1]]`, of determinant 1. -/
def testDetOne : Matrix Int := (New none [[2, 1], [1, 1]]).1

/-- The integer matrix `[[1,2],[1,1]]`, of determinant -1. -/
def testDetMinusOne : Matrix Int := (New none [[1, 2], [1, 1]]).1

/-- The integer matrix `[[0,2],[2,0]]`, of determinant -4. -/
def testDetMinusFour : Matrix Int := (New none [[0, 2], [2, 0]]).1

/-! ## Loops over index ranges and tables -/

theorem foldlM_range_steps {σ : Type} (body : σ → Nat → Option σ) (S : Nat → σ) (n : Nat)
    (hstep : ∀ k, k < n → body (S k) k = some (S (k + 1))) :
    (List.range n).foldlM body (S 0) = some (S n) := by
  induction n with
  | zero => rfl
  | succ n ih =>
    have h1 := ih (fun k hk => hstep k (Nat.lt_succ_of_lt hk))
    rw [List.range_succ, List.foldlM_append, h1]
    simp [hstep n (Nat.lt_succ_self n)]

theorem forRange_steps {σ : Type} (n : Int) (body : σ → Nat → Option σ) (S : Nat → σ)
    (hstep : ∀ k, k < n.toNat → body (S k) k = some (S (k + 1))) :
    forRange n (S 0) body = some (S n.toNat) :=
  foldlM_range_steps body S n.toNat hstep

theorem rowsOf_length {T : Type} (h : Nat) (R : Nat → List T) : (rowsOf h R).length = h := by
  simp [rowsOf]

theorem rowOf_length {T : Type} (w : Nat) (g : Nat → T) : (rowOf w g).length = w := by
  simp [rowOf]

theorem rowsOf_getElem? {T : Type} (h : Nat) (R : Nat → List T) (j : Nat) :
    (rowsOf h R)[j]? = if j < h then some (R j) else none := by
  unfold rowsOf
  by_cases hj : j < h
  · simp [hj, List.getElem?_range]
  · simp [hj]
    omega

theorem rowOf_getElem? {T : Type} (w : Nat) (g : Nat → T) (i : Nat) :
    (rowOf w g)[i]? = if i < w then some (g i) else none := by
  unfold rowOf
  by_cases hi : i < w
  · simp [hi, List.getElem?_range]
  · simp [hi]
    omega

theorem rowsOf_congr {T : Type} (h : Nat) (R R' : Nat → List T)
    (hR : ∀ j, j < h → R j = R' j) : rowsOf h R = rowsOf h R' := by
  unfold rowsOf
  apply List.map_congr_left
  intro j hj
  exact hR j (List.mem_range.mp hj)

theorem rowOf_congr {T : Type} (w : Nat) (g g' : Nat → T)
    (hg : ∀ i, i < w → g i = g' i) : rowOf w g = rowOf w g' := by
  unfold rowOf
  apply List.map_congr_left
  intro i hi
  exact hg i (List.mem_range.mp hi)

theorem rowsOf_set {T : Type} (h : Nat) (R : Nat → List T) (j : Nat) (r : List T) :
    (rowsOf h R).set j r = rowsOf h (fun k => if k = j then r else R k) := by
  apply List.ext_getElem?
  intro k
  rw [List.getElem?_set, rowsOf_getElem?, rowsOf_getElem?, rowsOf_length]
  by_cases hjk : j = k
  · subst hjk
    by_cases hk : j < h <;> simp [hk]
  · have hkj : ¬ k = j := fun e => hjk e.symm
    simp [hjk, hkj]

theorem rowOf_set {T : Type} (w : Nat) (g : Nat → T) (i : Nat) (v : T) :
    (rowOf w g).set i v = rowOf w (fun k => if k = i then v else g k) := by
  apply List.ext_getElem?
  intro k
  rw [List.getElem?_set, rowOf_getElem?, rowOf_getElem?, rowOf_length]
  by_cases hik : i = k
  · subst hik
    by_cases hk : i < w <;> simp [hk]
  · have hki : ¬ k = i := fun e => hik e.symm
    simp [hik, hki]

theorem table_congr {T : Type} (h w : Nat) (f f' : Nat → Nat → T)
    (hf : ∀ j i, j < h → i < w → f j i = f' j i) : table h w f = table h w f' :=
  rowsOf_congr h _ _ (fun j hj => rowOf_congr w _ _ (fun i hi => hf j i hj hi))

theorem index2_rowsOf {T : Type} (h : Nat) (R : Nat → List T) (j i : Nat) (hj : j < h) :
    index2 (rowsOf h R) j i = (R j)[i]? := by
  simp [index2, rowsOf_getElem?, hj]

theorem index2_table {T : Type} (h w : Nat) (f : Nat → Nat → T) (j i : Nat) (hj : j < h)
    (hi : i < w) : index2 (table h w f) j i = some (f j i) := by
  unfold table
  rw [index2_rowsOf h _ j i hj, rowOf_getElem?]
  simp [hi]

theorem assignRow_rowsOf {T : Type} (h : Nat) (R : Nat → List T) (j : Nat) (r : List T)
    (hj : j < h) :
    assignRow (rowsOf h R) j r = some (rowsOf h (fun k => if k = j then r else R k)) := by
  simp [assignRow, rowsOf_length, hj, rowsOf_set]

theorem assign2_rowsOf {T : Type} (h : Nat) (R : Nat → List T) (j i : Nat) (v : T)
    (hj : j < h) (hi : i < (R j).length) :
    assign2 (rowsOf h R) j i v =
      some (rowsOf h (fun k => if k = j then (R j).set i v else R k)) := by
  simp [assign2, rowsOf_getElem?, hj, hi, rowsOf_set]

theorem assign2_table {T : Type} (h w : Nat) (f : Nat → Nat → T) (j i : Nat) (v : T)
    (hj : j < h) (hi : i < w) :
    assign2 (table h w f) j i v =
      some (table h w (fun j' i' => if j' = j ∧ i' = i then v else f j' i')) := by
  unfold table
  rw [assign2_rowsOf h _ j i v hj (by simp [rowOf_length, hi])]
  congr 1
  apply rowsOf_congr
  intro k _
  by_cases hk : k = j
  · subst hk
    simp [rowOf_set]
  · simp [hk]

/-- A row-building loop: iteration `j` replaces row `j` by `rows j`. -/
theorem build_rows {T : Type} (H : Int) (rows : Nat → List T)
    (body : List (List T) → Nat → Option (List (List T)))
    (hbody : ∀ j, j < H.toNat → ∀ R : Nat → List T, body (rowsOf H.toNat R) j =
      some (rowsOf H.toNat (fun k => if k = j then rows j else R k))) :
    forRange H (rowsOf H.toNat (fun _ => ([] : List T))) body = some (rowsOf H.toNat rows) := by
  have key := forRange_steps H body
    (fun j => rowsOf H.toNat (fun k => if k < j then rows k else []))
    (fun j hj => by
      beta_reduce
      rw [hbody j hj]
      congr 1
      apply rowsOf_congr
      intro k _
      by_cases hk : k = j
      · subst hk; simp
      · have : k < j + 1 ↔ k < j := by omega
        simp [hk, this])
  have h0 : rowsOf H.toNat (fun _ => ([] : List T)) =
      rowsOf H.toNat (fun k => if k < 0 then rows k else []) := by
    apply rowsOf_congr; intro k _; simp
  have h1 : rowsOf H.toNat (fun k => if k < H.toNat then rows k else []) =
      rowsOf H.toNat rows := by
    apply rowsOf_congr; intro k hk; simp [hk]
  rw [h0]
  exact key.trans (congrArg some h1)

/-- A row-filling loop: iteration `i` stores `g i` at column `i` of row `j`. -/
theorem fill_row {T : Type} (h : Nat) (W : Int) (j : Nat) (R : Nat → List T)
    (g0 g : Nat → T) (body : List (List T) → Nat → Option (List (List T)))
    (hbody : ∀ i, i < W.toNat → ∀ g' : Nat → T,
      body (rowsOf h (fun k => if k = j then rowOf W.toNat g' else R k)) i =
        some (rowsOf h (fun k => if k = j then
          rowOf W.toNat (fun i' => if i' = i then g i else g' i') else R k))) :
    forRange W (rowsOf h (fun k => if k = j then rowOf W.toNat g0 else R k)) body =
      some (rowsOf h (fun k => if k = j then rowOf W.toNat g else R k)) := by
  have key := forRange_steps W body
    (fun i => rowsOf h (fun k => if k = j then
      rowOf W.toNat (fun i' => if i' < i then g i' else g0 i') else R k))
    (fun i hi => by
      beta_reduce
      rw [hbody i hi]
      congr 1
      apply rowsOf_congr
      intro k _
      by_cases hk : k = j
      · simp only [hk, if_true]
        apply rowOf_congr
        intro i' _
        by_cases hi' : i' = i
        · subst hi'; simp
        · have : i' < i + 1 ↔ i' < i := by omega
          simp [hi', this]
      · simp [hk])
  have h0 : rowsOf h (fun k => if k = j then rowOf W.toNat g0 else R k) =
      rowsOf h (fun k => if k = j then
        rowOf W.toNat (fun i' => if i' < 0 then g i' else g0 i') else R k) := by
    apply rowsOf_congr; intro k _; simp
  have h1 : rowsOf h (fun k => if k = j then
        rowOf W.toNat (fun i' => if i' < W.toNat then g i' else g0 i') else R k) =
      rowsOf h (fun k => if k = j then rowOf W.toNat g else R k) := by
    apply rowsOf_congr; intro k _
    by_cases hk : k = j
    · simp only [hk, if_true]
      apply rowOf_congr; intro i' hi'; simp [hi']
    · simp [hk]
  rw [h0]
  exact key.trans (congrArg some h1)

/-- A row-major sweep: iteration `(j, i)` replaces the entry at row `j`, column `i`. -/
theorem sweep_rows {T : Type} (H W : Int) (old new : Nat → Nat → T)
    (body : List (List T) → Nat → Nat → Option (List (List T)))
    (hbody : ∀ j i, j < H.toNat → i < W.toNat → ∀ F : Nat → Nat → T, F j i = old j i →
      body (table H.toNat W.toNat F) j i =
        some (table H.toNat W.toNat (fun j' i' => if j' = j ∧ i' = i then new j i else F j' i'))) :
    forRange H (table H.toNat W.toNat old)
        (fun vs j => forRange W vs (fun vs1 i => body vs1 j i)) =
      some (table H.toNat W.toNat new) := by
  have inner : ∀ j, j < H.toNat →
      forRange W (table H.toNat W.toNat (fun j' i' => if j' < j then new j' i' else old j' i'))
          (fun vs1 i => body vs1 j i) =
        some (table H.toNat W.toNat
          (fun j' i' => if j' < j + 1 then new j' i' else old j' i')) := by
    intro j hj
    have key := forRange_steps W (fun vs1 i => body vs1 j i)
      (fun i => table H.toNat W.toNat
        (fun j' i' => if j' < j ∨ (j' = j ∧ i' < i) then new j' i' else old j' i'))
      (fun i hi => by
        beta_reduce
        rw [hbody j i hj hi _ (by simp)]
        congr 1
        apply table_congr
        intro j' i' _ _
        by_cases h1 : j' = j ∧ i' = i
        · obtain ⟨rfl, rfl⟩ := h1; simp
        · have : (j' < j ∨ j' = j ∧ i' < i + 1) ↔ (j' < j ∨ j' = j ∧ i' < i) := by omega
          simp only [h1, if_false, this])
    have h0 : table H.toNat W.toNat (fun j' i' => if j' < j then new j' i' else old j' i') =
        table H.toNat W.toNat
          (fun j' i' => if j' < j ∨ (j' = j ∧ i' < 0) then new j' i' else old j' i') := by
      apply table_congr; intro j' i' _ _; simp
    have h1 : table H.toNat W.toNat
          (fun j' i' => if j' < j ∨ (j' = j ∧ i' < W.toNat) then new j' i' else old j' i') =
        table H.toNat W.toNat (fun j' i' => if j' < j + 1 then new j' i' else old j' i') := by
      apply table_congr; intro j' i' _ hi'
      have : (j' < j ∨ j' = j ∧ i' < W.toNat) ↔ j' < j + 1 := by omega
      simp only [this]
    rw [h0]
    exact key.trans (congrArg some h1)
  have key := forRange_steps H (fun vs j => forRange W vs (fun vs1 i => body vs1 j i))
    (fun j => table H.toNat W.toNat (fun j' i' => if j' < j then new j' i' else old j' i'))
    inner
  have h0 : table H.toNat W.toNat old =
      table H.toNat W.toNat (fun j' i' => if j' < 0 then new j' i' else old j' i') := by
    apply table_congr; intro j' i' _ _; simp
  have h1 : table H.toNat W.toNat
        (fun j' i' => if j' < H.toNat then new j' i' else old j' i') =
      table H.toNat W.toNat new := by
    apply table_congr; intro j' i' hj' _; simp [hj']
  rw [h0]
  exact key.trans (congrArg some h1)

/-- A column-major sweep: iteration `(i, j)` replaces the entry at row `j`, column `i`. -/
theorem sweep_cols {T : Type} (H W : Int) (old new : Nat → Nat → T)
    (body : List (List T) → Nat → Nat → Option (List (List T)))
    (hbody : ∀ j i, j < H.toNat → i < W.toNat → ∀ F : Nat → Nat → T, F j i = old j i →
      body (table H.toNat W.toNat F) j i =
        some (table H.toNat W.toNat (fun j' i' => if j' = j ∧ i' = i then new j i else F j' i'))) :
    forRange W (table H.toNat W.toNat old)
        (fun vs i => forRange H vs (fun vs1 j => body vs1 j i)) =
      some (table H.toNat W.toNat new) := by
  have inner : ∀ i, i < W.toNat →
      forRange H (table H.toNat W.toNat (fun j' i' => if i' < i then new j' i' else old j' i'))
          (fun vs1 j => body vs1 j i) =
        some (table H.toNat W.toNat
          (fun j' i' => if i' < i + 1 then new j' i' else old j' i')) := by
    intro i hi
    have key := forRange_steps H (fun vs1 j => body vs1 j i)
      (fun j => table H.toNat W.toNat
        (fun j' i' => if i' < i ∨ (i' = i ∧ j' < j) then new j' i' else old j' i'))
      (fun j hj => by
        beta_reduce
        rw [hbody j i hj hi _ (by simp)]
        congr 1
        apply table_congr
        intro j' i' _ _
        by_cases h1 : j' = j ∧ i' = i
        · obtain ⟨rfl, rfl⟩ := h1; simp
        · have : (i' < i ∨ i' = i ∧ j' < j + 1) ↔ (i' < i ∨ i' = i ∧ j' < j) := by omega
          simp only [h1, if_false, this])
    have h0 : table H.toNat W.toNat (fun j' i' => if i' < i then new j' i' else old j' i') =
        table H.toNat W.toNat
          (fun j' i' => if i' < i ∨ (i' = i ∧ j' < 0) then new j' i' else old j' i') := by
      apply table_congr; intro j' i' _ _; simp
    have h1 : table H.toNat W.toNat
          (fun j' i' => if i' < i ∨ (i' = i ∧ j' < H.toNat) then new j' i' else old j' i') =
        table H.toNat W.toNat (fun j' i' => if i' < i + 1 then new j' i' else old j' i') := by
      apply table_congr; intro j' i' hj' _
      have : (i' < i ∨ i' = i ∧ j' < H.toNat) ↔ i' < i + 1 := by omega
      simp only [this]
    rw [h0]
    exact key.trans (congrArg some h1)
  have key := forRange_steps W (fun vs i => forRange H vs (fun vs1 j => body vs1 j i))
    (fun i => table H.toNat W.toNat (fun j' i' => if i' < i then new j' i' else old j' i'))
    inner
  have h0 : table H.toNat W.toNat old =
      table H.toNat W.toNat (fun j' i' => if i' < 0 then new j' i' else old j' i') := by
    apply table_congr; intro j' i' _ _; simp
  have h1 : table H.toNat W.toNat
        (fun j' i' => if i' < W.toNat then new j' i' else old j' i') =
      table H.toNat W.toNat new := by
    apply table_congr; intro j' i' _ hi'; simp [hi']
  rw [h0]
  exact key.trans (congrArg some h1)

/-! ## Stored values as tables -/

theorem make_eq {T : Type} [Zero T] (n : Int) (hn : 0 ≤ n) :
    (make n : Option (List T)) = some (rowOf n.toNat (fun _ => 0)) := by
  have h : ¬ n < 0 := by omega
  simp [make, h, rowOf]

theorem makeRows_eq {T : Type} (n : Int) (hn : 0 ≤ n) :
    (makeRows n : Option (List (List T))) = some (rowsOf n.toNat (fun _ => [])) := by
  have h : ¬ n < 0 := by omega
  simp [makeRows, h, rowsOf]

theorem values_eq_table {T : Type} [Zero T] (vs : List (List T)) (h w : Nat)
    (hlen : vs.length = h) (hrow : ∀ row ∈ vs, row.length = w) :
    vs = table h w (fun j i => (index2 vs j i).getD 0) := by
  apply List.ext_getElem?
  intro j
  unfold table
  rw [rowsOf_getElem?]
  by_cases hj : j < h
  · have hj' : j < vs.length := by omega
    rw [if_pos hj, List.getElem?_eq_getElem hj']
    congr 1
    apply List.ext_getElem?
    intro i
    rw [rowOf_getElem?]
    have hw : (vs[j]).length = w := hrow _ (List.getElem_mem hj')
    by_cases hi : i < w
    · have hi' : i < (vs[j]).length := by omega
      simp [hi, index2, List.getElem?_eq_getElem hj', List.getElem?_eq_getElem hi']
    · rw [if_neg hi]
      apply List.getElem?_eq_none
      omega
  · rw [if_neg hj]
    apply List.getElem?_eq_none
    omega

theorem WellFormed.values_eq {T : Type} [Zero T] (a : Matrix T) (ha : a.WellFormed) :
    a.Values = table a.Dimensions.Height.toNat a.Dimensions.Width.toNat a.entry := by
  obtain ⟨_, _, hlen, hrow⟩ := ha
  exact values_eq_table a.Values _ _ (by omega) (fun row hr => by have := hrow row hr; omega)

theorem WellFormed.index2_eq {T : Type} [Zero T] (a : Matrix T) (ha : a.WellFormed)
    (j i : Nat) (hj : j < a.Dimensions.Height.toNat) (hi : i < a.Dimensions.Width.toNat) :
    index2 a.Values j i = some (a.entry j i) := by
  have h := WellFormed.values_eq a ha
  have h2 := index2_table a.Dimensions.Height.toNat a.Dimensions.Width.toNat a.entry j i hj hi
  rw [← h] at h2
  exact h2

theorem wellFormed_table {T : Type} (W H : Int) (hW : 1 ≤ W) (hH : 1 ≤ H)
    (f : Nat → Nat → T) : (⟨⟨W, H⟩, table H.toNat W.toNat f⟩ : Matrix T).WellFormed := by
  refine ⟨hW, hH, ?_, ?_⟩
  · simp only [table, rowsOf_length]
    omega
  · intro row hr
    simp only [table, rowsOf, List.mem_map, List.mem_range] at hr
    obtain ⟨j, _, rfl⟩ := hr
    simp only [rowOf_length]
    omega

theorem entry_table {T : Type} [Zero T] (d : Dimension) (h w : Nat) (f : Nat → Nat → T)
    (j i : Nat) (hj : j < h) (hi : i < w) :
    (⟨d, table h w f⟩ : Matrix T).entry j i = f j i := by
  simp [Matrix.entry, index2_table h w f j i hj hi]

/-! ## Closed forms of the operations -/

theorem Clone_table {T : Type} [Zero T] (a : Matrix T) (f : Nat → Nat → T)
    (hH : 0 ≤ a.Dimensions.Height) (hW : 0 ≤ a.Dimensions.Width)
    (hf : ∀ j i, j < a.Dimensions.Height.toNat → i < a.Dimensions.Width.toNat →
      index2 a.Values j i = some (f j i)) :
    a.Clone = some ⟨⟨a.Dimensions.Width, a.Dimensions.Height⟩,
      table a.Dimensions.Height.toNat a.Dimensions.Width.toNat f⟩ := by
  have hloop := build_rows a.Dimensions.Height
    (fun j => rowOf a.Dimensions.Width.toNat (f j))
    (fun vs j => do
      let row ← make a.Dimensions.Width
      let vs1 ← assignRow vs j row
      forRange a.Dimensions.Width vs1 (fun vs2 i => do
        let v ← index2 a.Values j i
        assign2 vs2 j i v))
    (fun j hj R => by
      simp only [make_eq _ hW, assignRow_rowsOf _ R j _ hj, Option.bind_eq_bind,
        Option.some_bind]
      apply fill_row
      intro i hi g'
      rw [hf j i hj hi]
      simp only [Option.some_bind]
      rw [assign2_rowsOf _ _ j i _ hj (by simp [rowOf_length, hi])]
      congr 1
      apply rowsOf_congr
      intro k _
      by_cases hk : k = j
      · simp [hk, rowOf_set]
      · simp [hk])
  simp only [Option.bind_eq_bind] at hloop
  simp only [Matrix.Clone, makeRows_eq _ hH, Option.bind_eq_bind, Option.some_bind]
  rw [hloop]
  rfl

theorem Clone_wellFormed {T : Type} [Zero T] (a : Matrix T) (ha : a.WellFormed) :
    a.Clone = some a := by
  have h := Clone_table a a.entry (by have := ha.2.1; omega) (by have := ha.1; omega)
    (fun j i hj hi => WellFormed.index2_eq a ha j i hj hi)
  rw [h, ← WellFormed.values_eq a ha]

theorem MultiplyScalar_eq {T : Type} [Zero T] [Mul T] (a : Matrix T) (x : T)
    (ha : a.WellFormed) :
    a.MultiplyScalar none x = some (⟨a.Dimensions,
      table a.Dimensions.Height.toNat a.Dimensions.Width.toNat
        (fun j i => a.entry j i * x)⟩, none) := by
  have hloop := sweep_cols a.Dimensions.Height a.Dimensions.Width a.entry
    (fun j i => a.entry j i * x)
    (fun vs1 j i => do
      let v ← index2 vs1 j i
      assign2 vs1 j i (v * x))
    (fun j i hj hi F hF => by
      simp only [index2_table _ _ F j i hj hi, Option.bind_eq_bind, Option.some_bind, hF]
      exact assign2_table _ _ F j i _ hj hi)
  simp only [Option.bind_eq_bind] at hloop
  rw [← WellFormed.values_eq a ha] at hloop
  simp only [Matrix.MultiplyScalar, Clone_wellFormed a ha, Option.bind_eq_bind,
    Option.some_bind, ne_eq, not_true_eq_false, if_false]
  rw [hloop]
  rfl

theorem Add_eq {T : Type} [Zero T] [Add T] (a b : Matrix T) (ha : a.WellFormed)
    (hb : b.WellFormed) (hdim : a.Dimensions = b.Dimensions) :
    a.Add none b = some (⟨a.Dimensions,
      table a.Dimensions.Height.toNat a.Dimensions.Width.toNat
        (fun j i => a.entry j i + b.entry j i)⟩, none) := by
  have hloop := sweep_rows a.Dimensions.Height a.Dimensions.Width a.entry
    (fun j i => a.entry j i + b.entry j i)
    (fun vs1 j i => do
      let v ← index2 vs1 j i
      let w ← index2 b.Values j i
      assign2 vs1 j i (v + w))
    (fun j i hj hi F hF => by
      have hbi := WellFormed.index2_eq b hb j i (hdim ▸ hj) (hdim ▸ hi)
      simp only [index2_table _ _ F j i hj hi, hbi, Option.bind_eq_bind, Option.some_bind, hF]
      exact assign2_table _ _ F j i _ hj hi)
  simp only [Option.bind_eq_bind] at hloop
  rw [← WellFormed.values_eq a ha] at hloop
  simp only [Matrix.Add, Clone_wellFormed a ha, Option.bind_eq_bind, Option.some_bind,
    ne_eq, not_true_eq_false, if_false, hdim, or_self]
  rw [← hdim, hloop]
  rfl

theorem Subtract_eq {T : Type} [Zero T] [Sub T] (a b : Matrix T) (ha : a.WellFormed)
    (hb : b.WellFormed) (hdim : a.Dimensions = b.Dimensions) :
    a.Subtract none b = some (⟨a.Dimensions,
      table a.Dimensions.Height.toNat a.Dimensions.Width.toNat
        (fun j i => a.entry j i - b.entry j i)⟩, none) := by
  have hloop := sweep_rows a.Dimensions.Height a.Dimensions.Width a.entry
    (fun j i => a.entry j i - b.entry j i)
    (fun vs1 j i => do
      let v ← index2 vs1 j i
      let w ← index2 b.Values j i
      assign2 vs1 j i (v - w))
    (fun j i hj hi F hF => by
      have hbi := WellFormed.index2_eq b hb j i (hdim ▸ hj) (hdim ▸ hi)
      simp only [index2_table _ _ F j i hj hi, hbi, Option.bind_eq_bind, Option.some_bind, hF]
      exact assign2_table _ _ F j i _ hj hi)
  simp only [Option.bind_eq_bind] at hloop
  rw [← WellFormed.values_eq a ha] at hloop
  simp only [Matrix.Subtract, Clone_wellFormed a ha, Option.bind_eq_bind, Option.some_bind,
    ne_eq, not_true_eq_false, if_false, hdim, or_self]
  rw [← hdim, hloop]
  rfl

theorem dotSum_loop {T : Type} [Zero T] [Add T] [Mul T] (a b : Matrix T)
    (ha : a.WellFormed) (hb : b.WellFormed)
    (hdim : a.Dimensions.Width = b.Dimensions.Height) (j x : Nat)
    (hj : j < a.Dimensions.Height.toNat) (hx : x < b.Dimensions.Width.toNat) :
    forRange a.Dimensions.Width (0 : T) (fun sum i => do
        let p ← index2 a.Values j i
        let q ← index2 b.Values i x
        pure (sum + p * q)) =
      some (dotSum a b j x a.Dimensions.Width.toNat) := by
  have key := forRange_steps a.Dimensions.Width (fun (sum : T) i => do
        let p ← index2 a.Values j i
        let q ← index2 b.Values i x
        pure (sum + p * q)) (fun n => dotSum a b j x n)
    (fun i hi => by
      have h1 := WellFormed.index2_eq a ha j i hj hi
      have h2 := WellFormed.index2_eq b hb i x (hdim ▸ hi) hx
      simp only [h1, h2, Option.bind_eq_bind, Option.some_bind, dotSum, List.range_succ,
        List.foldl_append, List.foldl_cons, List.foldl_nil]
      rfl)
  exact key

theorem Multiply_eq {T : Type} [Zero T] [Add T] [Mul T] (a b : Matrix T)
    (ha : a.WellFormed) (hb : b.WellFormed)
    (hdim : a.Dimensions.Width = b.Dimensions.Height) :
    a.Multiply none b = some (⟨⟨b.Dimensions.Width, a.Dimensions.Height⟩,
      table a.Dimensions.Height.toNat b.Dimensions.Width.toNat
        (fun j x => dotSum a b j x a.Dimensions.Width.toNat)⟩, none) := by
  have hH : 0 ≤ a.Dimensions.Height := by have := ha.2.1; omega
  have hW : 0 ≤ b.Dimensions.Width := by have := hb.1; omega
  have hinit := build_rows a.Dimensions.Height
    (fun _ => rowOf b.Dimensions.Width.toNat (fun _ => (0 : T)))
    (fun m j => do
      let row ← make b.Dimensions.Width
      assignRow m j row)
    (fun j hj R => by
      simp only [make_eq _ hW, Option.bind_eq_bind, Option.some_bind]
      exact assignRow_rowsOf _ R j _ hj)
  have hloop := sweep_rows a.Dimensions.Height b.Dimensions.Width (fun _ _ => (0 : T))
    (fun j x => dotSum a b j x a.Dimensions.Width.toNat)
    (fun m' j x => do
      let sum ← forRange a.Dimensions.Width (0 : T) (fun sum i => do
        let p ← index2 a.Values j i
        let q ← index2 b.Values i x
        pure (sum + p * q))
      assign2 m' j x sum)
    (fun j x hj hx F _ => by
      have hd := dotSum_loop a b ha hb hdim j x hj hx
      simp only [Option.bind_eq_bind] at hd
      simp only [Option.bind_eq_bind, hd, Option.some_bind]
      exact assign2_table _ _ F j x _ hj hx)
  simp only [Option.bind_eq_bind] at hinit hloop
  simp only [Matrix.Multiply, makeRows_eq _ hH, Option.bind_eq_bind, Option.some_bind,
    ne_eq, not_true_eq_false, if_false, hdim]
  rw [hinit]
  simp only [Option.some_bind]
  have ht : rowsOf a.Dimensions.Height.toNat
      (fun _ => rowOf b.Dimensions.Width.toNat (fun _ => (0 : T))) =
      table a.Dimensions.Height.toNat b.Dimensions.Width.toNat (fun _ _ => (0 : T)) := rfl
  rw [ht, ← hdim, hloop]
  rfl

theorem Transpose_eq {T : Type} [Zero T] (a : Matrix T) (err : ErrorSlot)
    (ha : a.WellFormed) :
    a.Transpose err = some (⟨⟨a.Dimensions.Height, a.Dimensions.Width⟩,
      table a.Dimensions.Width.toNat a.Dimensions.Height.toNat
        (fun j i => a.entry i j)⟩, err) := by
  have hH : 0 ≤ a.Dimensions.Height := by have := ha.2.1; omega
  have hW : 0 ≤ a.Dimensions.Width := by have := ha.1; omega
  have hloop := build_rows a.Dimensions.Width
    (fun j => rowOf a.Dimensions.Height.toNat (fun i => a.entry i j))
    (fun vs j => do
      let row ← make a.Dimensions.Height
      let vs1 ← assignRow vs j row
      forRange a.Dimensions.Height vs1 (fun vs2 i => do
        let v ← index2 a.Values i j
        assign2 vs2 j i v))
    (fun j hj R => by
      simp only [make_eq _ hH, assignRow_rowsOf _ R j _ hj, Option.bind_eq_bind,
        Option.some_bind]
      apply fill_row
      intro i hi g'
      rw [WellFormed.index2_eq a ha i j hi hj]
      simp only [Option.some_bind]
      rw [assign2_rowsOf _ _ j i _ hj (by simp [rowOf_length, hi])]
      congr 1
      apply rowsOf_congr
      intro k _
      by_cases hk : k = j
      · simp [hk, rowOf_set]
      · simp [hk])
  simp only [Option.bind_eq_bind] at hloop
  simp only [Matrix.Transpose, makeRows_eq _ hW, Option.bind_eq_bind, Option.some_bind]
  rw [hloop]
  rfl

theorem NewZero_eq {T : Type} [Zero T] (dim : Dimension) (hW : 1 ≤ dim.Width)
    (hH : 1 ≤ dim.Height) :
    (NewZero none dim : Option (Matrix T × ErrorSlot)) =
      some (⟨⟨dim.Width, dim.Height⟩,
        table dim.Height.toNat dim.Width.toNat (fun _ _ => 0)⟩, none) := by
  have hloop := build_rows dim.Height
    (fun _ => rowOf dim.Width.toNat (fun _ => (0 : T)))
    (fun vs y => do
      let row ← make dim.Width
      assignRow vs y row)
    (fun j hj R => by
      simp only [make_eq _ (show 0 ≤ dim.Width by omega), Option.bind_eq_bind,
        Option.some_bind]
      exact assignRow_rowsOf _ R j _ hj)
  have h1 : ¬ (dim.Width < 1 ∨ dim.Height < 1) := by omega
  simp only [Option.bind_eq_bind] at hloop
  simp only [NewZero, makeRows_eq _ (show 0 ≤ dim.Height by omega), Option.bind_eq_bind,
    Option.some_bind, ne_eq, not_true_eq_false, if_false, h1]
  rw [hloop]
  rfl

theorem NewIdentity_eq {T : Type} [Zero T] [One T] (dim : Dimension) (hW : 1 ≤ dim.Width)
    (hsq : dim.Height = dim.Width) :
    (NewIdentity none dim : Option (Matrix T × ErrorSlot)) =
      some (⟨⟨dim.Width, dim.Height⟩,
        table dim.Height.toNat dim.Width.toNat (fun i j => if i = j then 1 else 0)⟩,
        none) := by
  obtain ⟨W, H⟩ := dim
  simp only at hW hsq
  subst hsq
  simp only
  have hloop := build_rows H
    (fun y => rowOf H.toNat (fun j => if y = j then (1 : T) else 0))
    (fun vs y => do
      let row ← make H
      let vs1 ← assignRow vs y row
      assign2 vs1 y y 1)
    (fun j hj R => by
      simp only [make_eq _ (show 0 ≤ H by omega), assignRow_rowsOf _ R j _ hj,
        Option.bind_eq_bind, Option.some_bind]
      rw [assign2_rowsOf _ _ j j _ hj (by simp only [if_true, rowOf_length]; omega)]
      congr 1
      apply rowsOf_congr
      intro k _
      by_cases hk : k = j
      · simp only [hk, if_true, rowOf_set]
        apply rowOf_congr
        intro i _
        by_cases hi : i = j
        · simp [hi]
        · have : ¬ j = i := fun e => hi e.symm
          simp [hi, this]
      · simp [hk])
  have h1 : ¬ (H < 1 ∨ H < 1) := by omega
  simp only [Option.bind_eq_bind] at hloop
  simp only [NewIdentity, makeRows_eq _ (show 0 ≤ H by omega), Option.bind_eq_bind,
    Option.some_bind, ne_eq, not_true_eq_false, if_false, h1]
  rw [hloop]
  rfl

theorem table_two_by_two {T : Type} (f : Nat → Nat → T) :
    table 2 2 f = [[f 0 0, f 0 1], [f 1 0, f 1 1]] := rfl

theorem New_two_rows {T : Type} (p q r s : T) :
    New none [[p, q], [r, s]] = ((⟨⟨2, 2⟩, [[p, q], [r, s]]⟩ : Matrix T), none) := by
  simp [New]

theorem Inverse_two_by_two {T : Type} [Zero T] [One T] [Sub T] [Mul T] [Neg T] [Div T]
    [BEq T] (a : Matrix T) (ha : a.WellFormed) (hW : a.Dimensions.Width = 2)
    (hH : a.Dimensions.Height = 2) :
    a.Inverse none =
      if a.entry 0 0 * a.entry 1 1 - a.entry 0 1 * a.entry 1 0 == 0 then
        some (Matrix.empty, some .singular)
      else
        some (⟨⟨2, 2⟩,
          [[a.entry 1 1 * (1 / (a.entry 0 0 * a.entry 1 1 - a.entry 0 1 * a.entry 1 0)),
            -a.entry 0 1 * (1 / (a.entry 0 0 * a.entry 1 1 - a.entry 0 1 * a.entry 1 0))],
           [-a.entry 1 0 * (1 / (a.entry 0 0 * a.entry 1 1 - a.entry 0 1 * a.entry 1 0)),
            a.entry 0 0 * (1 / (a.entry 0 0 * a.entry 1 1 - a.entry 0 1 * a.entry 1 0))]]⟩,
          none) := by
  have h00 := WellFormed.index2_eq a ha 0 0 (by omega) (by omega)
  have h11 := WellFormed.index2_eq a ha 1 1 (by omega) (by omega)
  have h01 := WellFormed.index2_eq a ha 0 1 (by omega) (by omega)
  have h10 := WellFormed.index2_eq a ha 1 0 (by omega) (by omega)
  simp only [Matrix.Inverse, hW, hH, h00, h11, h01, h10, Option.bind_eq_bind,
    Option.some_bind, ne_eq, not_true_eq_false, if_false, if_true, New_two_rows]
  cases hdet : a.entry 0 0 * a.entry 1 1 - a.entry 0 1 * a.entry 1 0 == 0
  · simp only [Bool.false_eq_true, if_false]
    have hwf : (⟨⟨2, 2⟩, [[a.entry 1 1, -a.entry 0 1], [-a.entry 1 0, a.entry 0 0]]⟩ :
        Matrix T).WellFormed := by
      refine ⟨by simp, by simp, by simp, ?_⟩
      intro row hr
      simp only [List.mem_cons, List.mem_singleton, List.not_mem_nil, or_false] at hr
      rcases hr with rfl | rfl <;> rfl
    rw [MultiplyScalar_eq _ _ hwf]
    rfl
  · simp only [if_true]

theorem Inverse_nonsingular {T : Type} [Zero T] [One T] [Sub T] [Mul T] [Neg T] [Div T]
    [BEq T] (a : Matrix T) (ha : a.WellFormed) (hW : a.Dimensions.Width = 2)
    (hH : a.Dimensions.Height = 2)
    (hdet : (a.entry 0 0 * a.entry 1 1 - a.entry 0 1 * a.entry 1 0 == 0) = false) :
    a.Inverse none = some (⟨⟨2, 2⟩,
      [[a.entry 1 1 * (1 / (a.entry 0 0 * a.entry 1 1 - a.entry 0 1 * a.entry 1 0)),
        -a.entry 0 1 * (1 / (a.entry 0 0 * a.entry 1 1 - a.entry 0 1 * a.entry 1 0))],
       [-a.entry 1 0 * (1 / (a.entry 0 0 * a.entry 1 1 - a.entry 0 1 * a.entry 1 0)),
        a.entry 0 0 * (1 / (a.entry 0 0 * a.entry 1 1 - a.entry 0 1 * a.entry 1 0))]]⟩,
      none) := by
  rw [Inverse_two_by_two a ha hW hH, hdet]
  rfl

theorem Inverse_not_square {T : Type} [Zero T] [One T] [Sub T] [Mul T] [Neg T] [Div T]
    [BEq T] (a : Matrix T) (h : a.Dimensions.Height ≠ a.Dimensions.Width) :
    a.Inverse none = some (Matrix.empty, some .inverseNotSquare) := by
  simp [Matrix.Inverse, h]

theorem Inverse_other_size {T : Type} [Zero T] [One T] [Sub T] [Mul T] [Neg T] [Div T]
    [BEq T] (a : Matrix T) (h : a.Dimensions.Height = a.Dimensions.Width)
    (h2 : a.Dimensions.Width ≠ 2) :
    a.Inverse none = some (Matrix.empty, some .inverseNotImplemented) := by
  simp [Matrix.Inverse, h, h2]

theorem slot_held {T : Type} [Zero T] [One T] [Add T] [Sub T] [Mul T] [Neg T] [Div T]
    [BEq T] (a b : Matrix T) (x : T) (e : MatrixError) :
    a.MultiplyScalar (some e) x = some (Matrix.empty, some e) ∧
    a.Multiply (some e) b = some (Matrix.empty, some e) ∧
    a.Add (some e) b = some (Matrix.empty, some e) ∧
    a.Subtract (some e) b = some (Matrix.empty, some e) ∧
    a.Inverse (some e) = some (Matrix.empty, some e) := by
  simp [Matrix.MultiplyScalar, Matrix.Multiply, Matrix.Add, Matrix.Subtract, Matrix.Inverse]

theorem MultiplyScalar_held {T : Type} [Zero T] [Mul T] (a : Matrix T) (x : T)
    (e : MatrixError) : a.MultiplyScalar (some e) x = some (Matrix.empty, some e) := by
  simp [Matrix.MultiplyScalar]

theorem allM_option {α : Type} (l : List α) (f : α → Option Bool) (p : α → Bool)
    (h : ∀ x ∈ l, f x = some (p x)) : l.allM f = some (l.all p) := by
  induction l with
  | nil => rfl
  | cons x xs ih =>
    have hx := h x (List.mem_cons_self x xs)
    have ih' := ih (fun y hy => h y (List.mem_cons_of_mem x hy))
    simp only [List.allM, hx, List.all_cons]
    cases p x
    · simp
    · simpa using ih'

theorem Equal_empty {T : Type} [BEq T] :
    (Matrix.empty : Matrix T).Equal Matrix.empty = some true := by
  simp [Matrix.Equal, Matrix.empty, List.allM]

/-! ## Multiplication, addition and subtraction -/

/-- C1: for well-formed `a` and `b` with `a.Width = b.Height` and an empty error slot,
`Multiply` does not panic, leaves the slot empty and returns a well-formed matrix of width
`b.Width` and height `a.Height` whose element `[j][x]` is the running sum, seeded at `0`,
of the products `a[j][i] * b[i][x]` for `i = 0, …, a.Width - 1` in ascending order. -/
theorem multiply_dot_products {T : Type} [Zero T] [Add T] [Mul T] (a b : Matrix T)
    (ha : a.WellFormed) (hb : b.WellFormed)
    (hdim : a.Dimensions.Width = b.Dimensions.Height) :
    ∃ m : Matrix T, a.Multiply none b = some (m, none) ∧
      m.Dimensions.Width = b.Dimensions.Width ∧
      m.Dimensions.Height = a.Dimensions.Height ∧
      m.WellFormed ∧
      ∀ j x, j < a.Dimensions.Height.toNat → x < b.Dimensions.Width.toNat →
        index2 m.Values j x = some ((List.range a.Dimensions.Width.toNat).foldl
          (fun sum i => sum + a.entry j i * b.entry i x) 0) := by
  refine ⟨_, Multiply_eq a b ha hb hdim, rfl, rfl, ?_, ?_⟩
  · exact wellFormed_table _ _ hb.1 ha.2.1 _
  · intro j x hj hx
    exact index2_table _ _ _ j x hj hx

/-- C1 at the test's input: `[[1,2],[3,4]] × [[1,2,3],[4,5,6]] = [[9,12,15],[19,26,33]]`,
the elements read off the general statement. -/
theorem multiply_dot_products_example :
    test2x2.WellFormed ∧ test2x3.WellFormed ∧
      test2x2.Dimensions.Width = test2x3.Dimensions.Height ∧
      test2x2.Multiply none test2x3 =
        some ((New none [[9, 12, 15], [19, 26, 33]]).1, none) ∧
      ∃ m : Matrix Int, test2x2.Multiply none test2x3 = some (m, none) ∧
        m.Dimensions = ⟨3, 2⟩ ∧
        index2 m.Values 0 0 = some 9 ∧ index2 m.Values 0 1 = some 12 ∧
        index2 m.Values 0 2 = some 15 ∧ index2 m.Values 1 0 = some 19 ∧
        index2 m.Values 1 1 = some 26 ∧ index2 m.Values 1 2 = some 33 := by
  refine ⟨by decide, by decide, by decide, by decide, ?_⟩
  obtain ⟨m, hm, hw, hh, _, hel⟩ :=
    multiply_dot_products test2x2 test2x3 (by decide) (by decide) (by decide)
  refine ⟨m, hm, ?_, ?_, ?_, ?_, ?_, ?_, ?_⟩
  · cases m with
    | mk d vs =>
      cases d
      simp only at hw hh
      rw [hw, hh]
      rfl
  · rw [hel 0 0 (by decide) (by decide)]; rfl
  · rw [hel 0 1 (by decide) (by decide)]; rfl
  · rw [hel 0 2 (by decide) (by decide)]; rfl
  · rw [hel 1 0 (by decide) (by decide)]; rfl
  · rw [hel 1 1 (by decide) (by decide)]; rfl
  · rw [hel 1 2 (by decide) (by decide)]; rfl

/-- C2: on well-formed operands and an empty error slot, `Multiply` reports its
incompatible-dimensions error exactly when `a.Width ≠ b.Height`, `Add` and `Subtract`
report theirs exactly when `a.Width ≠ b.Width` or `a.Height ≠ b.Height`; none of them
panics, and whenever the slot is left non-empty the returned matrix is the zero value
`Matrix{}`, which has width 0, height 0, no rows and is `Equal` to `Matrix{}`. -/
theorem incompatible_dimensions_iff {T : Type} [Zero T] [Add T] [Sub T] [Mul T]
    [BEq T] (a b : Matrix T) (ha : a.WellFormed) (hb : b.WellFormed) :
    (∃ m e, a.Multiply none b = some (m, e) ∧
      (e = some .multiplyIncompatible ↔ a.Dimensions.Width ≠ b.Dimensions.Height) ∧
      (e.map MatrixError.kind = some .IncompatibleDimensionsError ↔
        a.Dimensions.Width ≠ b.Dimensions.Height) ∧
      (e ≠ none → m = Matrix.empty)) ∧
    (∃ m e, a.Add none b = some (m, e) ∧
      (e = some .addIncompatible ↔
        (a.Dimensions.Width ≠ b.Dimensions.Width ∨
          a.Dimensions.Height ≠ b.Dimensions.Height)) ∧
      (e.map MatrixError.kind = some .IncompatibleDimensionsError ↔
        (a.Dimensions.Width ≠ b.Dimensions.Width ∨
          a.Dimensions.Height ≠ b.Dimensions.Height)) ∧
      (e ≠ none → m = Matrix.empty)) ∧
    (∃ m e, a.Subtract none b = some (m, e) ∧
      (e = some .subtractIncompatible ↔
        (a.Dimensions.Width ≠ b.Dimensions.Width ∨
          a.Dimensions.Height ≠ b.Dimensions.Height)) ∧
      (e.map MatrixError.kind = some .IncompatibleDimensionsError ↔
        (a.Dimensions.Width ≠ b.Dimensions.Width ∨
          a.Dimensions.Height ≠ b.Dimensions.Height)) ∧
      (e ≠ none → m = Matrix.empty)) ∧
    ((Matrix.empty : Matrix T).Dimensions.Width = 0 ∧
      (Matrix.empty : Matrix T).Dimensions.Height = 0 ∧
      (Matrix.empty : Matrix T).Values = [] ∧
      (Matrix.empty : Matrix T).Equal (⟨⟨0, 0⟩, []⟩ : Matrix T) = some true) := by
  refine ⟨?_, ?_, ?_, rfl, rfl, rfl, Equal_empty⟩
  · by_cases hdim : a.Dimensions.Width = b.Dimensions.Height
    · exact ⟨_, _, Multiply_eq a b ha hb hdim, by simp [hdim], by simp [hdim], by simp⟩
    · refine ⟨Matrix.empty, some .multiplyIncompatible, ?_, by simp [hdim],
        by simp [hdim, MatrixError.kind], by simp⟩
      simp [Matrix.Multiply, hdim]
  · by_cases hdim : a.Dimensions.Width ≠ b.Dimensions.Width ∨
        a.Dimensions.Height ≠ b.Dimensions.Height
    · refine ⟨Matrix.empty, some .addIncompatible, ?_, by simp [hdim],
        by simp [hdim, MatrixError.kind], by simp⟩
      simp only [Matrix.Add, ne_eq, not_true_eq_false, if_false]
      rw [if_pos hdim]
    · have hd : a.Dimensions = b.Dimensions := by
        cases ha' : a.Dimensions; cases hb' : b.Dimensions
        simp only [ha', hb'] at hdim
        simp only [Dimension.mk.injEq]
        omega
      exact ⟨_, _, Add_eq a b ha hb hd, by simp [hdim], by simp [hdim], by simp⟩
  · by_cases hdim : a.Dimensions.Width ≠ b.Dimensions.Width ∨
        a.Dimensions.Height ≠ b.Dimensions.Height
    · refine ⟨Matrix.empty, some .subtractIncompatible, ?_, by simp [hdim],
        by simp [hdim, MatrixError.kind], by simp⟩
      simp only [Matrix.Subtract, ne_eq, not_true_eq_false, if_false]
      rw [if_pos hdim]
    · have hd : a.Dimensions = b.Dimensions := by
        cases ha' : a.Dimensions; cases hb' : b.Dimensions
        simp only [ha', hb'] at hdim
        simp only [Dimension.mk.injEq]
        omega
      exact ⟨_, _, Subtract_eq a b ha hb hd, by simp [hdim], by simp [hdim], by simp⟩

/-- C2 at the test's input: multiplying the 2×2 matrix `[[1,2],[3,4]]` by the 3×1 matrix
`[[1],[2],[3]]` reports the multiply error and returns `Matrix{}`. -/
theorem incompatible_dimensions_example :
    test2x2.WellFormed ∧ test3x1.WellFormed ∧
      test2x2.Multiply none test3x1 = some (Matrix.empty, some .multiplyIncompatible) := by
  refine ⟨by decide, by decide, ?_⟩
  obtain ⟨m, e, hm, hiff, _, hsent⟩ :=
    (incompatible_dimensions_iff test2x2 test3x1 (by decide) (by decide)).1
  have he : e = some .multiplyIncompatible := hiff.2 (by decide)
  subst he
  rw [hm, hsent (by simp)]

/-- C3: for well-formed `a` and `b` of identical shape and an empty error slot, `Add` and
`Subtract` do not panic, leave the slot empty and return a well-formed matrix with the
dimensions of the operands whose element `[j][i]` is `a[j][i] + b[j][i]`, respectively
`a[j][i] - b[j][i]`. -/
theorem add_subtract_elementwise {T : Type} [Zero T] [Add T] [Sub T] (a b : Matrix T)
    (ha : a.WellFormed) (hb : b.WellFormed)
    (hW : a.Dimensions.Width = b.Dimensions.Width)
    (hH : a.Dimensions.Height = b.Dimensions.Height) :
    (∃ m : Matrix T, a.Add none b = some (m, none) ∧
      m.Dimensions = a.Dimensions ∧ m.Dimensions = b.Dimensions ∧ m.WellFormed ∧
      ∀ j i, j < a.Dimensions.Height.toNat → i < a.Dimensions.Width.toNat →
        index2 m.Values j i = some (a.entry j i + b.entry j i)) ∧
    (∃ m : Matrix T, a.Subtract none b = some (m, none) ∧
      m.Dimensions = a.Dimensions ∧ m.Dimensions = b.Dimensions ∧ m.WellFormed ∧
      ∀ j i, j < a.Dimensions.Height.toNat → i < a.Dimensions.Width.toNat →
        index2 m.Values j i = some (a.entry j i - b.entry j i)) := by
  have hd : a.Dimensions = b.Dimensions := by
    cases ha' : a.Dimensions; cases hb' : b.Dimensions
    simp only [ha', hb'] at hW hH
    simp only [Dimension.mk.injEq]
    exact ⟨hW, hH⟩
  constructor
  · refine ⟨_, Add_eq a b ha hb hd, rfl, hd, ?_, ?_⟩
    · exact wellFormed_table _ _ ha.1 ha.2.1 _
    · intro j i hj hi
      exact index2_table _ _ _ j i hj hi
  · refine ⟨_, Subtract_eq a b ha hb hd, rfl, hd, ?_, ?_⟩
    · exact wellFormed_table _ _ ha.1 ha.2.1 _
    · intro j i hj hi
      exact index2_table _ _ _ j i hj hi

/-- C3 at the tests' inputs: `[[1,2],[3,4]] + [[1,2],[3,4]] = [[2,4],[6,8]]` (`TestAdd`)
and `[[1,2],[3,4]] - [[4,3],[2,1]] = [[-3,-1],[1,3]]` (`TestSubtract`). -/
theorem add_subtract_example :
    test2x2.WellFormed ∧ test2x2b.WellFormed ∧
      test2x2.Add none test2x2 = some ((New none [[2, 4], [6, 8]]).1, none) ∧
      test2x2.Subtract none test2x2b = some ((New none [[-3, -1], [1, 3]]).1, none) ∧
      (∃ m : Matrix Int, test2x2.Subtract none test2x2b = some (m, none) ∧
        index2 m.Values 0 0 = some (-3) ∧ index2 m.Values 1 1 = some 3) := by
  refine ⟨by decide, by decide, by decide, by decide, ?_⟩
  obtain ⟨m, hm, _, _, _, hel⟩ :=
    (add_subtract_elementwise test2x2 test2x2b (by decide) (by decide) (by decide)
      (by decide)).2
  refine ⟨m, hm, ?_, ?_⟩
  · rw [hel 0 0 (by decide) (by decide)]; rfl
  · rw [hel 1 1 (by decide) (by decide)]; rfl

/-! ## Inverse -/

theorem entry_rows {T : Type} [Zero T] (d : Dimension) (p q r s : T) :
    (⟨d, [[p, q], [r, s]]⟩ : Matrix T).entry 0 0 = p ∧
    (⟨d, [[p, q], [r, s]]⟩ : Matrix T).entry 0 1 = q ∧
    (⟨d, [[p, q], [r, s]]⟩ : Matrix T).entry 1 0 = r ∧
    (⟨d, [[p, q], [r, s]]⟩ : Matrix T).entry 1 1 = s :=
  ⟨rfl, rfl, rfl, rfl⟩

theorem wellFormed_rows {T : Type} (p q r s : T) :
    (⟨⟨2, 2⟩, [[p, q], [r, s]]⟩ : Matrix T).WellFormed := by
  refine ⟨by simp, by simp, by simp, ?_⟩
  intro row hr
  simp only [List.mem_cons, List.mem_singleton, List.not_mem_nil, or_false] at hr
  rcases hr with rfl | rfl <;> rfl

theorem Equal_self {T : Type} [Zero T] [BEq T] (a : Matrix T) (ha : a.WellFormed)
    (hrefl : ∀ j i, j < a.Dimensions.Height.toNat → i < a.Dimensions.Width.toNat →
      (a.entry j i == a.entry j i) = true) :
    a.Equal a = some true := by
  simp only [Matrix.Equal, ne_eq, not_true_eq_false, if_false]
  rw [allM_option _ _ (fun _ => true)]
  · simp
  · intro i hi
    rw [allM_option _ _ (fun _ => true)]
    · simp
    · intro j hj
      rw [WellFormed.index2_eq a ha j i (List.mem_range.mp hj) (List.mem_range.mp hi)]
      simp [bne, hrefl j i (List.mem_range.mp hj) (List.mem_range.mp hi)]

theorem Equal_self_lawful {T : Type} [Zero T] [BEq T] [LawfulBEq T] (a : Matrix T)
    (ha : a.WellFormed) : a.Equal a = some true :=
  Equal_self a ha (fun _ _ _ _ => beq_self_eq_true _)

/-- C4: for a well-formed 2×2 matrix `a` whose determinant
`detA = a[0][0]*a[1][1] - a[0][1]*a[1][0]` is not zero (the test `detA == 0` of the element
type is false), and an empty error slot, `Inverse` does not panic, leaves the slot empty and
returns the 2×2 matrix whose rows are `[a[1][1], -a[0][1]]` and `[-a[1][0], a[0][0]]` with
every element multiplied by `1 / detA`. -/
theorem inverse_adjugate_scaled {T : Type} [Zero T] [One T] [Sub T] [Mul T] [Neg T] [Div T]
    [BEq T] (a : Matrix T) (ha : a.WellFormed) (hW : a.Dimensions.Width = 2)
    (hH : a.Dimensions.Height = 2)
    (hdet : (a.entry 0 0 * a.entry 1 1 - a.entry 0 1 * a.entry 1 0 == 0) = false) :
    a.Inverse none = some (⟨⟨2, 2⟩,
      [[a.entry 1 1 * (1 / (a.entry 0 0 * a.entry 1 1 - a.entry 0 1 * a.entry 1 0)),
        -a.entry 0 1 * (1 / (a.entry 0 0 * a.entry 1 1 - a.entry 0 1 * a.entry 1 0))],
       [-a.entry 1 0 * (1 / (a.entry 0 0 * a.entry 1 1 - a.entry 0 1 * a.entry 1 0)),
        a.entry 0 0 * (1 / (a.entry 0 0 * a.entry 1 1 - a.entry 0 1 * a.entry 1 0))]]⟩,
      none) := by
  rw [Inverse_two_by_two a ha hW hH, hdet]
  rfl

/-- C4 at the test's input, in `float64`: the determinant of `[[1,-1],[0,2]]` is 2 and
`Inverse([[1,-1],[0,2]])` is `Equal` to `[[1, 1/2],[0, 1/2]]`. -/
theorem inverse_adjugate_scaled_example :
    testInverseA.WellFormed ∧
      (testInverseA.entry 0 0 * testInverseA.entry 1 1 -
        testInverseA.entry 0 1 * testInverseA.entry 1 0 == F64.ofInt 2) = true ∧
      ∃ m : Matrix F64, testInverseA.Inverse none = some (m, none) ∧
        m.Equal (New none [[F64.ofInt 1, F64.ofInt 1 / F64.ofInt 2],
          [F64.ofInt 0, F64.ofInt 1 / F64.ofInt 2]]).1 = some true :=
  ⟨by decide, by decide,
    _, inverse_adjugate_scaled testInverseA (by decide) rfl rfl (by decide), by decide⟩

/-- C5: on a well-formed matrix and an empty error slot, `Inverse` does not panic; it
reports the not-square error exactly when `Height ≠ Width`, the singular-matrix error
exactly when the matrix is 2×2 with `a[0][0]*a[1][1] - a[0][1]*a[1][0] == 0`, and the
unsupported-size error exactly when the matrix is square of a size other than 2×2; whenever
the slot is left non-empty the returned matrix is the zero value `Matrix{}`. -/
theorem inverse_errors {T : Type} [Zero T] [One T] [Sub T] [Mul T] [Neg T] [Div T]
    [BEq T] (a : Matrix T) (ha : a.WellFormed) :
    ∃ m e, a.Inverse none = some (m, e) ∧
      (e = some .inverseNotSquare ↔ a.Dimensions.Height ≠ a.Dimensions.Width) ∧
      (e.map MatrixError.kind = some .NotSquareError ↔
        a.Dimensions.Height ≠ a.Dimensions.Width) ∧
      (e = some .singular ↔ (a.Dimensions.Width = 2 ∧ a.Dimensions.Height = 2 ∧
        (a.entry 0 0 * a.entry 1 1 - a.entry 0 1 * a.entry 1 0 == 0) = true)) ∧
      (e.map MatrixError.kind = some .SingularMatrixError ↔
        (a.Dimensions.Width = 2 ∧ a.Dimensions.Height = 2 ∧
          (a.entry 0 0 * a.entry 1 1 - a.entry 0 1 * a.entry 1 0 == 0) = true)) ∧
      (e = some .inverseNotImplemented ↔
        (a.Dimensions.Height = a.Dimensions.Width ∧ a.Dimensions.Width ≠ 2)) ∧
      (e.map MatrixError.kind = some .UnsupportedSizeError ↔
        (a.Dimensions.Height = a.Dimensions.Width ∧ a.Dimensions.Width ≠ 2)) ∧
      (e ≠ none → m = Matrix.empty) := by
  by_cases hsq : a.Dimensions.Height = a.Dimensions.Width
  · by_cases h2 : a.Dimensions.Width = 2
    · have hH : a.Dimensions.Height = 2 := by omega
      cases hdet : a.entry 0 0 * a.entry 1 1 - a.entry 0 1 * a.entry 1 0 == 0
      · refine ⟨_, none, Inverse_nonsingular a ha h2 hH hdet, ?_⟩
        simp [hsq, h2]
      · refine ⟨Matrix.empty, some .singular, ?_, ?_⟩
        · rw [Inverse_two_by_two a ha h2 hH, hdet]
          rfl
        · simp [hsq, h2, MatrixError.kind]
    · refine ⟨Matrix.empty, some .inverseNotImplemented, Inverse_other_size a hsq h2, ?_⟩
      simp [hsq, h2, MatrixError.kind]
  · refine ⟨Matrix.empty, some .inverseNotSquare, Inverse_not_square a hsq, ?_⟩
    have h2 : ¬ (a.Dimensions.Width = 2 ∧ a.Dimensions.Height = 2 ∧
        (a.entry 0 0 * a.entry 1 1 - a.entry 0 1 * a.entry 1 0 == 0) = true) := by
      rintro ⟨h1, h2, _⟩
      exact hsq (by omega)
    simp [hsq, h2, MatrixError.kind]

/-- C5 at concrete inputs: `Inverse([[1,2],[2,4]])` reports the singular-matrix error,
the inverse of the 1×1 matrix `[[1]]` reports the unsupported-size error and the inverse of
the 2×3 matrix `[[1,2,3],[4,5,6]]` the not-square error; each returns `Matrix{}`. -/
theorem inverse_errors_example :
    testSingular.WellFormed ∧
      testSingular.Inverse none = some (Matrix.empty, some .singular) ∧
      test1x1.Inverse none = some (Matrix.empty, some .inverseNotImplemented) ∧
      test2x3.Inverse none = some (Matrix.empty, some .inverseNotSquare) := by
  refine ⟨by decide, ?_, by decide, by decide⟩
  obtain ⟨m, e, hm, _, _, hiff, _, _, _, hsent⟩ := inverse_errors testSingular (by decide)
  have he : e = some .singular := hiff.2 (by decide)
  subst he
  rw [hm, hsent (by simp)]

/-! ## The identity law -/

theorem dotSum_two {T : Type} [Zero T] [Add T] [Mul T] (a b : Matrix T) (j x : Nat) :
    dotSum a b j x 2 = 0 + a.entry j 0 * b.entry 0 x + a.entry j 1 * b.entry 1 x := rfl

theorem inverse_times_matrix {T : Type} [CommRing T] [Div T] [BEq T] [LawfulBEq T]
    (a : Matrix T) (ha : a.WellFormed) (hW : a.Dimensions.Width = 2)
    (hH : a.Dimensions.Height = 2)
    (hdet : a.entry 0 0 * a.entry 1 1 - a.entry 0 1 * a.entry 1 0 ≠ 0)
    (hrec : 1 / (a.entry 0 0 * a.entry 1 1 - a.entry 0 1 * a.entry 1 0) *
      (a.entry 0 0 * a.entry 1 1 - a.entry 0 1 * a.entry 1 0) = 1) :
    ∃ inv r : Matrix T, a.Inverse none = some (inv, none) ∧
      inv.Multiply none a = some (r, none) ∧
      NewIdentity none a.Dimensions = some (r, none) ∧ r.WellFormed := by
  have hinv := Inverse_nonsingular a ha hW hH (beq_eq_false_iff_ne.mpr hdet)
  have hd : a.Dimensions = ⟨2, 2⟩ := by
    cases hd' : a.Dimensions
    simp only [hd'] at hW hH
    rw [hW, hH]
  refine ⟨_, ⟨⟨2, 2⟩, table 2 2 (fun i j => if i = j then 1 else 0)⟩, hinv, ?_, ?_, ?_⟩
  · rw [Multiply_eq _ a (wellFormed_rows _ _ _ _) ha (by simp [hH])]
    simp only [hW]
    congr 3
    apply table_congr
    intro j i hj hi
    have hj2 : j = 0 ∨ j = 1 := by
      have : j < 2 := hj
      omega
    have hi2 : i = 0 ∨ i = 1 := by
      have : i < 2 := hi
      omega
    rw [show (2 : Int).toNat = 2 from rfl, dotSum_two]
    rcases hj2 with rfl | rfl <;> rcases hi2 with rfl | rfl <;>
      simp only [entry_rows, if_true, one_ne_zero, zero_ne_one, if_false]
    · linear_combination hrec
    · ring
    · ring
    · linear_combination hrec
  · rw [NewIdentity_eq a.Dimensions (by omega) (by omega), hd]
    rfl
  · exact wellFormed_table 2 2 (by omega) (by omega) _


/-! ## Constructors -/

theorem New_held {T : Type} (e : MatrixError) (rows : List (List T)) :
    New (some e) rows = (Matrix.empty, some e) := by
  simp [New]

theorem New_nil {T : Type} :
    New none ([] : List (List T)) = (Matrix.empty, some .dimensionLessThanOne) := by
  simp [New]

theorem New_empty_row {T : Type} (rest : List (List T)) :
    New none (([] : List T) :: rest) = (Matrix.empty, some .dimensionLessThanOne) := by
  have h : ¬ ((rest.length : Int) + 1 < 1) := by omega
  simp [New, h]

theorem New_ragged {T : Type} (x : T) (xs : List T) (rest : List (List T))
    (h : ∃ row ∈ (x :: xs) :: rest, row.length ≠ (x :: xs).length) :
    New none ((x :: xs) :: rest) = (Matrix.empty, some .differentRowLengths) := by
  have h1 : ¬ ((rest.length : Int) + 1 < 1) := by omega
  have h2 : ¬ ((xs.length : Int) + 1 < 1) := by omega
  have h3 : ((x :: xs) :: rest).any
      (fun row => decide ((row.length : Int) ≠ ((x :: xs).length : Int))) = true := by
    rw [List.any_eq_true]
    obtain ⟨row, hrow, hne⟩ := h
    refine ⟨row, hrow, ?_⟩
    simp only [decide_eq_true_eq]
    intro hc
    exact hne (by exact_mod_cast hc)
  simp only [New, ne_eq, not_true_eq_false, if_false, List.length_cons, Nat.cast_add,
    Nat.cast_one, h1, h2]
  simp only [List.length_cons, Nat.cast_add, Nat.cast_one, ne_eq] at h3
  rw [if_pos h3]

theorem New_rectangular {T : Type} (x : T) (xs : List T) (rest : List (List T))
    (h : ∀ row ∈ (x :: xs) :: rest, row.length = (x :: xs).length) :
    New none ((x :: xs) :: rest) =
      (⟨⟨((x :: xs).length : Int), (((x :: xs) :: rest).length : Int)⟩, (x :: xs) :: rest⟩,
        none) := by
  have h1 : ¬ ((rest.length : Int) + 1 < 1) := by omega
  have h2 : ¬ ((xs.length : Int) + 1 < 1) := by omega
  have h3 : ¬ (((x :: xs) :: rest).any
      (fun row => decide ((row.length : Int) ≠ ((x :: xs).length : Int))) = true) := by
    rw [List.any_eq_true]
    rintro ⟨row, hrow, hne⟩
    simp only [decide_eq_true_eq] at hne
    exact hne (by exact_mod_cast h row hrow)
  simp only [New, ne_eq, not_true_eq_false, if_false, List.length_cons, Nat.cast_add,
    Nat.cast_one, h1, h2]
  simp only [List.length_cons, Nat.cast_add, Nat.cast_one, ne_eq] at h3
  rw [if_neg h3]

/-- C7: started with an empty error slot, `New(rows)` reports the dimension error exactly
when `rows` is empty or `rows[0]` is empty, reports the ragged-rows error exactly when
`rows` and `rows[0]` are non-empty and some row's length differs from `len(rows[0])`, and
otherwise succeeds with `Height = len(rows)`, `Width = len(rows[0])` and `Values = rows`;
every failure returns the zero value `Matrix{}`. -/
theorem new_outcomes {T : Type} (rows : List (List T)) :
    ((New none rows).2 = some .dimensionLessThanOne ↔
      (rows = [] ∨ rows.head? = some [])) ∧
    ((New none rows).2 = some .differentRowLengths ↔
      (rows ≠ [] ∧ rows.head? ≠ some [] ∧
        ∃ row ∈ rows, row.length ≠ (rows.headD []).length)) ∧
    ((New none rows).2 = none ↔
      (rows ≠ [] ∧ rows.head? ≠ some [] ∧
        ∀ row ∈ rows, row.length = (rows.headD []).length)) ∧
    ((New none rows).2 = none →
      (New none rows).1 = ⟨⟨((rows.headD []).length : Int), (rows.length : Int)⟩, rows⟩) ∧
    ((New none rows).2 ≠ none → (New none rows).1 = Matrix.empty) ∧
    (((New none rows).2.map MatrixError.kind = some .DimensionError ↔
        (New none rows).2 = some .dimensionLessThanOne) ∧
      ((New none rows).2.map MatrixError.kind = some .RaggedRowsError ↔
        (New none rows).2 = some .differentRowLengths)) := by
  cases rows with
  | nil => simp [New_nil, MatrixError.kind]
  | cons row0 rest =>
    cases row0 with
    | nil => simp [New_empty_row, MatrixError.kind]
    | cons x xs =>
      by_cases h : ∀ row ∈ (x :: xs) :: rest, row.length = (x :: xs).length
      · rw [New_rectangular x xs rest h]
        have h' : ¬ ∃ row ∈ (x :: xs) :: rest, row.length ≠ (x :: xs).length := by
          rintro ⟨row, hrow, hne⟩
          exact hne (h row hrow)
        refine ⟨by simp, ?_, ?_, by simp, by simp, by simp, by simp⟩
        · constructor
          · intro hc
            cases hc
          · rintro ⟨_, _, hex⟩
            exact absurd hex h'
        · constructor
          · intro _
            exact ⟨by simp, by simp, h⟩
          · intro _
            rfl
      · have h' : ∃ row ∈ (x :: xs) :: rest, row.length ≠ (x :: xs).length := by
          by_contra hc
          apply h
          intro row hrow
          by_contra hne
          exact hc ⟨row, hrow, hne⟩
        rw [New_ragged x xs rest h']
        refine ⟨by simp, ?_, ?_, by simp, by simp, by simp [MatrixError.kind],
          by simp [MatrixError.kind]⟩
        · constructor
          · intro _
            exact ⟨by simp, by simp, h'⟩
          · intro _
            rfl
        · constructor
          · intro hc
            cases hc
          · rintro ⟨_, _, hall⟩
            exact absurd hall h

/-- C7 at the tests' inputs: `New([0,1],[2,3],[4,5])` is the 2-wide, 3-high matrix of those
rows (`TestNew`); no rows and one empty row report the dimension error
(`TestNewEmptyHeight`, `TestNewEmptyWidth`); `New([1],[2,3])` reports the ragged-rows error
(`TestNewBadDimensnions`). -/
theorem new_outcomes_example :
    New none [[(0 : Int), 1], [2, 3], [4, 5]] = (⟨⟨2, 3⟩, [[0, 1], [2, 3], [4, 5]]⟩, none) ∧
      New none ([] : List (List Int)) = (Matrix.empty, some .dimensionLessThanOne) ∧
      New none [([] : List Int)] = (Matrix.empty, some .dimensionLessThanOne) ∧
      New none [[(1 : Int)], [2, 3]] = (Matrix.empty, some .differentRowLengths) ∧
      (New none [[(1 : Int)], [2, 3]]).2.map MatrixError.kind = some .RaggedRowsError := by
  refine ⟨by decide, by decide, by decide, by decide, ?_⟩
  exact (new_outcomes [[(1 : Int)], [2, 3]]).2.2.2.2.2.2.2 (by decide)

theorem NewZero_bad_dimension {T : Type} [Zero T] (dim : Dimension)
    (h : dim.Width < 1 ∨ dim.Height < 1) :
    (NewZero none dim : Option (Matrix T × ErrorSlot)) =
      some (Matrix.empty, some .dimensionLessThanOne) := by
  simp [NewZero, h]

theorem NewIdentity_bad_dimension {T : Type} [Zero T] [One T] (dim : Dimension)
    (h : dim.Width < 1 ∨ dim.Height < 1) :
    (NewIdentity none dim : Option (Matrix T × ErrorSlot)) =
      some (Matrix.empty, some .dimensionLessThanOne) := by
  simp [NewIdentity, h]

theorem NewIdentity_not_square {T : Type} [Zero T] [One T] (dim : Dimension)
    (hW : 1 ≤ dim.Width) (hH : 1 ≤ dim.Height) (hne : dim.Height ≠ dim.Width) :
    (NewIdentity none dim : Option (Matrix T × ErrorSlot)) =
      some (Matrix.empty, some .identityNotSquare) := by
  have h : ¬ (dim.Width < 1 ∨ dim.Height < 1) := by omega
  simp [NewIdentity, h, hne]

theorem constructor_slot_held {T : Type} [Zero T] [One T] (dim : Dimension)
    (e : MatrixError) :
    (NewZero (some e) dim : Option (Matrix T × ErrorSlot)) = some (Matrix.empty, some e) ∧
    (NewIdentity (some e) dim : Option (Matrix T × ErrorSlot)) =
      some (Matrix.empty, some e) := by
  simp [NewZero, NewIdentity]

theorem mem_table {T : Type} (h w : Nat) (f : Nat → Nat → T) (row : List T)
    (hrow : row ∈ table h w f) : ∃ j, j < h ∧ row = rowOf w (f j) := by
  simp only [table, rowsOf, List.mem_map, List.mem_range] at hrow
  obtain ⟨j, hj, rfl⟩ := hrow
  exact ⟨j, hj, rfl⟩

/-- C8: started with an empty error slot, `NewIdentity` reports the dimension error when
a dimension is below 1 (also when the dimensions differ), reports the not-square error when
both are at least 1 and differ, and otherwise returns, without panic or error, the
well-formed `n × n` matrix whose element `[i][j]` is `1` when `i = j` and `0` otherwise. -/
theorem new_identity_outcomes {T : Type} [Zero T] [One T] (dim : Dimension) :
    ((dim.Width < 1 ∨ dim.Height < 1) →
      (NewIdentity none dim : Option (Matrix T × ErrorSlot)) =
        some (Matrix.empty, some .dimensionLessThanOne)) ∧
    ((1 ≤ dim.Width ∧ 1 ≤ dim.Height ∧ dim.Width ≠ dim.Height) →
      (NewIdentity none dim : Option (Matrix T × ErrorSlot)) =
        some (Matrix.empty, some .identityNotSquare)) ∧
    ((1 ≤ dim.Width ∧ 1 ≤ dim.Height ∧ dim.Width = dim.Height) →
      ∃ m : Matrix T, NewIdentity none dim = some (m, none) ∧ m.Dimensions = dim ∧
        m.WellFormed ∧
        ∀ i j, i < dim.Height.toNat → j < dim.Width.toNat →
          index2 m.Values i j = some (if i = j then 1 else 0)) ∧
    (MatrixError.kind .dimensionLessThanOne = .DimensionError ∧
      MatrixError.kind .identityNotSquare = .NotSquareError) := by
  refine ⟨NewIdentity_bad_dimension dim, ?_, ?_, rfl, rfl⟩
  · rintro ⟨hW, hH, hne⟩
    exact NewIdentity_not_square dim hW hH (fun h => hne h.symm)
  · rintro ⟨hW, hH, hsq⟩
    refine ⟨_, NewIdentity_eq dim hW hsq.symm, rfl, wellFormed_table _ _ hW hH _, ?_⟩
    intro i j hi hj
    exact index2_table _ _ _ i j hi hj

/-- C8 at the test's inputs (`TestNewIdentity`): `NewIdentity(2, 2)` is `[[1,0],[0,1]]` and
`NewIdentity` of width 2 and height 3 reports the not-square error; width 0 and height 3
report the dimension error, which is checked first. -/
theorem new_identity_example :
    (NewIdentity none ⟨2, 2⟩ : Option (Matrix Int × ErrorSlot)) =
        some ((New none [[1, 0], [0, 1]]).1, none) ∧
      (NewIdentity none ⟨2, 3⟩ : Option (Matrix Int × ErrorSlot)) =
        some (Matrix.empty, some .identityNotSquare) ∧
      (NewIdentity none ⟨0, 3⟩ : Option (Matrix Int × ErrorSlot)) =
        some (Matrix.empty, some .dimensionLessThanOne) := by
  refine ⟨by decide, ?_, ?_⟩
  · exact (new_identity_outcomes ⟨2, 3⟩).2.1 (by decide)
  · exact (new_identity_outcomes ⟨0, 3⟩).1 (by decide)

/-- C9: started with an empty error slot, `NewZero` does not panic; it reports the
dimension error exactly when `Width < 1` or `Height < 1`, then returning the zero value
`Matrix{}`; otherwise, that is exactly when `Width ≥ 1` and `Height ≥ 1`, it leaves the slot
empty and returns the matrix of the requested dimensions with exactly `Height` rows of
exactly `Width` elements, every element equal to `0`. -/
theorem new_zero_outcomes {T : Type} [Zero T] (dim : Dimension) :
    ∃ (m : Matrix T) (e : ErrorSlot), NewZero none dim = some (m, e) ∧
      (e = some .dimensionLessThanOne ↔ (dim.Width < 1 ∨ dim.Height < 1)) ∧
      (e.map MatrixError.kind = some .DimensionError ↔ (dim.Width < 1 ∨ dim.Height < 1)) ∧
      (e = none ↔ (1 ≤ dim.Width ∧ 1 ≤ dim.Height)) ∧
      (e ≠ none → m = Matrix.empty) ∧
      (e = none → m.Dimensions = dim ∧ (m.Values.length : Int) = dim.Height ∧
        (∀ row ∈ m.Values, (row.length : Int) = dim.Width ∧ ∀ v ∈ row, v = 0) ∧
        ∀ j i, j < dim.Height.toNat → i < dim.Width.toNat →
          index2 m.Values j i = some 0) := by
  by_cases h : dim.Width < 1 ∨ dim.Height < 1
  · refine ⟨Matrix.empty, some .dimensionLessThanOne, NewZero_bad_dimension dim h,
      by simp [h], by simp [h, MatrixError.kind], ?_, by simp, by simp⟩
    constructor
    · intro hn
      cases hn
    · intro hv
      omega
  · have hW : 1 ≤ dim.Width := by omega
    have hH : 1 ≤ dim.Height := by omega
    refine ⟨_, none, NewZero_eq dim hW hH, by simp [h], by simp [h],
      ⟨fun _ => ⟨hW, hH⟩, fun _ => rfl⟩, by simp, ?_⟩
    intro _
    have hwf := wellFormed_table dim.Width dim.Height hW hH (fun _ _ => (0 : T))
    refine ⟨rfl, hwf.2.2.1, ?_, ?_⟩
    · intro row hrow
      refine ⟨hwf.2.2.2 row hrow, ?_⟩
      obtain ⟨j, _, rfl⟩ := mem_table _ _ _ row hrow
      intro v hv
      simp only [rowOf, List.mem_map] at hv
      obtain ⟨_, _, rfl⟩ := hv
      rfl
    · intro j i hj hi
      exact index2_table _ _ _ j i hj hi

/-- C9 at the test's inputs (`TestNewZero`): `NewZero` of width 2 and height 3 leaves the
slot empty and is `[[0,0],[0,0],[0,0]]`; width 2 and height 0 report the dimension error
and return `Matrix{}`. -/
theorem new_zero_example :
    (NewZero none ⟨2, 3⟩ : Option (Matrix Int × ErrorSlot)) =
        some ((New none [[0, 0], [0, 0], [0, 0]]).1, none) ∧
      (∃ m : Matrix Int, NewZero none ⟨2, 3⟩ = some (m, none) ∧
        index2 m.Values 2 1 = some 0) ∧
      (NewZero none ⟨2, 0⟩ : Option (Matrix Int × ErrorSlot)) =
        some (Matrix.empty, some .dimensionLessThanOne) := by
  refine ⟨by decide, ?_, ?_⟩
  · obtain ⟨m, e, hm, _, _, hnone, _, hzero⟩ := @new_zero_outcomes Int _ ⟨2, 3⟩
    have he : e = none := hnone.2 (by decide)
    subst he
    exact ⟨m, hm, (hzero rfl).2.2.2 2 1 (by decide) (by decide)⟩
  · obtain ⟨m, e, hm, hiff, _, _, hsent, _⟩ := @new_zero_outcomes Int _ ⟨2, 0⟩
    have he : e = some .dimensionLessThanOne := hiff.2 (by decide)
    subst he
    rw [hm, hsent (by simp)]

/-! ## The shape invariant -/

theorem New_wellFormed {T : Type} (e : ErrorSlot) (rows : List (List T))
    (h : (New e rows).2 = none) : (New e rows).1.WellFormed := by
  cases e with
  | some err => simp [New_held] at h
  | none =>
    cases rows with
    | nil => simp [New_nil] at h
    | cons row0 rest =>
      cases row0 with
      | nil => simp [New_empty_row] at h
      | cons x xs =>
        by_cases hr : ∀ row ∈ (x :: xs) :: rest, row.length = (x :: xs).length
        · rw [New_rectangular x xs rest hr]
          refine ⟨?_, ?_, rfl, ?_⟩
          · simp only [List.length_cons, Nat.cast_add, Nat.cast_one]
            omega
          · simp only [List.length_cons, Nat.cast_add, Nat.cast_one]
            omega
          · intro row hrow
            simp only
            rw [hr row hrow]
        · have hr' : ∃ row ∈ (x :: xs) :: rest, row.length ≠ (x :: xs).length := by
            by_contra hc
            apply hr
            intro row hrow
            by_contra hne
            exact hc ⟨row, hrow, hne⟩
          simp [New_ragged x xs rest hr'] at h

/-- C10: the shape invariant (`Width ≥ 1`, `Height ≥ 1`, `len(Values) = Height`, every row
of `Width` elements) holds for every matrix that `New`, `NewZero` or `NewIdentity` returns
with the error slot left empty, and for every matrix that `MultiplyScalar`, `Multiply`,
`Add`, `Subtract`, `Inverse`, `Transpose` or `Clone` returns with the slot left empty when
the operands satisfy the invariant; on such operands none of the operations panics. -/
theorem shape_invariant {T : Type} [Zero T] [One T] [Add T] [Sub T] [Mul T] [Neg T] [Div T]
    [BEq T] :
    (∀ (e : ErrorSlot) (rows : List (List T)),
      (New e rows).2 = none → (New e rows).1.WellFormed) ∧
    (∀ (e : ErrorSlot) (dim : Dimension), ∃ (m : Matrix T) (e' : ErrorSlot),
      NewZero e dim = some (m, e') ∧ (e' = none → m.WellFormed)) ∧
    (∀ (e : ErrorSlot) (dim : Dimension), ∃ (m : Matrix T) (e' : ErrorSlot),
      NewIdentity e dim = some (m, e') ∧ (e' = none → m.WellFormed)) ∧
    (∀ (a : Matrix T) (e : ErrorSlot) (x : T), a.WellFormed →
      ∃ (m : Matrix T) (e' : ErrorSlot),
        a.MultiplyScalar e x = some (m, e') ∧ (e' = none → m.WellFormed)) ∧
    (∀ (a b : Matrix T) (e : ErrorSlot), a.WellFormed → b.WellFormed →
      ∃ (m : Matrix T) (e' : ErrorSlot),
        a.Multiply e b = some (m, e') ∧ (e' = none → m.WellFormed)) ∧
    (∀ (a b : Matrix T) (e : ErrorSlot), a.WellFormed → b.WellFormed →
      ∃ (m : Matrix T) (e' : ErrorSlot),
        a.Add e b = some (m, e') ∧ (e' = none → m.WellFormed)) ∧
    (∀ (a b : Matrix T) (e : ErrorSlot), a.WellFormed → b.WellFormed →
      ∃ (m : Matrix T) (e' : ErrorSlot),
        a.Subtract e b = some (m, e') ∧ (e' = none → m.WellFormed)) ∧
    (∀ (a : Matrix T) (e : ErrorSlot), a.WellFormed →
      ∃ (m : Matrix T) (e' : ErrorSlot),
        a.Inverse e = some (m, e') ∧ (e' = none → m.WellFormed)) ∧
    (∀ (a : Matrix T) (e : ErrorSlot), a.WellFormed →
      ∃ m : Matrix T, a.Transpose e = some (m, e) ∧ m.WellFormed) ∧
    (∀ a : Matrix T, a.WellFormed → ∃ m : Matrix T, a.Clone = some m ∧ m.WellFormed) := by
  refine ⟨New_wellFormed, ?_, ?_, ?_, ?_, ?_, ?_, ?_, ?_, ?_⟩
  · intro e dim
    cases e with
    | some err => exact ⟨_, _, (constructor_slot_held dim err).1, by simp⟩
    | none =>
      by_cases h : dim.Width < 1 ∨ dim.Height < 1
      · exact ⟨_, _, NewZero_bad_dimension dim h, by simp⟩
      · exact ⟨_, _, NewZero_eq dim (by omega) (by omega),
          fun _ => wellFormed_table _ _ (by omega) (by omega) _⟩
  · intro e dim
    cases e with
    | some err => exact ⟨_, _, (constructor_slot_held dim err).2, by simp⟩
    | none =>
      by_cases h : dim.Width < 1 ∨ dim.Height < 1
      · exact ⟨_, _, NewIdentity_bad_dimension dim h, by simp⟩
      · by_cases hsq : dim.Height = dim.Width
        · exact ⟨_, _, NewIdentity_eq dim (by omega) hsq,
            fun _ => wellFormed_table _ _ (by omega) (by omega) _⟩
        · exact ⟨_, _, NewIdentity_not_square dim (by omega) (by omega) hsq, by simp⟩
  · intro a e x ha
    cases e with
    | some err => exact ⟨_, _, (slot_held a a x err).1, by simp⟩
    | none =>
      exact ⟨_, _, MultiplyScalar_eq a x ha, fun _ => wellFormed_table _ _ ha.1 ha.2.1 _⟩
  · intro a b e ha hb
    cases e with
    | some err => exact ⟨_, _, (slot_held a b 0 err).2.1, by simp⟩
    | none =>
      by_cases hdim : a.Dimensions.Width = b.Dimensions.Height
      · exact ⟨_, _, Multiply_eq a b ha hb hdim,
          fun _ => wellFormed_table _ _ hb.1 ha.2.1 _⟩
      · refine ⟨Matrix.empty, some .multiplyIncompatible, ?_, by simp⟩
        simp [Matrix.Multiply, hdim]
  · intro a b e ha hb
    cases e with
    | some err => exact ⟨_, _, (slot_held a b 0 err).2.2.1, by simp⟩
    | none =>
      by_cases hdim : a.Dimensions = b.Dimensions
      · exact ⟨_, _, Add_eq a b ha hb hdim, fun _ => wellFormed_table _ _ ha.1 ha.2.1 _⟩
      · refine ⟨Matrix.empty, some .addIncompatible, ?_, by simp⟩
        have hne : a.Dimensions.Width ≠ b.Dimensions.Width ∨
            a.Dimensions.Height ≠ b.Dimensions.Height := by
          by_contra hc
          apply hdim
          cases ha' : a.Dimensions; cases hb' : b.Dimensions
          simp only [ha', hb'] at hc
          simp only [Dimension.mk.injEq]
          omega
        simp only [Matrix.Add, ne_eq, not_true_eq_false, if_false]
        rw [if_pos hne]
  · intro a b e ha hb
    cases e with
    | some err => exact ⟨_, _, (slot_held a b 0 err).2.2.2.1, by simp⟩
    | none =>
      by_cases hdim : a.Dimensions = b.Dimensions
      · exact ⟨_, _, Subtract_eq a b ha hb hdim, fun _ => wellFormed_table _ _ ha.1 ha.2.1 _⟩
      · refine ⟨Matrix.empty, some .subtractIncompatible, ?_, by simp⟩
        have hne : a.Dimensions.Width ≠ b.Dimensions.Width ∨
            a.Dimensions.Height ≠ b.Dimensions.Height := by
          by_contra hc
          apply hdim
          cases ha' : a.Dimensions; cases hb' : b.Dimensions
          simp only [ha', hb'] at hc
          simp only [Dimension.mk.injEq]
          omega
        simp only [Matrix.Subtract, ne_eq, not_true_eq_false, if_false]
        rw [if_pos hne]
  · intro a e ha
    cases e with
    | some err => exact ⟨_, _, (slot_held a a 0 err).2.2.2.2, by simp⟩
    | none =>
      by_cases hsq : a.Dimensions.Height = a.Dimensions.Width
      · by_cases h2 : a.Dimensions.Width = 2
        · rw [Inverse_two_by_two a ha h2 (by omega)]
          by_cases hdet : (a.entry 0 0 * a.entry 1 1 - a.entry 0 1 * a.entry 1 0 == 0) = true
          · rw [if_pos hdet]
            exact ⟨_, _, rfl, by simp⟩
          · rw [if_neg hdet]
            exact ⟨_, _, rfl, fun _ => wellFormed_rows _ _ _ _⟩
        · exact ⟨_, _, Inverse_other_size a hsq h2, by simp⟩
      · exact ⟨_, _, Inverse_not_square a hsq, by simp⟩
  · intro a e ha
    exact ⟨_, Transpose_eq a e ha, wellFormed_table _ _ ha.2.1 ha.1 _⟩
  · intro a ha
    exact ⟨a, Clone_wellFormed a ha, ha⟩

/-- C10 at the tests' inputs: the transpose of the 2-wide, 3-high matrix
`[[1,2],[3,4],[5,6]]`, the product `[[1,2],[3,4]] × [[1,2,3],[4,5,6]]` and the identity of
size 2 satisfy the shape invariant. -/
theorem shape_invariant_example :
    (∃ m : Matrix Int, (New none [[(1 : Int), 2], [3, 4], [5, 6]]).1.Transpose none =
        some (m, none) ∧ m.WellFormed ∧ m.Dimensions = ⟨3, 2⟩) ∧
      (∃ (m : Matrix Int) (e : ErrorSlot), test2x2.Multiply none test2x3 = some (m, e) ∧
        (e = none → m.WellFormed)) ∧
      (∃ (m : Matrix Int) (e : ErrorSlot), NewIdentity none ⟨2, 2⟩ = some (m, e) ∧
        (e = none → m.WellFormed)) := by
  have h := @shape_invariant Int _ _ _ _ _ _ _ _
  refine ⟨?_, h.2.2.2.2.1 test2x2 test2x3 none (by decide) (by decide),
    h.2.2.1 none ⟨2, 2⟩⟩
  obtain ⟨m, hm, hwf⟩ :=
    h.2.2.2.2.2.2.2.2.1 (New none [[(1 : Int), 2], [3, 4], [5, 6]]).1 none (by decide)
  refine ⟨m, hm, hwf, ?_⟩
  have hc : (New none [[(1 : Int), 2], [3, 4], [5, 6]]).1.Transpose none =
      some (⟨⟨3, 2⟩, [[1, 3, 5], [2, 4, 6]]⟩, none) := by decide
  rw [hc] at hm
  simp only [Option.some.injEq, Prod.mk.injEq, and_true] at hm
  rw [← hm]

/-! ## The error slot -/

/-- C11: when the error slot already holds an error `e`, each fallible operation (`New`,
`NewZero`, `NewIdentity`, `Multiply`, `Add`, `Subtract`, `Inverse`) returns at once, for
all arguments whatever their shape: no panic, the returned matrix is the zero value
`Matrix{}` and the slot still holds exactly `e`. -/
theorem slot_short_circuit {T : Type} [Zero T] [One T] [Add T] [Sub T] [Mul T] [Neg T]
    [Div T] [BEq T] (e : MatrixError) (rows : List (List T)) (dim : Dimension)
    (a b : Matrix T) :
    New (some e) rows = (Matrix.empty, some e) ∧
    (NewZero (some e) dim : Option (Matrix T × ErrorSlot)) = some (Matrix.empty, some e) ∧
    (NewIdentity (some e) dim : Option (Matrix T × ErrorSlot)) =
      some (Matrix.empty, some e) ∧
    a.Multiply (some e) b = some (Matrix.empty, some e) ∧
    a.Add (some e) b = some (Matrix.empty, some e) ∧
    a.Subtract (some e) b = some (Matrix.empty, some e) ∧
    a.Inverse (some e) = some (Matrix.empty, some e) :=
  ⟨New_held e rows, (constructor_slot_held dim e).1, (constructor_slot_held dim e).2,
    (slot_held a b 0 e).2.1, (slot_held a b 0 e).2.2.1, (slot_held a b 0 e).2.2.2.1,
    (slot_held a b 0 e).2.2.2.2⟩

/-- C11 at the test's input (`TestOperationErrors`): after the failed product of the 2×2
matrix `[[1,2],[3,4]]` and the 3×1 matrix `[[1],[2],[3]]`, `Add` on the same operands
returns `Matrix{}` and the slot still holds the multiply error. -/
theorem slot_short_circuit_example :
    test2x2.Multiply none test3x1 = some (Matrix.empty, some .multiplyIncompatible) ∧
      test2x2.Add (some .multiplyIncompatible) test3x1 =
        some (Matrix.empty, some .multiplyIncompatible) ∧
      (Matrix.empty : Matrix Int).Equal (⟨⟨0, 0⟩, []⟩ : Matrix Int) = some true :=
  ⟨by decide,
    (slot_short_circuit .multiplyIncompatible ([] : List (List Int)) ⟨0, 0⟩ test2x2
      test3x1).2.2.2.2.1,
    by decide⟩

/-- C12, refuted as stated: with the slot holding an error, `MultiplyScalar` of the
well-formed matrix `[[1,2],[3,4],[5,6]]` by 10 returns the zero value `Matrix{}`, not the
scaled matrix `[[10,20],[30,40],[50,60]]` that it returns with an empty slot. -/
theorem multiply_scalar_consults_slot :
    test3x2.WellFormed ∧
      test3x2.MultiplyScalar none 10 =
        some ((New none [[10, 20], [30, 40], [50, 60]]).1, none) ∧
      test3x2.MultiplyScalar (some .multiplyIncompatible) 10 =
        some (Matrix.empty, some .multiplyIncompatible) ∧
      (Matrix.empty : Matrix Int) ≠ (New none [[10, 20], [30, 40], [50, 60]]).1 := by
  decide

/-- C12, amended: for every well-formed `a` and every state `e` of the error slot,
`Transpose` does not read or change the slot: it returns the transpose of `a` (width
`a.Height`, height `a.Width`, element `[j][i]` equal to `a[i][j]`), the same matrix as with
an empty slot, and the slot is returned as it was.  `MultiplyScalar` never changes the slot
but does read it: with an empty slot it returns the elementwise-scaled matrix of the shape
of `a`, and with a slot holding an error it returns the zero value `Matrix{}`. -/
theorem slot_frame {T : Type} [Zero T] [Mul T] (a : Matrix T) (x : T) (e : ErrorSlot)
    (ha : a.WellFormed) :
    (∃ t : Matrix T, a.Transpose e = some (t, e) ∧ a.Transpose none = some (t, none) ∧
      t.Dimensions = ⟨a.Dimensions.Height, a.Dimensions.Width⟩ ∧
      ∀ j i, j < a.Dimensions.Width.toNat → i < a.Dimensions.Height.toNat →
        index2 t.Values j i = some (a.entry i j)) ∧
    (∃ m : Matrix T, a.MultiplyScalar e x = some (m, e) ∧
      (e ≠ none → m = Matrix.empty) ∧
      (e = none → m.Dimensions = a.Dimensions ∧
        ∀ j i, j < a.Dimensions.Height.toNat → i < a.Dimensions.Width.toNat →
          index2 m.Values j i = some (a.entry j i * x))) := by
  constructor
  · refine ⟨_, Transpose_eq a e ha, Transpose_eq a none ha, rfl, ?_⟩
    intro j i hj hi
    exact index2_table _ _ _ j i hj hi
  · cases e with
    | some err =>
      exact ⟨_, MultiplyScalar_held a x err, fun _ => rfl, fun h => by simp at h⟩
    | none =>
      refine ⟨_, MultiplyScalar_eq a x ha, fun h => absurd rfl h, fun _ => ⟨rfl, ?_⟩⟩
      intro j i hj hi
      exact index2_table _ _ _ j i hj hi

/-- C12 amended, at the test's matrix `[[1,2],[3,4],[5,6]]` with the slot holding an error:
`Transpose` still returns `[[1,3,5],[2,4,6]]` and `MultiplyScalar` by 10 returns
`Matrix{}`; both leave the error in the slot. -/
theorem slot_frame_example :
    test3x2.WellFormed ∧
      test3x2.Transpose (some .multiplyIncompatible) =
        some ((New none [[1, 3, 5], [2, 4, 6]]).1, some .multiplyIncompatible) ∧
      (∃ m : Matrix Int, test3x2.MultiplyScalar (some .multiplyIncompatible) 10 =
        some (m, some .multiplyIncompatible) ∧ m = Matrix.empty) := by
  refine ⟨by decide, by decide, ?_⟩
  obtain ⟨m, hm, hsent, _⟩ :=
    (slot_frame test3x2 10 (some .multiplyIncompatible) (by decide)).2
  exact ⟨m, hm, hsent (by simp)⟩

/-! ## Scalar multiplication and transpose -/

/-- C13: for every well-formed `a` and scalar `x`, with an empty error slot,
`MultiplyScalar` does not panic, reports no error and returns a well-formed matrix with the
width and height of `a` whose element `[j][i]` is `a[j][i] * x`. -/
theorem multiply_scalar_elementwise {T : Type} [Zero T] [Mul T] (a : Matrix T) (x : T)
    (ha : a.WellFormed) :
    ∃ m : Matrix T, a.MultiplyScalar none x = some (m, none) ∧
      m.Dimensions.Width = a.Dimensions.Width ∧
      m.Dimensions.Height = a.Dimensions.Height ∧ m.WellFormed ∧
      ∀ j i, j < a.Dimensions.Height.toNat → i < a.Dimensions.Width.toNat →
        index2 m.Values j i = some (a.entry j i * x) := by
  refine ⟨_, MultiplyScalar_eq a x ha, rfl, rfl, wellFormed_table _ _ ha.1 ha.2.1 _, ?_⟩
  intro j i hj hi
  exact index2_table _ _ _ j i hj hi

/-- C13 at the test's input (`TestMultiplyScalar`): `[[1,2],[3,4],[5,6]]` scaled by 10 is
`[[10,20],[30,40],[50,60]]`. -/
theorem multiply_scalar_example :
    test3x2.WellFormed ∧
      test3x2.MultiplyScalar none 10 =
        some ((New none [[10, 20], [30, 40], [50, 60]]).1, none) ∧
      (∃ m : Matrix Int, test3x2.MultiplyScalar none 10 = some (m, none) ∧
        index2 m.Values 0 0 = some 10 ∧ index2 m.Values 2 1 = some 60) := by
  refine ⟨by decide, by decide, ?_⟩
  obtain ⟨m, hm, _, _, _, hel⟩ := multiply_scalar_elementwise test3x2 10 (by decide)
  refine ⟨m, hm, ?_, ?_⟩
  · rw [hel 0 0 (by decide) (by decide)]; rfl
  · rw [hel 2 1 (by decide) (by decide)]; rfl

/-- C14: for every well-formed `a`, square or not, `Transpose` does not panic and returns
a well-formed matrix of width `a.Height` and height `a.Width` whose element `[j][i]` is
`a[i][j]` for all `j < a.Width` and `i < a.Height`; the slot is returned as it was. -/
theorem transpose_elementwise {T : Type} [Zero T] (a : Matrix T) (e : ErrorSlot)
    (ha : a.WellFormed) :
    ∃ t : Matrix T, a.Transpose e = some (t, e) ∧
      t.Dimensions.Width = a.Dimensions.Height ∧
      t.Dimensions.Height = a.Dimensions.Width ∧ t.WellFormed ∧
      ∀ j i, j < a.Dimensions.Width.toNat → i < a.Dimensions.Height.toNat →
        index2 t.Values j i = some (a.entry i j) := by
  refine ⟨_, Transpose_eq a e ha, rfl, rfl, wellFormed_table _ _ ha.2.1 ha.1 _, ?_⟩
  intro j i hj hi
  exact index2_table _ _ _ j i hj hi

/-- C14 at the test's input (`TestTranspose`): the transpose of `[[1,2],[3,4],[5,6]]` is
`[[1,3,5],[2,4,6]]`. -/
theorem transpose_example :
    test3x2.WellFormed ∧
      test3x2.Transpose none = some ((New none [[1, 3, 5], [2, 4, 6]]).1, none) ∧
      (∃ t : Matrix Int, test3x2.Transpose none = some (t, none) ∧
        index2 t.Values 0 2 = some 5 ∧ index2 t.Values 1 0 = some 2) := by
  refine ⟨by decide, by decide, ?_⟩
  obtain ⟨t, ht, _, _, _, hel⟩ := transpose_elementwise test3x2 none (by decide)
  refine ⟨t, ht, ?_, ?_⟩
  · rw [hel 0 2 (by decide) (by decide)]; rfl
  · rw [hel 1 0 (by decide) (by decide)]; rfl

/-! ## Equality and the algebraic laws -/

theorem matrix_ext {T : Type} [Zero T] (a b : Matrix T) (ha : a.WellFormed)
    (hb : b.WellFormed) (hd : a.Dimensions = b.Dimensions)
    (hel : ∀ j i, j < a.Dimensions.Height.toNat → i < a.Dimensions.Width.toNat →
      a.entry j i = b.entry j i) : a = b := by
  have hva := WellFormed.values_eq a ha
  have hvb := WellFormed.values_eq b hb
  rw [← hd] at hvb
  have hv : a.Values = b.Values := by
    rw [hva, hvb]
    exact table_congr _ _ _ _ hel
  cases a
  cases b
  simp only at hd hv
  rw [hd, hv]

theorem Equal_shape_mismatch {T : Type} [BEq T] (a b : Matrix T)
    (hd : a.Dimensions ≠ b.Dimensions) : a.Equal b = some false := by
  by_cases hH : a.Dimensions.Height = b.Dimensions.Height
  · have hW : a.Dimensions.Width ≠ b.Dimensions.Width := by
      intro hW
      apply hd
      cases ha' : a.Dimensions; cases hb' : b.Dimensions
      simp only [ha', hb'] at hH hW
      rw [hH, hW]
    simp [Matrix.Equal, hH, hW]
  · simp [Matrix.Equal, hH]

theorem Equal_same_shape {T : Type} [Zero T] [BEq T] (a b : Matrix T)
    (ha : a.WellFormed) (hb : b.WellFormed) (hd : a.Dimensions = b.Dimensions) :
    a.Equal b = some ((List.range a.Dimensions.Width.toNat).all (fun i =>
      (List.range a.Dimensions.Height.toNat).all (fun j =>
        a.entry j i == b.entry j i))) := by
  simp only [Matrix.Equal, hd, ne_eq, not_true_eq_false, if_false]
  rw [← hd]
  apply allM_option
  intro i hi
  apply allM_option
  intro j hj
  rw [WellFormed.index2_eq a ha j i (List.mem_range.mp hj) (List.mem_range.mp hi),
    WellFormed.index2_eq b hb j i (hd ▸ List.mem_range.mp hj) (hd ▸ List.mem_range.mp hi)]
  simp [bne]

theorem Equal_true_iff {T : Type} [Zero T] [BEq T] (a b : Matrix T)
    (ha : a.WellFormed) (hb : b.WellFormed) :
    a.Equal b = some true ↔
      (a.Dimensions = b.Dimensions ∧
        ∀ j i, j < a.Dimensions.Height.toNat → i < a.Dimensions.Width.toNat →
          (a.entry j i == b.entry j i) = true) := by
  by_cases hd : a.Dimensions = b.Dimensions
  · rw [Equal_same_shape a b ha hb hd]
    simp only [Option.some.injEq, List.all_eq_true, List.mem_range, hd, true_and]
    constructor
    · intro h j i hj hi
      exact h i (hd ▸ hi) j (hd ▸ hj)
    · intro h i hi j hj
      exact h j i (hd ▸ hj) (hd ▸ hi)
  · rw [Equal_shape_mismatch a b hd]
    simp [hd]

theorem Equal_total {T : Type} [Zero T] [BEq T] (a b : Matrix T)
    (ha : a.WellFormed) (hb : b.WellFormed) : ∃ r : Bool, a.Equal b = some r := by
  by_cases hd : a.Dimensions = b.Dimensions
  · exact ⟨_, Equal_same_shape a b ha hb hd⟩
  · exact ⟨_, Equal_shape_mismatch a b hd⟩

/-- C15, refuted as stated: the 1×1 `float64` matrix `[[NaN]]` is well-formed, transposing
it twice gives `[[NaN]]` back, and `Equal` of the result with the matrix is `false`, because
`NaN != NaN` in Go. -/
theorem transpose_involution_fails_at_nan :
    testNaN.WellFormed ∧
      (∃ t tt : Matrix F64, testNaN.Transpose none = some (t, none) ∧
        t.Transpose none = some (tt, none) ∧ tt = testNaN ∧
        tt.Equal testNaN = some false) :=
  ⟨by decide, testNaN, testNaN, by decide, by decide, rfl, by decide⟩

/-- C15, amended: for every well-formed `A`, `Transpose` applied twice does not panic and
returns a matrix with the dimensions and the values of `A`; `Equal` of that matrix with `A`
returns, and it is `true` exactly when every element of `A` compares equal to itself with
the element type's `==` (as every value other than a floating-point NaN does). -/
theorem transpose_involution {T : Type} [Zero T] [BEq T] (A : Matrix T)
    (e : ErrorSlot) (hA : A.WellFormed) :
    ∃ t tt : Matrix T, A.Transpose e = some (t, e) ∧ t.Transpose e = some (tt, e) ∧
      tt = A ∧ (∃ r : Bool, tt.Equal A = some r) ∧
      (tt.Equal A = some true ↔
        ∀ j i, j < A.Dimensions.Height.toNat → i < A.Dimensions.Width.toNat →
          (A.entry j i == A.entry j i) = true) := by
  have h1 := Transpose_eq A e hA
  have hwf1 := wellFormed_table A.Dimensions.Height A.Dimensions.Width hA.2.1 hA.1
    (fun j i => A.entry i j)
  have h2 := Transpose_eq _ e hwf1
  have hwf2 := wellFormed_table A.Dimensions.Width A.Dimensions.Height hA.1 hA.2.1
    (fun j i => (⟨⟨A.Dimensions.Height, A.Dimensions.Width⟩,
      table A.Dimensions.Width.toNat A.Dimensions.Height.toNat
        (fun j i => A.entry i j)⟩ : Matrix T).entry i j)
  have heq := matrix_ext _ A hwf2 hA rfl (fun j i hj hi => by
    rw [entry_table _ _ _ _ j i hj hi, entry_table _ _ _ _ i j hi hj])
  refine ⟨_, _, h1, h2, heq, ?_, ?_⟩
  · rw [heq]
    exact Equal_total A A hA hA
  · rw [heq, Equal_true_iff A A hA hA]
    simp

/-- C15 amended, at the test's matrix: every integer equals itself, so transposing
`[[1,2],[3,4],[5,6]]` twice gives a matrix `Equal` to it. -/
theorem transpose_involution_example :
    test3x2.WellFormed ∧
      (∃ t tt : Matrix Int, test3x2.Transpose none = some (t, none) ∧
        t.Transpose none = some (tt, none) ∧ tt.Equal test3x2 = some true) := by
  refine ⟨by decide, ?_⟩
  obtain ⟨t, tt, h1, h2, _, _, h3⟩ := transpose_involution test3x2 none (by decide)
  exact ⟨t, tt, h1, h2, h3.2 (fun _ _ _ _ => beq_self_eq_true _)⟩

/-- C16, refuted as stated, in `float64`.  For `A = [[1]]` and `B = [[2^54]]` the difference
`1 - 2^54` is rounded to `-2^54`, adding `2^54` gives `0`, and `Add(Subtract(A, B), B)` is
not `Equal` to `A`.  For `A = [[0.1]]` and `B = [[0.7]]` the result is not `Equal` to `A`
either.  No error is reported in either case. -/
theorem add_subtract_inverse_fails :
    (testUnit.WellFormed ∧ testPow54.WellFormed ∧
      testUnit.Dimensions = testPow54.Dimensions ∧
      ∃ s r : Matrix F64, testUnit.Subtract none testPow54 = some (s, none) ∧
        s.Add none testPow54 = some (r, none) ∧
        s.Equal (New none [[F64.ofInt (-18014398509481984)]]).1 = some true ∧
        r.Equal (New none [[F64.ofInt 0]]).1 = some true ∧
        r.Equal testUnit = some false) ∧
    (testTenth.WellFormed ∧ testSevenTenths.WellFormed ∧
      testTenth.Dimensions = testSevenTenths.Dimensions ∧
      ∃ s r : Matrix F64, testTenth.Subtract none testSevenTenths = some (s, none) ∧
        s.Add none testSevenTenths = some (r, none) ∧
        r.Equal testTenth = some false) :=
  ⟨⟨by decide, by decide, by decide, _, _, rfl, rfl, by decide, by decide, by decide⟩,
    ⟨by decide, by decide,
      (by decide : testTenth.Dimensions = ⟨1, 1⟩).trans
        (by decide : (⟨1, 1⟩ : Dimension) = testSevenTenths.Dimensions),
      _, _, rfl, rfl, by decide⟩⟩

/-- C16, amended: for well-formed `A` and `B` of identical shape, with an empty error slot,
`Add(Subtract(A, B), B)` does not panic and reports no error; the result has the dimensions
of `A` and its element `[j][i]` is `(a[j][i] - b[j][i]) + b[j][i]` in the arithmetic of the
element type; `Equal` of the result with `A` returns, and it is `true` exactly when
`(a[j][i] - b[j][i]) + b[j][i] == a[j][i]` for every element pair (as is the case for every
pair over Go's integer types, whose arithmetic wraps). -/
theorem add_subtract_inverse {T : Type} [Zero T] [Add T] [Sub T] [BEq T] (A B : Matrix T)
    (hA : A.WellFormed) (hB : B.WellFormed) (hd : A.Dimensions = B.Dimensions) :
    ∃ s r : Matrix T, A.Subtract none B = some (s, none) ∧ s.Add none B = some (r, none) ∧
      r.Dimensions = A.Dimensions ∧
      (∀ j i, j < A.Dimensions.Height.toNat → i < A.Dimensions.Width.toNat →
        r.entry j i = A.entry j i - B.entry j i + B.entry j i) ∧
      (∃ q : Bool, r.Equal A = some q) ∧
      (r.Equal A = some true ↔
        ∀ j i, j < A.Dimensions.Height.toNat → i < A.Dimensions.Width.toNat →
          (A.entry j i - B.entry j i + B.entry j i == A.entry j i) = true) := by
  have h1 := Subtract_eq A B hA hB hd
  have hwf1 := wellFormed_table A.Dimensions.Width A.Dimensions.Height hA.1 hA.2.1
    (fun j i => A.entry j i - B.entry j i)
  have h2 := Add_eq _ B hwf1 hB hd
  have hwf2 := wellFormed_table A.Dimensions.Width A.Dimensions.Height hA.1 hA.2.1
    (fun j i => (⟨A.Dimensions, table A.Dimensions.Height.toNat A.Dimensions.Width.toNat
      (fun j i => A.entry j i - B.entry j i)⟩ : Matrix T).entry j i + B.entry j i)
  have hel : ∀ j i, j < A.Dimensions.Height.toNat → i < A.Dimensions.Width.toNat →
      (⟨A.Dimensions, table A.Dimensions.Height.toNat A.Dimensions.Width.toNat
        (fun j i => (⟨A.Dimensions, table A.Dimensions.Height.toNat A.Dimensions.Width.toNat
          (fun j i => A.entry j i - B.entry j i)⟩ : Matrix T).entry j i + B.entry j i)⟩ :
        Matrix T).entry j i = A.entry j i - B.entry j i + B.entry j i := by
    intro j i hj hi
    rw [entry_table _ _ _ _ j i hj hi, entry_table _ _ _ _ j i hj hi]
  refine ⟨_, _, h1, h2, rfl, hel, Equal_total _ A hwf2 hA, ?_⟩
  rw [Equal_true_iff _ A hwf2 hA]
  constructor
  · rintro ⟨_, h⟩ j i hj hi
    have := h j i hj hi
    rwa [hel j i hj hi] at this
  · intro h
    refine ⟨rfl, fun j i hj hi => ?_⟩
    rw [hel j i hj hi]
    exact h j i hj hi

/-- C16 amended, at the tests' integer matrices: `(a - b) + b == a` for all integers, so
`([[1,2],[3,4]] - [[4,3],[2,1]]) + [[4,3],[2,1]]` is `Equal` to `[[1,2],[3,4]]`. -/
theorem add_subtract_inverse_example :
    test2x2.WellFormed ∧ test2x2b.WellFormed ∧
      (∃ s r : Matrix Int, test2x2.Subtract none test2x2b = some (s, none) ∧
        s.Add none test2x2b = some (r, none) ∧ r.Equal test2x2 = some true) := by
  refine ⟨by decide, by decide, ?_⟩
  obtain ⟨s, r, h1, h2, _, _, _, h3⟩ :=
    add_subtract_inverse test2x2 test2x2b (by decide) (by decide) rfl
  exact ⟨s, r, h1, h2, h3.2 (fun j i _ _ => by simp)⟩

/-- C17, refuted as stated, in `float64`.  For `A = [[2^53]]`, `B = [[1]]` and `k = 3` the
sum `2^53 + 1` is rounded to `2^53`, so `MultiplyScalar(Add(A, B), k)` is `[[3 * 2^53]]`,
while `3 * 2^53 + 3` is rounded to `3 * 2^53 + 4`; the two sides are not `Equal`.  For
`A = [[0.1]]`, `B = [[0.2]]` and `k = 10` they are not `Equal` either.  No error is
reported in either case. -/
theorem scalar_distributivity_fails :
    (testPow53.WellFormed ∧ testUnit.WellFormed ∧
      testPow53.Dimensions = testUnit.Dimensions ∧
      ∃ s l ka kb r : Matrix F64, testPow53.Add none testUnit = some (s, none) ∧
        s.MultiplyScalar none (F64.ofInt 3) = some (l, none) ∧
        testPow53.MultiplyScalar none (F64.ofInt 3) = some (ka, none) ∧
        testUnit.MultiplyScalar none (F64.ofInt 3) = some (kb, none) ∧
        ka.Add none kb = some (r, none) ∧
        l.Equal (New none [[F64.ofInt 27021597764222976]]).1 = some true ∧
        r.Equal (New none [[F64.ofInt 27021597764222980]]).1 = some true ∧
        l.Equal r = some false) ∧
    (testTenth.WellFormed ∧ testFifth.WellFormed ∧
      testTenth.Dimensions = testFifth.Dimensions ∧
      ∃ s l ka kb r : Matrix F64, testTenth.Add none testFifth = some (s, none) ∧
        s.MultiplyScalar none (F64.ofInt 10) = some (l, none) ∧
        testTenth.MultiplyScalar none (F64.ofInt 10) = some (ka, none) ∧
        testFifth.MultiplyScalar none (F64.ofInt 10) = some (kb, none) ∧
        ka.Add none kb = some (r, none) ∧
        l.Equal r = some false) :=
  ⟨⟨by decide, by decide, by decide, _, _, _, _, _, rfl, rfl, rfl, rfl, rfl, by decide,
      by decide, by decide⟩,
    ⟨by decide, by decide,
      (by decide : testTenth.Dimensions = ⟨1, 1⟩).trans
        (by decide : (⟨1, 1⟩ : Dimension) = testFifth.Dimensions),
      _, _, _, _, _, rfl, rfl, rfl, rfl, rfl, by decide⟩⟩

/-- C17, amended: for well-formed `A` and `B` of identical shape and every scalar `k`, with
an empty error slot, no call panics or reports an error; `MultiplyScalar(Add(A, B), k)` has
element `[j][i]` equal to `(a[j][i] + b[j][i]) * k` and
`Add(MultiplyScalar(A, k), MultiplyScalar(B, k))` has it equal to
`a[j][i] * k + b[j][i] * k`, in the arithmetic of the element type; `Equal` of the two
returns, and it is `true` exactly when `(a[j][i] + b[j][i]) * k == a[j][i] * k + b[j][i] * k`
for every element pair (as is the case for every pair over Go's integer types, whose
arithmetic wraps). -/
theorem scalar_distributivity {T : Type} [Zero T] [Add T] [Mul T] [BEq T]
    (A B : Matrix T) (k : T) (hA : A.WellFormed) (hB : B.WellFormed)
    (hd : A.Dimensions = B.Dimensions) :
    ∃ s l ka kb r : Matrix T, A.Add none B = some (s, none) ∧
      s.MultiplyScalar none k = some (l, none) ∧
      A.MultiplyScalar none k = some (ka, none) ∧
      B.MultiplyScalar none k = some (kb, none) ∧
      ka.Add none kb = some (r, none) ∧
      (∀ j i, j < A.Dimensions.Height.toNat → i < A.Dimensions.Width.toNat →
        l.entry j i = (A.entry j i + B.entry j i) * k ∧
        r.entry j i = A.entry j i * k + B.entry j i * k) ∧
      (∃ q : Bool, l.Equal r = some q) ∧
      (l.Equal r = some true ↔
        ∀ j i, j < A.Dimensions.Height.toNat → i < A.Dimensions.Width.toNat →
          ((A.entry j i + B.entry j i) * k == A.entry j i * k + B.entry j i * k) = true) := by
  have h1 := Add_eq A B hA hB hd
  have hwf1 := wellFormed_table A.Dimensions.Width A.Dimensions.Height hA.1 hA.2.1
    (fun j i => A.entry j i + B.entry j i)
  have h2 := MultiplyScalar_eq _ k hwf1
  have h3 := MultiplyScalar_eq A k hA
  have h4 := MultiplyScalar_eq B k hB
  have hwf3 := wellFormed_table A.Dimensions.Width A.Dimensions.Height hA.1 hA.2.1
    (fun j i => A.entry j i * k)
  have hwf4 := wellFormed_table B.Dimensions.Width B.Dimensions.Height hB.1 hB.2.1
    (fun j i => B.entry j i * k)
  have h5 := Add_eq _ _ hwf3 hwf4 hd
  have hel : ∀ j i, j < A.Dimensions.Height.toNat → i < A.Dimensions.Width.toNat →
      (⟨A.Dimensions, table A.Dimensions.Height.toNat A.Dimensions.Width.toNat
        (fun j i => (⟨A.Dimensions, table A.Dimensions.Height.toNat A.Dimensions.Width.toNat
          (fun j i => A.entry j i + B.entry j i)⟩ : Matrix T).entry j i * k)⟩ :
        Matrix T).entry j i = (A.entry j i + B.entry j i) * k ∧
      (⟨A.Dimensions, table A.Dimensions.Height.toNat A.Dimensions.Width.toNat
        (fun j i => (⟨A.Dimensions, table A.Dimensions.Height.toNat A.Dimensions.Width.toNat
          (fun j i => A.entry j i * k)⟩ : Matrix T).entry j i +
          (⟨B.Dimensions, table B.Dimensions.Height.toNat B.Dimensions.Width.toNat
            (fun j i => B.entry j i * k)⟩ : Matrix T).entry j i)⟩ :
        Matrix T).entry j i = A.entry j i * k + B.entry j i * k := by
    intro j i hj hi
    rw [entry_table _ _ _ _ j i hj hi, entry_table _ _ _ _ j i hj hi,
      entry_table _ _ _ _ j i hj hi, entry_table _ _ _ _ j i hj hi,
      entry_table _ _ _ _ j i (hd ▸ hj) (hd ▸ hi)]
    exact ⟨rfl, rfl⟩
  refine ⟨_, _, _, _, _, h1, h2, h3, h4, h5, hel,
    Equal_total _ _ (wellFormed_table _ _ hA.1 hA.2.1 _) (wellFormed_table _ _ hA.1 hA.2.1 _),
    ?_⟩
  rw [Equal_true_iff _ _ (wellFormed_table _ _ hA.1 hA.2.1 _)
    (wellFormed_table _ _ hA.1 hA.2.1 _)]
  constructor
  · rintro ⟨_, h⟩ j i hj hi
    have := h j i hj hi
    rwa [(hel j i hj hi).1, (hel j i hj hi).2] at this
  · intro h
    refine ⟨rfl, fun j i hj hi => ?_⟩
    rw [(hel j i hj hi).1, (hel j i hj hi).2]
    exact h j i hj hi

/-- C17 amended, at the tests' integer matrices with `k = 10`: multiplication of integers
distributes over addition, so `([[1,2],[3,4]] + [[4,3],[2,1]]) * 10` is `Equal` to
`[[1,2],[3,4]] * 10 + [[4,3],[2,1]] * 10`, both being `[[50,50],[50,50]]`. -/
theorem scalar_distributivity_example :
    test2x2.WellFormed ∧ test2x2b.WellFormed ∧
      (∃ s l ka kb r : Matrix Int, test2x2.Add none test2x2b = some (s, none) ∧
        s.MultiplyScalar none 10 = some (l, none) ∧
        test2x2.MultiplyScalar none 10 = some (ka, none) ∧
        test2x2b.MultiplyScalar none 10 = some (kb, none) ∧
        ka.Add none kb = some (r, none) ∧ l.Equal r = some true) ∧
      (∃ s : Matrix Int, test2x2.Add none test2x2b = some (s, none) ∧
        s.MultiplyScalar none 10 = some ((New none [[50, 50], [50, 50]]).1, none)) := by
  refine ⟨by decide, by decide, ?_, ⟨(New none [[5, 5], [5, 5]]).1, by decide, by decide⟩⟩
  obtain ⟨s, l, ka, kb, r, h1, h2, h3, h4, h5, _, _, h6⟩ :=
    scalar_distributivity test2x2 test2x2b 10 (by decide) (by decide) rfl
  exact ⟨s, l, ka, kb, r, h1, h2, h3, h4, h5,
    h6.2 (fun j i _ _ => by simp [right_distrib])⟩

/-! ## Facts of `float64` arithmetic -/

theorem bitLengthAux_zero (fuel : Nat) : bitLengthAux fuel 0 = 0 := by
  cases fuel <;> simp [bitLengthAux]

theorem bitLengthAux_spec (fuel : Nat) : ∀ n : Nat, n ≤ fuel →
    n < 2 ^ bitLengthAux fuel n ∧ (n ≠ 0 → 2 ^ (bitLengthAux fuel n - 1) ≤ n) := by
  induction fuel with
  | zero =>
    intro n hn
    have h0 : n = 0 := by omega
    subst h0
    simp [bitLengthAux]
  | succ fuel ih =>
    intro n hn
    by_cases h0 : n = 0
    · subst h0
      simp [bitLengthAux]
    · have ih' := ih (n / 2) (by omega)
      simp only [bitLengthAux, h0, if_false, Nat.add_sub_cancel]
      obtain ⟨h1, h2⟩ := ih'
      constructor
      · rw [pow_succ]
        omega
      · intro _
        by_cases h3 : n / 2 = 0
        · rw [h3, bitLengthAux_zero]
          simp
          omega
        · have h4 := h2 h3
          have h5 : bitLengthAux fuel (n / 2) ≠ 0 := by
            intro h6
            rw [h6] at h1
            simp at h1
            exact h3 h1
          have h7 : 2 ^ bitLengthAux fuel (n / 2) =
              2 * 2 ^ (bitLengthAux fuel (n / 2) - 1) := by
            rw [← pow_succ']
            congr 1
            omega
          rw [h7]
          omega

theorem lt_two_pow_bitLength (n : Nat) : n < 2 ^ bitLength n :=
  (bitLengthAux_spec n n (le_refl n)).1

theorem two_pow_bitLength_le (n : Nat) (h : n ≠ 0) : 2 ^ (bitLength n - 1) ≤ n :=
  (bitLengthAux_spec n n (le_refl n)).2 h

theorem F64.round_zero (s : Bool) (e : Int) : F64.round s 0 e = .fin s 0 0 := by
  simp [F64.round]

theorem F64.round_eq (s : Bool) (m : Nat) (e : Int) (hm : m ≠ 0) :
    F64.round s m e =
      if max ((bitLength m : Int) - 53) (-1074 - e) ≤ 0 then
        (if e + bitLength m > 1024 then .inf s else .fin s m e)
      else
        (if e + max ((bitLength m : Int) - 53) (-1074 - e) +
            bitLength (F64.roundShift m (max ((bitLength m : Int) - 53) (-1074 - e)).toNat)
              > 1024 then .inf s
          else .fin s (F64.roundShift m (max ((bitLength m : Int) - 53) (-1074 - e)).toNat)
            (e + max ((bitLength m : Int) - 53) (-1074 - e))) := by
  simp only [F64.round, hm, if_false]

theorem F64.roundShift_ge (m k : Nat) : m / 2 ^ k ≤ F64.roundShift m k := by
  unfold F64.roundShift
  simp only
  split_ifs <;> omega

theorem F64.roundShift_le (m k : Nat) : F64.roundShift m k ≤ m / 2 ^ k + 1 := by
  unfold F64.roundShift
  simp only
  split_ifs <;> omega

theorem F64.round_isNumber (s : Bool) (m : Nat) (e : Int) :
    (F64.round s m e).isNumber = true := by
  by_cases hm : m = 0
  · subst hm
    rw [F64.round_zero]
    rfl
  · rw [F64.round_eq s m e hm]
    split_ifs with h1 h2 h3
    · rfl
    · simp only [F64.isNumber, decide_eq_true_eq]
      omega
    · rfl
    · simp only [F64.isNumber, decide_eq_true_eq]
      omega

theorem F64.ofInt_isNumber (n : Int) : (F64.ofInt n).isNumber = true :=
  F64.round_isNumber _ _ _

theorem F64.round_ne_zero (s : Bool) (m : Nat) (e : Int) (hm : m ≠ 0) (he : -1074 ≤ e) :
    F64.round s m e = .inf s ∨
      ∃ m' e', F64.round s m e = .fin s m' e' ∧ m' ≠ 0 := by
  rw [F64.round_eq s m e hm]
  split_ifs with h1 h2 h3
  · exact Or.inl rfl
  · exact Or.inr ⟨_, _, rfl, hm⟩
  · exact Or.inl rfl
  · refine Or.inr ⟨_, _, rfl, ?_⟩
    have hmax : max ((bitLength m : Int) - 53) (-1074 - e) = (bitLength m : Int) - 53 := by
      omega
    rw [hmax]
    rw [hmax] at h1
    have hb : 54 ≤ bitLength m := by omega
    have h4 := F64.roundShift_ge m ((bitLength m : Int) - 53).toNat
    have h5 : ((bitLength m : Int) - 53).toNat = bitLength m - 53 := by omega
    rw [h5] at h4 ⊢
    have h6 := two_pow_bitLength_le m hm
    have h7 : 2 ^ (bitLength m - 53) ≤ 2 ^ (bitLength m - 1) :=
      Nat.pow_le_pow_right (by decide) (by omega)
    have h8 : 1 ≤ m / 2 ^ (bitLength m - 53) := by
      rw [Nat.le_div_iff_mul_le (by positivity)]
      omega
    omega

theorem F64.gt_zero_of_inf (s : Bool) : F64.gt (F64.abs (.inf s)) 0 = true := rfl

theorem F64.gt_zero_of_fin (s : Bool) (m : Nat) (e : Int) (hm : m ≠ 0) :
    F64.gt (F64.abs (.fin s m e)) 0 = true := by
  show F64.gt (.fin false m e) (.fin false 0 0) = true
  simp only [F64.gt, F64.signed, decide_eq_true_eq, zero_mul, Bool.false_eq_true, if_false]
  have : 0 < m * 2 ^ (e - min e 0).toNat := by positivity
  exact_mod_cast this

theorem F64.signed_not (t : Bool) (n : Nat) : F64.signed (!t) n = -F64.signed t n := by
  cases t <;> simp [F64.signed]

/-- For two numbers of `float64`, `math.Abs(x - y) > 0` is the negation of `x == y`. -/
theorem F64.gt_abs_sub_zero (x y : F64) (hx : x.isNumber = true) (hy : y.isNumber = true) :
    F64.gt (F64.abs (x - y)) 0 = !(x == y) := by
  cases x with
  | nan => simp [F64.isNumber] at hx
  | inf s =>
    cases y with
    | nan => simp [F64.isNumber] at hy
    | inf t => cases s <;> cases t <;> rfl
    | fin t n f => rfl
  | fin s m e =>
    cases y with
    | nan => simp [F64.isNumber] at hy
    | inf t => rfl
    | fin t n f =>
      simp only [F64.isNumber, decide_eq_true_eq] at hx hy
      show F64.gt (F64.abs (F64.add (.fin s m e) (F64.neg (.fin t n f)))) 0 =
        !(F64.eq (.fin s m e) (.fin t n f))
      simp only [F64.neg, F64.add, F64.eq, F64.signed_not]
      by_cases hXY : F64.signed s (m * 2 ^ (e - min e f).toNat) =
          F64.signed t (n * 2 ^ (f - min e f).toNat)
      · rw [if_pos (by omega)]
        simp only [hXY, decide_True, Bool.not_true]
        rfl
      · rw [if_neg (by omega)]
        simp only [hXY, decide_False, Bool.not_false]
        rcases F64.round_ne_zero
          (decide (F64.signed s (m * 2 ^ (e - min e f).toNat) +
            -F64.signed t (n * 2 ^ (f - min e f).toNat) < 0))
          (F64.signed s (m * 2 ^ (e - min e f).toNat) +
            -F64.signed t (n * 2 ^ (f - min e f).toNat)).natAbs (min e f)
          (by omega) (by omega) with h | ⟨m', e', h, hm'⟩
        · rw [h]
          rfl
        · rw [h]
          exact F64.gt_zero_of_fin _ _ _ hm'
/-- C18: for well-formed `a` and `b`, `Equal` does not panic and returns `true` exactly
when `a.Width = b.Width`, `a.Height = b.Height` and `a[j][i] == b[j][i]` for every row `j`
and column `i`, the comparison being the element type's own; in particular it returns
`false` whenever the shapes differ, whatever the content. -/
theorem equal_iff {T : Type} [Zero T] [BEq T] (a b : Matrix T)
    (ha : a.WellFormed) (hb : b.WellFormed) :
    ∃ r : Bool, a.Equal b = some r ∧
      (r = true ↔ (a.Dimensions.Width = b.Dimensions.Width ∧
        a.Dimensions.Height = b.Dimensions.Height ∧
        ∀ j i, j < a.Dimensions.Height.toNat → i < a.Dimensions.Width.toNat →
          (a.entry j i == b.entry j i) = true)) ∧
      ((a.Dimensions.Width ≠ b.Dimensions.Width ∨
        a.Dimensions.Height ≠ b.Dimensions.Height) → r = false) := by
  have hdim : a.Dimensions = b.Dimensions ↔
      (a.Dimensions.Width = b.Dimensions.Width ∧
        a.Dimensions.Height = b.Dimensions.Height) := by
    cases ha' : a.Dimensions; cases hb' : b.Dimensions
    simp only [Dimension.mk.injEq]
  by_cases hd : a.Dimensions = b.Dimensions
  · refine ⟨_, Equal_same_shape a b ha hb hd, ?_, ?_⟩
    · have h := Equal_true_iff a b ha hb
      rw [Equal_same_shape a b ha hb hd, Option.some.injEq, hdim] at h
      rw [h]
      constructor
      · rintro ⟨⟨h1, h2⟩, h3⟩
        exact ⟨h1, h2, h3⟩
      · rintro ⟨h1, h2, h3⟩
        exact ⟨⟨h1, h2⟩, h3⟩
    · intro hne
      have := hdim.mp hd
      omega
  · refine ⟨false, Equal_shape_mismatch a b hd, ?_, fun _ => rfl⟩
    constructor
    · intro h
      cases h
    · rintro ⟨h1, h2, _⟩
      exact absurd (hdim.mpr ⟨h1, h2⟩) hd

/-- C18 at the test's inputs (`TestEqual`): the 3-high matrix `[[1,2],[3,4],[5,6]]` is
`Equal` to itself and is not `Equal` to the 2×2 matrix of its first two rows. -/
theorem equal_example :
    test3x2.WellFormed ∧ test3x2Top.WellFormed ∧
      test3x2.Equal test3x2 = some true ∧ test3x2.Equal test3x2Top = some false := by
  refine ⟨by decide, by decide, by decide, ?_⟩
  obtain ⟨r, hr, _, hne⟩ := equal_iff test3x2 test3x2Top (by decide) (by decide)
  rw [hr, hne (by decide)]

theorem ApproxEqual_shape_mismatch {T : Type} (toFloat64 : T → F64) (a b : Matrix T)
    (margin : T) (hd : a.Dimensions ≠ b.Dimensions) :
    a.ApproxEqual toFloat64 b margin = some false := by
  by_cases hH : a.Dimensions.Height = b.Dimensions.Height
  · have hW : a.Dimensions.Width ≠ b.Dimensions.Width := by
      intro hW
      apply hd
      cases ha' : a.Dimensions; cases hb' : b.Dimensions
      simp only [ha', hb'] at hH hW
      rw [hH, hW]
    simp [Matrix.ApproxEqual, hH, hW]
  · simp [Matrix.ApproxEqual, hH]

theorem ApproxEqual_same_shape {T : Type} [Zero T] (toFloat64 : T → F64) (a b : Matrix T)
    (margin : T) (ha : a.WellFormed) (hb : b.WellFormed)
    (hd : a.Dimensions = b.Dimensions) :
    a.ApproxEqual toFloat64 b margin =
      some ((List.range a.Dimensions.Width.toNat).all (fun i =>
        (List.range a.Dimensions.Height.toNat).all (fun j =>
          !(F64.gt (F64.abs (toFloat64 (a.entry j i) - toFloat64 (b.entry j i)))
            (toFloat64 margin))))) := by
  simp only [Matrix.ApproxEqual, hd, ne_eq, not_true_eq_false, if_false]
  rw [← hd]
  apply allM_option
  intro i hi
  apply allM_option
  intro j hj
  rw [WellFormed.index2_eq a ha j i (List.mem_range.mp hj) (List.mem_range.mp hi),
    WellFormed.index2_eq b hb j i (hd ▸ List.mem_range.mp hj) (hd ▸ List.mem_range.mp hi)]
  rfl

theorem ApproxEqual_true_iff {T : Type} [Zero T] (toFloat64 : T → F64) (a b : Matrix T)
    (margin : T) (ha : a.WellFormed) (hb : b.WellFormed) :
    a.ApproxEqual toFloat64 b margin = some true ↔
      (a.Dimensions = b.Dimensions ∧
        ∀ j i, j < a.Dimensions.Height.toNat → i < a.Dimensions.Width.toNat →
          F64.gt (F64.abs (toFloat64 (a.entry j i) - toFloat64 (b.entry j i)))
            (toFloat64 margin) = false) := by
  by_cases hd : a.Dimensions = b.Dimensions
  · rw [ApproxEqual_same_shape toFloat64 a b margin ha hb hd]
    simp only [Option.some.injEq, List.all_eq_true, List.mem_range, Bool.not_eq_true', hd,
      true_and]
    constructor
    · intro h j i hj hi
      exact h i (hd ▸ hi) j (hd ▸ hj)
    · intro h i hi j hj
      exact h j i (hd ▸ hj) (hd ▸ hi)
  · rw [ApproxEqual_shape_mismatch toFloat64 a b margin hd]
    simp [hd]

/-- C19, refuted as stated, for matrices of 64-bit integers.  The conversion
`float64(2^53 + 1)` rounds to `2^53`, so `[[2^53]]` and `[[2^53 + 1]]` are `ApproxEqual`
with margin 0 although the elements differ by 1 and `Equal` is `false`.  The `float64`
difference `2^53 - (-1)` rounds to `2^53` as well, so `[[2^53]]` and `[[-1]]` are
`ApproxEqual` with margin `2^53` although `|2^53 - (-1)| = 2^53 + 1` exceeds the margin. -/
theorem approx_equal_zero_margin_differs :
    (testBig.WellFormed ∧ testBigNext.WellFormed ∧
      testBig.entry 0 0 = 9007199254740992 ∧ testBigNext.entry 0 0 = 9007199254740993 ∧
      (F64.ofInt 9007199254740992 == F64.ofInt 9007199254740993) = true ∧
      testBig.ApproxEqual F64.ofInt testBigNext 0 = some true ∧
      testBig.Equal testBigNext = some false) ∧
    (testMinusOne.WellFormed ∧ testMinusOne.entry 0 0 = -1 ∧
      testBig.ApproxEqual F64.ofInt testMinusOne 9007199254740992 = some true ∧
      ¬ |testBig.entry 0 0 - testMinusOne.entry 0 0| ≤ 9007199254740992) :=
  ⟨⟨by decide, by decide, by decide, by decide, by decide, by decide, by decide⟩,
    ⟨by decide, by decide, by decide, by decide⟩⟩

/-- C19, amended: for well-formed `a` and `b` and every margin, `ApproxEqual` does not
panic and returns `true` exactly when the shapes match and, for every row `j` and column
`i`, the comparison `math.Abs(float64(a[j][i]) - float64(b[j][i])) > float64(margin)` is
false, the conversions, the subtraction and the comparison being those of `float64` (the
difference is rounded, and a comparison with NaN is false).  When `float64(0)` is 0, the
converted elements are numbers (not NaN) and the conversion maps two corresponding
elements to equal `float64` values exactly when they are equal, `ApproxEqual(a, b, 0)` is
`true` exactly when `Equal(a, b)` is `true`. -/
theorem approx_equal_iff {T : Type} [Zero T] [BEq T] (toFloat64 : T → F64)
    (a b : Matrix T) (margin : T) (ha : a.WellFormed) (hb : b.WellFormed) :
    (∃ r : Bool, a.ApproxEqual toFloat64 b margin = some r ∧
      (r = true ↔ (a.Dimensions.Width = b.Dimensions.Width ∧
        a.Dimensions.Height = b.Dimensions.Height ∧
        ∀ j i, j < a.Dimensions.Height.toNat → i < a.Dimensions.Width.toNat →
          F64.gt (F64.abs (toFloat64 (a.entry j i) - toFloat64 (b.entry j i)))
            (toFloat64 margin) = false))) ∧
    ((toFloat64 0 = 0 ∧
        ∀ j i, j < a.Dimensions.Height.toNat → i < a.Dimensions.Width.toNat →
          (toFloat64 (a.entry j i)).isNumber = true ∧
          (toFloat64 (b.entry j i)).isNumber = true ∧
          (toFloat64 (a.entry j i) == toFloat64 (b.entry j i)) =
            (a.entry j i == b.entry j i)) →
      (a.ApproxEqual toFloat64 b 0 = some true ↔ a.Equal b = some true)) := by
  have hdim : a.Dimensions = b.Dimensions ↔
      (a.Dimensions.Width = b.Dimensions.Width ∧
        a.Dimensions.Height = b.Dimensions.Height) := by
    cases ha' : a.Dimensions; cases hb' : b.Dimensions
    simp only [Dimension.mk.injEq]
  constructor
  · by_cases hd : a.Dimensions = b.Dimensions
    · refine ⟨_, ApproxEqual_same_shape toFloat64 a b margin ha hb hd, ?_⟩
      have h := ApproxEqual_true_iff toFloat64 a b margin ha hb
      rw [ApproxEqual_same_shape toFloat64 a b margin ha hb hd, Option.some.injEq,
        hdim] at h
      rw [h]
      constructor
      · rintro ⟨⟨h1, h2⟩, h3⟩
        exact ⟨h1, h2, h3⟩
      · rintro ⟨h1, h2, h3⟩
        exact ⟨⟨h1, h2⟩, h3⟩
    · refine ⟨false, ApproxEqual_shape_mismatch toFloat64 a b margin hd, ?_⟩
      constructor
      · intro h
        cases h
      · rintro ⟨h1, h2, _⟩
        exact absurd (hdim.mpr ⟨h1, h2⟩) hd
  · rintro ⟨h0, hconv⟩
    rw [ApproxEqual_true_iff toFloat64 a b 0 ha hb, Equal_true_iff a b ha hb, h0]
    constructor
    · rintro ⟨hd, h⟩
      refine ⟨hd, fun j i hj hi => ?_⟩
      obtain ⟨hx, hy, hc⟩ := hconv j i hj hi
      have h' := h j i hj hi
      rw [F64.gt_abs_sub_zero _ _ hx hy, hc] at h'
      simpa using h'
    · rintro ⟨hd, h⟩
      refine ⟨hd, fun j i hj hi => ?_⟩
      obtain ⟨hx, hy, hc⟩ := hconv j i hj hi
      rw [F64.gt_abs_sub_zero _ _ hx hy, hc, h j i hj hi]
      rfl

/-- C19 amended, at the test's inputs (`TestApproxEqual`), the elements being integers
small enough for `float64` to hold exactly: with margin 0, `[[1,2],[3,4],[5,6]]` is
approximately equal to itself and not to `[[2,2],[3,4],[5,6]]`, just as `Equal` says. -/
theorem approx_equal_example :
    test3x2.WellFormed ∧ test3x2Off.WellFormed ∧
      test3x2.ApproxEqual F64.ofInt test3x2 0 = some true ∧
      test3x2.ApproxEqual F64.ofInt test3x2Off 0 ≠ some true := by
  have hconv : ∀ b : Matrix Int, b = test3x2 ∨ b = test3x2Off →
      (F64.ofInt 0 = 0 ∧
        ∀ j i, j < test3x2.Dimensions.Height.toNat → i < test3x2.Dimensions.Width.toNat →
          (F64.ofInt (test3x2.entry j i)).isNumber = true ∧
          (F64.ofInt (b.entry j i)).isNumber = true ∧
          (F64.ofInt (test3x2.entry j i) == F64.ofInt (b.entry j i)) =
            (test3x2.entry j i == b.entry j i)) := by
    intro b hb
    refine ⟨by decide, ?_⟩
    intro j i hj hi
    refine ⟨F64.ofInt_isNumber _, F64.ofInt_isNumber _, ?_⟩
    have hj3 : j < 3 := hj
    have hi2 : i < 2 := hi
    have hj' : j = 0 ∨ j = 1 ∨ j = 2 := by omega
    have hi' : i = 0 ∨ i = 1 := by omega
    rcases hb with rfl | rfl <;> rcases hj' with rfl | rfl | rfl <;>
      rcases hi' with rfl | rfl <;> decide
  refine ⟨by decide, by decide, ?_, ?_⟩
  · exact ((approx_equal_iff F64.ofInt test3x2 test3x2 0 (by decide)
      (by decide)).2 (hconv _ (Or.inl rfl))).mpr (by decide)
  · intro h
    have h2 := ((approx_equal_iff F64.ofInt test3x2 test3x2Off 0 (by decide)
      (by decide)).2 (hconv _ (Or.inr rfl))).mp h
    exact absurd h2 (by decide)

/-! ## Clone and the independence of its storage -/

theorem loadElem_eq_index2 {T : Type} (h : Heap T) (a : MatrixRef) (j i : Nat) :
    h.loadElem a.Values j i = index2 (h.load a).Values j i := by
  unfold Heap.loadElem Heap.rowAt Heap.load index2
  cases hv : a.Values with
  | none => simp
  | some p =>
    simp only [List.getD_eq_getElem?_getD, List.getElem?_map]
    cases hr : h.rows[p]? with
    | none => simp
    | some arr =>
      simp only [Option.getD_some]
      cases hs : arr[j]? with
      | none => simp
      | some slot =>
        cases slot with
        | none => simp
        | some q =>
          simp only [Option.map_some']
          cases he : h.elems[q]? with
          | none => simp
          | some row => simp

theorem WellFormed.row_at {T : Type} (m : Matrix T) (hm : m.WellFormed) (j : Nat)
    (hj : j < m.Dimensions.Height.toNat) :
    ∃ row, m.Values[j]? = some row ∧ row.length = m.Dimensions.Width.toNat := by
  obtain ⟨_, _, hlen, hrow⟩ := hm
  have hj' : j < m.Values.length := by omega
  refine ⟨m.Values[j], List.getElem?_eq_getElem hj', ?_⟩
  have := hrow _ (List.getElem_mem hj')
  omega

theorem rowAt_valid {T : Type} (h : Heap T) (a : MatrixRef)
    (hA : (h.load a).WellFormed) (j : Nat) (hj : j < a.Dimensions.Height.toNat) :
    ∃ q row, h.rowAt a.Values j = some q ∧ h.elems[q]? = some row ∧
      row.length = a.Dimensions.Width.toNat ∧ q < h.elems.length ∧
      (h.load a).Values[j]? = some row := by
  obtain ⟨r, hr, hlen⟩ := WellFormed.row_at (h.load a) hA j hj
  have hW : 0 < r.length := by
    have := hA.1
    have hd : (h.load a).Dimensions.Width = a.Dimensions.Width := rfl
    omega
  have hlen' : r.length = a.Dimensions.Width.toNat := hlen
  unfold Heap.load at hr
  unfold Heap.rowAt
  cases hv : a.Values with
  | none => simp [hv] at hr
  | some p =>
    simp only [hv, List.getD_eq_getElem?_getD, List.getElem?_map] at hr
    cases hrow : h.rows[p]? with
    | none => simp [hrow] at hr
    | some arr =>
      simp only [hrow, Option.getD_some] at hr
      cases hs : arr[j]? with
      | none => simp [hs] at hr
      | some slot =>
        simp only [hs, Option.map_some', Option.some.injEq] at hr
        cases slot with
        | none =>
          simp only at hr
          rw [← hr] at hW
          simp at hW
        | some q =>
          simp only at hr
          cases he : h.elems[q]? with
          | none =>
            simp only [he, Option.getD_none] at hr
            rw [← hr] at hW
            simp at hW
          | some row =>
            simp only [he, Option.getD_some] at hr
            subst hr
            refine ⟨q, row, by simp [hrow, hs], he, hlen', ?_, ?_⟩
            · by_contra hc
              have : h.elems[q]? = none := List.getElem?_eq_none (by omega)
              rw [this] at he
              exact absurd he (by simp)
            · unfold Heap.load
              simp [hv, hrow, hs, he]

theorem getElem?_append_some {α : Type} (l l' : List α) (n : Nat) (x : α)
    (h : l[n]? = some x) : (l ++ l')[n]? = some x := by
  have hn : n < l.length := by
    by_contra hc
    rw [List.getElem?_eq_none (by omega)] at h
    exact absurd h (by simp)
  rw [List.getElem?_append_left hn, h]

theorem rowAt_extend_old {T : Type} (h : Heap T) (extra : List (List T))
    (arr : List (Option Nat)) (vs : Option Nat) (j q : Nat) (hq : h.rowAt vs j = some q) :
    (h.extend extra arr).rowAt vs j = some q := by
  unfold Heap.rowAt at hq ⊢
  cases vs with
  | none => simp at hq
  | some p =>
    simp only at hq ⊢
    cases hr : h.rows[p]? with
    | none => simp [hr] at hq
    | some ar =>
      simp only [hr] at hq
      simp only [Heap.extend, getElem?_append_some _ _ _ _ hr]
      exact hq

theorem loadElem_extend_old {T : Type} (h : Heap T) (extra : List (List T))
    (arr : List (Option Nat)) (vs : Option Nat) (j i : Nat) (v : T)
    (hv : h.loadElem vs j i = some v) : (h.extend extra arr).loadElem vs j i = some v := by
  unfold Heap.loadElem at hv ⊢
  cases hq : h.rowAt vs j with
  | none => simp [hq] at hv
  | some q =>
    simp only [hq] at hv
    rw [rowAt_extend_old h extra arr vs j q hq]
    simp only
    cases he : h.elems[q]? with
    | none => simp [he] at hv
    | some row =>
      simp only [he] at hv
      simp only [Heap.extend, getElem?_append_some _ _ _ _ he]
      exact hv

theorem rowAt_extend_new {T : Type} (h : Heap T) (extra : List (List T))
    (arr : List (Option Nat)) (j q : Nat) (hq : arr[j]? = some (some q)) :
    (h.extend extra arr).rowAt (some h.rows.length) j = some q := by
  simp [Heap.rowAt, Heap.extend, hq]

theorem makeRows_extend {T : Type} (h : Heap T) (n : Int) (hn : 0 ≤ n) :
    h.makeRows n = some (h.extend [] (rowOf n.toNat (fun _ => none)), h.rows.length) := by
  have hneg : ¬ n < 0 := by omega
  simp [Heap.makeRows, Heap.extend, hneg, rowOf]

theorem makeElems_extend {T : Type} [Zero T] (h : Heap T) (extra : List (List T))
    (arr : List (Option Nat)) (n : Int) (hn : 0 ≤ n) :
    (h.extend extra arr).makeElems n =
      some (h.extend (extra ++ [rowOf n.toNat (fun _ => 0)]) arr,
        h.elems.length + extra.length) := by
  have hneg : ¬ n < 0 := by omega
  simp [Heap.makeElems, Heap.extend, hneg, rowOf]

theorem storeRow_extend_new {T : Type} (h : Heap T) (extra : List (List T))
    (arr : List (Option Nat)) (j q : Nat) (hj : j < arr.length) :
    (h.extend extra arr).storeRow (some h.rows.length) j q =
      some (h.extend extra (arr.set j (some q))) := by
  simp [Heap.storeRow, Heap.extend, hj]

theorem storeElem_extend_new {T : Type} (h : Heap T) (done : List (List T)) (row : List T)
    (arr : List (Option Nat)) (j i : Nat) (v : T)
    (hq : arr[j]? = some (some (h.elems.length + done.length))) (hi : i < row.length) :
    (h.extend (done ++ [row]) arr).storeElem (some h.rows.length) j i v =
      some (h.extend (done ++ [row.set i v]) arr) := by
  unfold Heap.storeElem
  rw [rowAt_extend_new h _ arr j _ hq]
  have he : (h.extend (done ++ [row]) arr).elems[h.elems.length + done.length]? =
      some row := by
    simp only [Heap.extend]
    rw [← List.append_assoc, List.getElem?_append_right (by simp)]
    simp
  simp only [he, hi, if_true]
  congr 1
  simp only [Heap.extend, Heap.mk.injEq, and_true]
  rw [← List.append_assoc, ← List.append_assoc]
  have hlen : h.elems.length + done.length = (h.elems ++ done).length := by simp
  rw [hlen, List.set_append_right _ _ (le_refl _)]
  simp

theorem rowsOf_succ {T : Type} (j : Nat) (R : Nat → List T) :
    rowsOf (j + 1) R = rowsOf j R ++ [R j] := by
  simp [rowsOf, List.range_succ]

theorem Clone_heap_eq {T : Type} [Zero T] (h : Heap T) (a : MatrixRef)
    (hA : (h.load a).WellFormed) :
    a.Clone h = some (h.extend (h.load a).Values
        (rowOf a.Dimensions.Height.toNat (fun k => some (h.elems.length + k))),
      ⟨⟨a.Dimensions.Width, a.Dimensions.Height⟩, some h.rows.length⟩) := by
  have hH : 0 ≤ a.Dimensions.Height := by
    have := hA.2.1
    have hd : (h.load a).Dimensions.Height = a.Dimensions.Height := rfl
    omega
  have hW : 0 ≤ a.Dimensions.Width := by
    have := hA.1
    have hd : (h.load a).Dimensions.Width = a.Dimensions.Width := rfl
    omega
  have hload : ∀ j i, j < a.Dimensions.Height.toNat → i < a.Dimensions.Width.toNat →
      h.loadElem a.Values j i = some ((h.load a).entry j i) := by
    intro j i hj hi
    rw [loadElem_eq_index2]
    exact WellFormed.index2_eq (h.load a) hA j i hj hi
  have hloop := forRange_steps a.Dimensions.Height
    (fun hp j =>
      (hp.makeElems a.Dimensions.Width).bind fun a_1 =>
        (a_1.1.storeRow (some h.rows.length) j a_1.2).bind fun a_2 =>
          forRange a.Dimensions.Width a_2 fun hq i =>
            (hq.loadElem a.Values j i).bind fun v => hq.storeElem (some h.rows.length) j i v)
    (fun j => h.extend
      (rowsOf j (fun k => rowOf a.Dimensions.Width.toNat ((h.load a).entry k)))
      (rowOf a.Dimensions.Height.toNat
        (fun k => if k < j then some (h.elems.length + k) else none)))
    (fun j hj => by
      beta_reduce
      rw [makeElems_extend h _ _ _ hW]
      simp only [Option.some_bind, rowsOf_length]
      rw [storeRow_extend_new h _ _ j _ (by rw [rowOf_length]; exact hj)]
      simp only [Option.some_bind]
      have hinner := forRange_steps a.Dimensions.Width
        (fun hq i =>
          (hq.loadElem a.Values j i).bind fun v =>
            hq.storeElem (some h.rows.length) j i v)
        (fun i => h.extend
          (rowsOf j (fun k => rowOf a.Dimensions.Width.toNat ((h.load a).entry k)) ++
            [rowOf a.Dimensions.Width.toNat
              (fun i' => if i' < i then (h.load a).entry j i' else 0)])
          ((rowOf a.Dimensions.Height.toNat
            (fun k => if k < j then some (h.elems.length + k) else none)).set j
              (some (h.elems.length + j))))
        (fun i hi => by
          beta_reduce
          rw [loadElem_extend_old h _ _ _ j i _ (hload j i hj hi)]
          simp only [Option.some_bind]
          rw [storeElem_extend_new h _ _ _ j i _
            (by
              rw [rowsOf_length]
              exact List.getElem?_set_self (by rw [rowOf_length]; exact hj))
            (by rw [rowOf_length]; exact hi)]
          have hr : rowOf a.Dimensions.Width.toNat
              (fun k => if k = i then (h.load a).entry j i
                else if k < i then (h.load a).entry j k else 0) =
              rowOf a.Dimensions.Width.toNat
                (fun i' => if i' < i + 1 then (h.load a).entry j i' else 0) := by
            apply rowOf_congr
            intro i' _
            by_cases hi' : i' = i
            · subst hi'; simp
            · have : i' < i + 1 ↔ i' < i := by omega
              simp [hi', this]
          rw [rowOf_set, hr])
      have h0 : rowOf a.Dimensions.Width.toNat (fun _ => (0 : T)) =
          rowOf a.Dimensions.Width.toNat
            (fun i' => if i' < 0 then (h.load a).entry j i' else 0) := by
        apply rowOf_congr; intro i' _; simp
      rw [h0]
      refine hinner.trans ?_
      beta_reduce
      have hr1 : rowOf a.Dimensions.Width.toNat
          (fun i' => if i' < a.Dimensions.Width.toNat then (h.load a).entry j i' else 0) =
          rowOf a.Dimensions.Width.toNat ((h.load a).entry j) := by
        apply rowOf_congr
        intro i' hi'
        simp [hi']
      have hr2 : rowOf a.Dimensions.Height.toNat
          (fun k => if k = j then some (h.elems.length + j)
            else if k < j then some (h.elems.length + k) else none) =
          rowOf a.Dimensions.Height.toNat
            (fun k => if k < j + 1 then some (h.elems.length + k) else none) := by
        apply rowOf_congr
        intro k _
        by_cases hk : k = j
        · subst hk; simp
        · have : k < j + 1 ↔ k < j := by omega
          simp [hk, this]
      rw [rowsOf_succ, rowOf_set, hr1, hr2])
  simp only [MatrixRef.Clone, makeRows_extend _ _ hH, Option.bind_eq_bind, Option.some_bind]
  have hstart : h.extend [] (rowOf a.Dimensions.Height.toNat (fun _ => none)) =
      h.extend (rowsOf 0 (fun k => rowOf a.Dimensions.Width.toNat ((h.load a).entry k)))
        (rowOf a.Dimensions.Height.toNat
          (fun k => if k < 0 then some (h.elems.length + k) else none)) := by
    congr 1
  rw [hstart, hloop]
  simp only [Option.some_bind]
  congr 3
  · have hv := WellFormed.values_eq (h.load a) hA
    rw [hv]
    rfl
  · apply rowOf_congr
    intro k hk
    simp [hk]

theorem ref_valid {T : Type} (h : Heap T) (a : MatrixRef) (hA : (h.load a).WellFormed) :
    ∃ p arr, a.Values = some p ∧ h.rows[p]? = some arr ∧
      arr.length = a.Dimensions.Height.toNat ∧
      ∀ slot ∈ arr, ∃ q row, slot = some q ∧ h.elems[q]? = some row ∧
        row.length = a.Dimensions.Width.toNat := by
  have hH : 0 < a.Dimensions.Height.toNat := by
    have := hA.2.1
    have hd : (h.load a).Dimensions.Height = a.Dimensions.Height := rfl
    omega
  obtain ⟨q0, row0, hq0, _, _, _, _⟩ := rowAt_valid h a hA 0 hH
  unfold Heap.rowAt at hq0
  cases hv : a.Values with
  | none => simp [hv] at hq0
  | some p =>
    simp only [hv] at hq0
    cases hr : h.rows[p]? with
    | none => simp [hr] at hq0
    | some arr =>
      have hlen : arr.length = a.Dimensions.Height.toNat := by
        have h1 := hA.2.2.1
        have hd : (h.load a).Dimensions.Height = a.Dimensions.Height := rfl
        have h2 : (h.load a).Values.length = arr.length := by
          simp [Heap.load, hv, hr]
        omega
      refine ⟨p, arr, rfl, hr, hlen, ?_⟩
      intro slot hslot
      obtain ⟨j, hj, hjs⟩ := List.getElem_of_mem hslot
      obtain ⟨q, row, hq, he, hl, _, _⟩ := rowAt_valid h a hA j (by omega)
      unfold Heap.rowAt at hq
      simp only [hv, hr, List.getElem?_eq_getElem hj, hjs] at hq
      exact ⟨q, row, hq, he, hl⟩

theorem load_congr {T : Type} (h hh : Heap T) (x : MatrixRef) (p : Nat)
    (arr : List (Option Nat)) (hx : x.Values = some p) (hr : h.rows[p]? = some arr)
    (hr' : hh.rows[p]? = some arr)
    (hel : ∀ q, some q ∈ arr → hh.elems[q]? = h.elems[q]?) : hh.load x = h.load x := by
  unfold Heap.load
  simp only [hx, List.getD_eq_getElem?_getD, hr, hr', Option.getD_some]
  congr 1
  apply List.map_congr_left
  intro slot hslot
  cases slot with
  | none => rfl
  | some q => simp only [hel q hslot]

theorem load_extend_old {T : Type} (h : Heap T) (a : MatrixRef)
    (hA : (h.load a).WellFormed) (extra : List (List T)) (arr : List (Option Nat)) :
    (h.extend extra arr).load a = h.load a := by
  obtain ⟨p, arrA, hv, hr, _, hslots⟩ := ref_valid h a hA
  apply load_congr h _ a p arrA hv hr
  · exact getElem?_append_some _ _ _ _ hr
  · intro q hq
    obtain ⟨q', row, hq', he, _⟩ := hslots _ hq
    simp only [Option.some.injEq] at hq'
    subst hq'
    simp only [Heap.extend]
    rw [getElem?_append_some _ _ _ _ he, he]

theorem load_fresh {T : Type} (h : Heap T) (d : Dimension) (vals : List (List T)) :
    (h.extend vals (rowOf vals.length (fun k => some (h.elems.length + k)))).load
      ⟨d, some h.rows.length⟩ = ⟨d, vals⟩ := by
  unfold Heap.load
  simp only [Heap.extend, List.getD_eq_getElem?_getD]
  rw [List.getElem?_append_right (le_refl _)]
  simp only [Nat.sub_self, List.getElem?_cons_zero, Option.getD_some]
  congr 1
  apply List.ext_getElem?
  intro k
  rw [List.getElem?_map, rowOf_getElem?]
  by_cases hk : k < vals.length
  · simp only [hk, if_true, Option.map_some']
    rw [List.getElem?_append_right (by omega)]
    simp only [Nat.add_sub_cancel_left, List.getElem?_eq_getElem hk, Option.getD_some]
  · simp only [hk, if_false, Option.map_none']
    exact (List.getElem?_eq_none (by omega)).symm

theorem load_clone {T : Type} (h : Heap T) (a : MatrixRef)
    (hA : (h.load a).WellFormed) :
    (h.extend (h.load a).Values
        (rowOf a.Dimensions.Height.toNat (fun k => some (h.elems.length + k)))).load
      ⟨⟨a.Dimensions.Width, a.Dimensions.Height⟩, some h.rows.length⟩ = h.load a := by
  have hlen : (h.load a).Values.length = a.Dimensions.Height.toNat := by
    have h1 := hA.2.2.1
    have h2 := hA.2.1
    have hd : (h.load a).Dimensions.Height = a.Dimensions.Height := rfl
    omega
  have := load_fresh h ⟨a.Dimensions.Width, a.Dimensions.Height⟩ (h.load a).Values
  rw [hlen] at this
  rw [this]
  rfl

theorem rowAt_some {T : Type} (h : Heap T) (vs : Option Nat) (j q : Nat)
    (hq : h.rowAt vs j = some q) :
    ∃ p arr, vs = some p ∧ h.rows[p]? = some arr ∧ arr[j]? = some (some q) := by
  unfold Heap.rowAt at hq
  cases vs with
  | none => simp at hq
  | some p =>
    simp only at hq
    cases hr : h.rows[p]? with
    | none => simp [hr] at hq
    | some arr =>
      simp only [hr] at hq
      cases hs : arr[j]? with
      | none => simp [hs] at hq
      | some slot =>
        simp only [hs] at hq
        exact ⟨p, arr, rfl, hr, by rw [hs, hq]⟩

theorem storeElem_some {T : Type} (h hh : Heap T) (vs : Option Nat) (j i : Nat) (v : T)
    (hs : h.storeElem vs j i v = some hh) :
    ∃ q row, h.rowAt vs j = some q ∧ h.elems[q]? = some row ∧ i < row.length ∧
      hh = ⟨h.elems.set q (row.set i v), h.rows⟩ := by
  unfold Heap.storeElem at hs
  cases hq : h.rowAt vs j with
  | none => simp [hq] at hs
  | some q =>
    simp only [hq] at hs
    cases he : h.elems[q]? with
    | none => simp [he] at hs
    | some row =>
      simp only [he] at hs
      by_cases hi : i < row.length
      · simp only [hi, if_true, Option.some.injEq] at hs
        exact ⟨q, row, rfl, he, hi, hs.symm⟩
      · simp [hi] at hs

theorem storeRow_some {T : Type} (h hh : Heap T) (vs : Option Nat) (j q : Nat)
    (hs : h.storeRow vs j q = some hh) :
    ∃ p arr, vs = some p ∧ h.rows[p]? = some arr ∧ j < arr.length ∧
      hh = ⟨h.elems, h.rows.set p (arr.set j (some q))⟩ := by
  unfold Heap.storeRow at hs
  cases vs with
  | none => simp at hs
  | some p =>
    simp only at hs
    cases hr : h.rows[p]? with
    | none => simp [hr] at hs
    | some arr =>
      simp only [hr] at hs
      by_cases hj : j < arr.length
      · simp only [hj, if_true, Option.some.injEq] at hs
        exact ⟨p, arr, rfl, hr, hj, hs.symm⟩
      · simp [hj] at hs

theorem load_after_storeElem {T : Type} (h hh : Heap T) (x y : MatrixRef) (j i : Nat)
    (v : T) (px : Nat) (arrX : List (Option Nat)) (hx : x.Values = some px)
    (hrx : h.rows[px]? = some arrX)
    (hsep : ∀ q, h.rowAt y.Values j = some q → some q ∉ arrX)
    (hs : h.storeElem y.Values j i v = some hh) : hh.load x = h.load x := by
  obtain ⟨q, row, hq, _, _, rfl⟩ := storeElem_some h hh y.Values j i v hs
  refine load_congr h _ x px arrX hx hrx hrx ?_
  intro q' hq'
  have hne : q ≠ q' := by
    intro hc
    subst hc
    exact hsep q hq hq'
  simp only
  rw [List.getElem?_set_ne hne]

theorem load_after_storeRow {T : Type} (h hh : Heap T) (x y : MatrixRef) (j q : Nat)
    (px : Nat) (arrX : List (Option Nat)) (hx : x.Values = some px)
    (hrx : h.rows[px]? = some arrX) (hne : y.Values ≠ some px)
    (hs : h.storeRow y.Values j q = some hh) : hh.load x = h.load x := by
  obtain ⟨p, arr, hy, _, _, rfl⟩ := storeRow_some h hh y.Values j q hs
  refine load_congr h _ x px arrX hx hrx ?_ ?_
  · simp only
    have hpp : p ≠ px := by
      intro hc
      subst hc
      exact hne hy
    rw [List.getElem?_set_ne hpp]
    exact hrx
  · intro q' _
    rfl

theorem storeElem_takes_effect {T : Type} (h : Heap T) (vs : Option Nat) (j i : Nat) (v : T)
    (q : Nat) (row : List T) (hq : h.rowAt vs j = some q) (he : h.elems[q]? = some row)
    (hi : i < row.length) :
    ∃ hh, h.storeElem vs j i v = some hh ∧ hh.loadElem vs j i = some v := by
  refine ⟨⟨h.elems.set q (row.set i v), h.rows⟩, ?_, ?_⟩
  · simp [Heap.storeElem, hq, he, hi]
  · have hq' : (⟨h.elems.set q (row.set i v), h.rows⟩ : Heap T).rowAt vs j = some q := hq
    have hlt : q < h.elems.length := by
      by_contra hc
      rw [List.getElem?_eq_none (by omega)] at he
      exact absurd he (by simp)
    unfold Heap.loadElem
    simp only [hq', List.getElem?_set_self hlt, List.getElem?_set_self hi]

theorem mem_fresh_slots (n0 H q : Nat)
    (hq : some q ∈ rowOf H (fun k => some (n0 + k))) : n0 ≤ q := by
  simp only [rowOf, List.mem_map, List.mem_range, Option.some.injEq] at hq
  obtain ⟨k, _, rfl⟩ := hq
  omega

/-- C20, refuted as stated: for the well-formed 1×1 `float64` matrix `[[NaN]]`, `Clone`
returns a matrix with the same dimensions and the same element, and yet `Clone(a)` is not
`Equal` to `a`, because `NaN != NaN` in Go. -/
theorem clone_not_equal_at_nan :
    (testHeapNaN.load testRefNaN).WellFormed ∧ testHeapNaN.load testRefNaN = testNaN ∧
      testNaN.Clone = some testNaN ∧ testNaN.Equal testNaN = some false ∧
      ∃ (h' : Heap F64) (m : MatrixRef), testRefNaN.Clone testHeapNaN = some (h', m) ∧
        m.Dimensions = testRefNaN.Dimensions ∧
        h'.load m = testHeapNaN.load testRefNaN ∧
        (h'.load m).Equal (testHeapNaN.load testRefNaN) = some false :=
  ⟨by decide, by decide, by decide, by decide,
    ⟨[[F64.nan], [F64.nan]], [[some 0], [some 1]]⟩, ⟨⟨1, 1⟩, some 1⟩,
    by decide, by decide, by decide, by decide⟩

/-- C20, amended: `Clone` makes a deep copy.  For a struct `a` that denotes a well-formed
matrix in the memory `h`, `Clone` does not panic and returns a struct `m` with the
dimensions of `a` that denotes, in the memory `h'` left by the call, the same matrix as `a`
(the same width, height and element values; it is the matrix that the value-level `Clone`
returns), while `a` still denotes what it did.  `Equal` of the clone with `a` returns, and
it is `true` exactly when every element of `a` compares equal to itself with the element
type's `==` (as every value other than a floating-point NaN does).  The storage of `m` is
independent of that of `a`: an assignment to any element `a.Values[j][i]`, or to any row
`a.Values[j]`, leaves the matrix denoted by `m` unchanged, and the same with `a` and `m`
exchanged; assignments to in-range elements do succeed and are read back.  The dimensions
of `m` are fields of the struct `m` itself, so an assignment to the fields of `a` does not
reach them. -/
theorem clone_deep_copy {T : Type} [Zero T] [BEq T] (h : Heap T) (a : MatrixRef)
    (hA : (h.load a).WellFormed) :
    ∃ (h' : Heap T) (m : MatrixRef), a.Clone h = some (h', m) ∧
      (h.load a).Clone = some (h'.load m) ∧
      m.Dimensions = a.Dimensions ∧ h'.load m = h.load a ∧
      ((∃ q : Bool, (h'.load m).Equal (h.load a) = some q) ∧
        ((h'.load m).Equal (h.load a) = some true ↔
          ∀ j i, j < a.Dimensions.Height.toNat → i < a.Dimensions.Width.toNat →
            ((h.load a).entry j i == (h.load a).entry j i) = true)) ∧
      h'.load a = h.load a ∧
      (∀ j i v hh, h'.storeElem a.Values j i v = some hh → hh.load m = h'.load m) ∧
      (∀ j i v hh, h'.storeElem m.Values j i v = some hh → hh.load a = h'.load a) ∧
      (∀ j q hh, h'.storeRow a.Values j q = some hh → hh.load m = h'.load m) ∧
      (∀ j q hh, h'.storeRow m.Values j q = some hh → hh.load a = h'.load a) ∧
      (∀ j i v, j < a.Dimensions.Height.toNat → i < a.Dimensions.Width.toNat →
        (∃ hh, h'.storeElem a.Values j i v = some hh ∧
          hh.loadElem a.Values j i = some v) ∧
        (∃ hh, h'.storeElem m.Values j i v = some hh ∧
          hh.loadElem m.Values j i = some v)) := by
  obtain ⟨p, arrA, hv, hr, hlenA, hslots⟩ := ref_valid h a hA
  have hm := load_clone h a hA
  have ha := load_extend_old h a hA (h.load a).Values
    (rowOf a.Dimensions.Height.toNat (fun k => some (h.elems.length + k)))
  have hp : p < h.rows.length := by
    by_contra hc
    rw [List.getElem?_eq_none (by omega)] at hr
    exact absurd hr (by simp)
  have hrA : (h.extend (h.load a).Values
      (rowOf a.Dimensions.Height.toNat (fun k => some (h.elems.length + k)))).rows[p]? =
      some arrA := getElem?_append_some _ _ _ _ hr
  have hrM : (h.extend (h.load a).Values
      (rowOf a.Dimensions.Height.toNat (fun k => some (h.elems.length + k)))).rows[
        h.rows.length]? =
      some (rowOf a.Dimensions.Height.toNat (fun k => some (h.elems.length + k))) := by
    simp only [Heap.extend]
    rw [List.getElem?_append_right (le_refl _)]
    simp
  have holdA : ∀ q, some q ∈ arrA → q < h.elems.length := by
    intro q hq
    obtain ⟨q', row, hq', he, _⟩ := hslots _ hq
    simp only [Option.some.injEq] at hq'
    subst hq'
    by_contra hc
    rw [List.getElem?_eq_none (by omega)] at he
    exact absurd he (by simp)
  refine ⟨_, _, Clone_heap_eq h a hA, ?_, rfl, hm, ?_, ha, ?_, ?_, ?_, ?_, ?_⟩
  · rw [hm]
    exact Clone_wellFormed _ hA
  · rw [hm]
    refine ⟨Equal_total _ _ hA hA, ?_⟩
    rw [Equal_true_iff _ _ hA hA]
    simp only [true_and]
    rfl
  · intro j i v hh hs
    refine load_after_storeElem _ hh _ a j i v h.rows.length _ rfl hrM ?_ hs
    intro q hq hmem
    obtain ⟨p', arr', hv', hr', hs'⟩ := rowAt_some _ _ _ _ hq
    rw [hv, Option.some.injEq] at hv'
    subst hv'
    rw [hrA, Option.some.injEq] at hr'
    subst hr'
    have h1 := holdA q (List.getElem?_mem hs')
    have h2 := mem_fresh_slots _ _ _ hmem
    omega
  · intro j i v hh hs
    refine load_after_storeElem _ hh a
      ⟨⟨a.Dimensions.Width, a.Dimensions.Height⟩, some h.rows.length⟩ j i v p arrA hv hrA
      ?_ hs
    intro q hq hmem
    obtain ⟨p', arr', hv', hr', hs'⟩ := rowAt_some _ _ _ _ hq
    simp only [Option.some.injEq] at hv'
    subst hv'
    rw [hrM, Option.some.injEq] at hr'
    subst hr'
    have h1 := holdA q hmem
    have h2 := mem_fresh_slots _ _ _ (List.getElem?_mem hs')
    omega
  · intro j q hh hs
    refine load_after_storeRow _ hh _ a j q h.rows.length _ rfl hrM ?_ hs
    rw [hv]
    intro hc
    simp only [Option.some.injEq] at hc
    omega
  · intro j q hh hs
    refine load_after_storeRow _ hh a
      ⟨⟨a.Dimensions.Width, a.Dimensions.Height⟩, some h.rows.length⟩ j q p arrA hv hrA
      ?_ hs
    intro hc
    simp only [Option.some.injEq] at hc
    omega
  · intro j i v hj hi
    constructor
    · obtain ⟨q, row, hq, he, hl, _, _⟩ := rowAt_valid h a hA j hj
      exact storeElem_takes_effect _ a.Values j i v q row
        (rowAt_extend_old h _ _ _ j q hq)
        (getElem?_append_some _ _ _ _ he) (by omega)
    · obtain ⟨row, hrow, hl⟩ := WellFormed.row_at (h.load a) hA j hj
      have hl' : row.length = a.Dimensions.Width.toNat := hl
      refine storeElem_takes_effect _ _ j i v (h.elems.length + j) row ?_ ?_ (by omega)
      · apply rowAt_extend_new
        rw [rowOf_getElem?]
        simp [hj]
      · simp only [Heap.extend]
        rw [List.getElem?_append_right (by omega)]
        simpa using hrow

/-- C20 amended, at the test's input (`TestClone`): after `m := a.Clone()` for
`a = [[1,2],[3,4],[5,6]]`, the assignment `a.Values[0][0] = 10` changes `a` to
`[[10,2],[3,4],[5,6]]` and leaves `m` equal to `[[1,2],[3,4],[5,6]]`. -/
theorem clone_deep_copy_example :
    (testHeap.load testRef).WellFormed ∧ testHeap.load testRef = test3x2 ∧
      ∃ (h' : Heap Int) (m : MatrixRef), testRef.Clone testHeap = some (h', m) ∧
        h'.load m = test3x2 ∧
        ∃ hh, h'.storeElem testRef.Values 0 0 10 = some hh ∧
          hh.load testRef = (New none [[10, 2], [3, 4], [5, 6]]).1 ∧
          hh.load m = test3x2 ∧ (hh.load m).Equal test3x2 = some true := by
  refine ⟨by decide, by decide, ?_⟩
  obtain ⟨h', m, hc, _, _, hm, _, _, hind, _, _, _, heff⟩ :=
    @clone_deep_copy Int _ _ testHeap testRef (by decide)
  have hload : testHeap.load testRef = test3x2 := by decide
  obtain ⟨hh, hs, _⟩ := (heff 0 0 10 (by decide) (by decide)).1
  have hc' : testRef.Clone testHeap =
      some (⟨[[1, 2], [3, 4], [5, 6], [1, 2], [3, 4], [5, 6]],
        [[some 0, some 1, some 2], [some 3, some 4, some 5]]⟩, ⟨⟨2, 3⟩, some 1⟩) := by
    decide
  rw [hc'] at hc
  simp only [Option.some.injEq, Prod.mk.injEq] at hc
  obtain ⟨rfl, rfl⟩ := hc
  have hmm := hind 0 0 10 hh hs
  refine ⟨_, _, hc', by decide, hh, hs, ?_, ?_, ?_⟩
  · have hs' : (⟨[[1, 2], [3, 4], [5, 6], [1, 2], [3, 4], [5, 6]],
        [[some 0, some 1, some 2], [some 3, some 4, some 5]]⟩ : Heap Int).storeElem
        testRef.Values 0 0 10 =
        some ⟨[[10, 2], [3, 4], [5, 6], [1, 2], [3, 4], [5, 6]],
          [[some 0, some 1, some 2], [some 3, some 4, some 5]]⟩ := by decide
    rw [hs'] at hs
    simp only [Option.some.injEq] at hs
    subst hs
    decide
  · rw [hmm]
    decide
  · rw [hmm]
    decide

/-! ## The multiplicative identity -/

theorem foldl_delta_right {T : Type} [Semiring T] (f g : Nat → T) (x k : Nat)
    (hg : ∀ i, i < k → g i = if i = x then 1 else 0) :
    (List.range k).foldl (fun sum i => sum + f i * g i) 0 = if x < k then f x else 0 := by
  induction k with
  | zero => simp
  | succ k ih =>
    rw [List.range_succ, List.foldl_append, ih (fun i hi => hg i (by omega))]
    simp only [List.foldl_cons, List.foldl_nil]
    rw [hg k (by omega)]
    by_cases h1 : x < k
    · have h2 : ¬ k = x := by omega
      have h3 : x < k + 1 := by omega
      simp [h1, h2, h3]
    · by_cases h2 : k = x
      · subst h2
        simp
      · have h3 : ¬ x < k + 1 := by omega
        simp [h1, h2, h3]

theorem foldl_delta_left {T : Type} [Semiring T] (f g : Nat → T) (j k : Nat)
    (hf : ∀ i, i < k → f i = if j = i then 1 else 0) :
    (List.range k).foldl (fun sum i => sum + f i * g i) 0 = if j < k then g j else 0 := by
  induction k with
  | zero => simp
  | succ k ih =>
    rw [List.range_succ, List.foldl_append, ih (fun i hi => hf i (by omega))]
    simp only [List.foldl_cons, List.foldl_nil]
    rw [hf k (by omega)]
    by_cases h1 : j < k
    · have h2 : ¬ j = k := by omega
      have h3 : j < k + 1 := by omega
      simp [h1, h2, h3]
    · by_cases h2 : j = k
      · subst h2
        simp
      · have h3 : ¬ j < k + 1 := by omega
        simp [h1, h2, h3]

theorem Multiply_identity_right {T : Type} [Semiring T] (A : Matrix T)
    (hA : A.WellFormed) :
    ∃ i : Matrix T,
      NewIdentity none ⟨A.Dimensions.Width, A.Dimensions.Width⟩ = some (i, none) ∧
      A.Multiply none i = some (A, none) := by
  have hI := @NewIdentity_eq T _ _ ⟨A.Dimensions.Width, A.Dimensions.Width⟩ hA.1 rfl
  have hwfI := wellFormed_table A.Dimensions.Width A.Dimensions.Width hA.1 hA.1
    (fun i j => if i = j then (1 : T) else 0)
  refine ⟨_, hI, ?_⟩
  rw [Multiply_eq A _ hA hwfI rfl]
  have hwfR := wellFormed_table A.Dimensions.Width A.Dimensions.Height hA.1 hA.2.1
    (fun j x => dotSum A (⟨⟨A.Dimensions.Width, A.Dimensions.Width⟩,
      table A.Dimensions.Width.toNat A.Dimensions.Width.toNat
        (fun i j => if i = j then (1 : T) else 0)⟩ : Matrix T) j x A.Dimensions.Width.toNat)
  have heq := matrix_ext _ A hwfR hA rfl (fun j x hj hx => by
    rw [entry_table _ _ _ _ j x hj hx]
    unfold dotSum
    rw [foldl_delta_right (fun i => A.entry j i) _ x A.Dimensions.Width.toNat
      (fun i hi => entry_table _ _ _ _ i x hi hx)]
    simp only [show x < A.Dimensions.Width.toNat from hx, if_true])
  exact congrArg (fun m : Matrix T => some (m, (none : ErrorSlot))) heq

theorem Multiply_identity_left {T : Type} [Semiring T] (A : Matrix T)
    (hA : A.WellFormed) :
    ∃ i : Matrix T,
      NewIdentity none ⟨A.Dimensions.Height, A.Dimensions.Height⟩ = some (i, none) ∧
      i.Multiply none A = some (A, none) := by
  have hI := @NewIdentity_eq T _ _ ⟨A.Dimensions.Height, A.Dimensions.Height⟩ hA.2.1 rfl
  have hwfI := wellFormed_table A.Dimensions.Height A.Dimensions.Height hA.2.1 hA.2.1
    (fun i j => if i = j then (1 : T) else 0)
  refine ⟨_, hI, ?_⟩
  rw [Multiply_eq _ A hwfI hA rfl]
  have hwfR := wellFormed_table A.Dimensions.Width A.Dimensions.Height hA.1 hA.2.1
    (fun j x => dotSum (⟨⟨A.Dimensions.Height, A.Dimensions.Height⟩,
      table A.Dimensions.Height.toNat A.Dimensions.Height.toNat
        (fun i j => if i = j then (1 : T) else 0)⟩ : Matrix T) A j x
        A.Dimensions.Height.toNat)
  have heq := matrix_ext _ A hwfR hA rfl (fun j x hj hx => by
    rw [entry_table _ _ _ _ j x hj hx]
    unfold dotSum
    rw [foldl_delta_left _ (fun i => A.entry i x) j A.Dimensions.Height.toNat
      (fun i hi => entry_table _ _ _ _ j i hj hi)]
    simp only [show j < A.Dimensions.Height.toNat from hj, if_true])
  exact congrArg (fun m : Matrix T => some (m, (none : ErrorSlot))) heq

/-- C22, refuted as stated, in `float64`: for the well-formed matrix `[[+Inf,1],[1,1]]` the
products with the 2×2 identity are computed without error, but `Inf * 0` is NaN, so the
element `[0][1]` of `Multiply(A, I)` and the element `[1][0]` of `Multiply(I, A)` are NaN
and neither product is `Equal` to `A`. -/
theorem multiplicative_identity_fails :
    testInf.WellFormed ∧ (F64.inf false * 0 : F64) = F64.nan ∧
      (∃ i r : Matrix F64,
        NewIdentity none ⟨testInf.Dimensions.Width, testInf.Dimensions.Width⟩ =
          some (i, none) ∧
        testInf.Multiply none i = some (r, none) ∧ r.entry 0 1 = F64.nan ∧
        r.Equal testInf = some false) ∧
      (∃ i r : Matrix F64,
        NewIdentity none ⟨testInf.Dimensions.Height, testInf.Dimensions.Height⟩ =
          some (i, none) ∧
        i.Multiply none testInf = some (r, none) ∧ r.entry 1 0 = F64.nan ∧
        r.Equal testInf = some false) :=
  ⟨by decide, by decide, ⟨_, _, rfl, rfl, by decide, by decide⟩,
    ⟨_, _, rfl, rfl, by decide, by decide⟩⟩

/-- C22, amended: for every well-formed `A` over elements whose arithmetic obeys the
semiring laws and whose `==` is equality (as for the wrapping arithmetic of Go's integer
types), with an empty error slot, `NewIdentity(A.Width, A.Width)` and
`NewIdentity(A.Height, A.Height)` succeed, and `Multiply(A, NewIdentity(A.Width, A.Width))`
and `Multiply(NewIdentity(A.Height, A.Height), A)` do not panic, report no error, return
`A` itself and are `Equal` to `A`. -/
theorem multiplicative_identity {T : Type} [Semiring T] [BEq T] [LawfulBEq T]
    (A : Matrix T) (hA : A.WellFormed) :
    (∃ i r : Matrix T,
      NewIdentity none ⟨A.Dimensions.Width, A.Dimensions.Width⟩ = some (i, none) ∧
      A.Multiply none i = some (r, none) ∧ r = A ∧ r.Equal A = some true) ∧
    (∃ i r : Matrix T,
      NewIdentity none ⟨A.Dimensions.Height, A.Dimensions.Height⟩ = some (i, none) ∧
      i.Multiply none A = some (r, none) ∧ r = A ∧ r.Equal A = some true) := by
  obtain ⟨i1, h1, h2⟩ := Multiply_identity_right A hA
  obtain ⟨i2, h3, h4⟩ := Multiply_identity_left A hA
  exact ⟨⟨i1, A, h1, h2, rfl, Equal_self_lawful A hA⟩,
    ⟨i2, A, h3, h4, rfl, Equal_self_lawful A hA⟩⟩

/-- C22 amended, at the 2-wide, 3-high integer test matrix `[[1,2],[3,4],[5,6]]`: its
product with the identity of size 2 on the right and with the identity of size 3 on the
left is the matrix itself. -/
theorem multiplicative_identity_example :
    test3x2.WellFormed ∧
      (∃ i r : Matrix Int, NewIdentity none ⟨2, 2⟩ = some (i, none) ∧
        test3x2.Multiply none i = some (r, none) ∧ r = test3x2 ∧
        r.Equal test3x2 = some true) ∧
      (∃ i r : Matrix Int, NewIdentity none ⟨3, 3⟩ = some (i, none) ∧
        i.Multiply none test3x2 = some (r, none) ∧ r = test3x2 ∧
        r.Equal test3x2 = some true) ∧
      test3x2.Multiply none (New none [[1, 0], [0, 1]]).1 = some (test3x2, none) :=
  ⟨by decide, (multiplicative_identity test3x2 (by decide)).1,
    (multiplicative_identity test3x2 (by decide)).2, by decide⟩

/-! ## Inverse over the integers -/

theorem one_div_eq_tdiv (d : Int) : (1 : Int) / d = Int.tdiv 1 d := by
  rcases le_total 0 d with h | h
  · exact (Int.tdiv_eq_ediv (by decide) h).symm
  · have h' : 0 ≤ -d := by omega
    have e1 : (1 : Int) / d = -((1 : Int) / -d) := by
      rw [Int.ediv_neg, neg_neg]
    have e2 : Int.tdiv 1 d = -(Int.tdiv 1 (-d)) := by
      rw [Int.tdiv_neg, neg_neg]
    rw [e1, e2, Int.tdiv_eq_ediv (by decide) h']

theorem one_div_of_two_le_abs (d : Int) (h : 2 ≤ |d|) : (1 : Int) / d = 0 := by
  rcases le_total 0 d with h0 | h0
  · rw [abs_of_nonneg h0] at h
    exact Int.ediv_eq_zero_of_lt (by decide) (by omega)
  · rw [abs_of_nonpos h0] at h
    have e1 : (1 : Int) / d = -((1 : Int) / -d) := by
      rw [Int.ediv_neg, neg_neg]
    rw [e1, Int.ediv_eq_zero_of_lt (by decide) (by omega)]
    rfl

theorem one_div_of_abs_one (d : Int) (h : |d| = 1) : (1 : Int) / d * d = 1 := by
  rcases le_total 0 d with h0 | h0
  · rw [abs_of_nonneg h0] at h
    subst h
    decide
  · rw [abs_of_nonpos h0] at h
    have hd : d = -1 := by omega
    subst hd
    decide

theorem Equal_false_of_entry_ne {T : Type} [Zero T] [BEq T] (a b : Matrix T)
    (ha : a.WellFormed) (hb : b.WellFormed) (hd : a.Dimensions = b.Dimensions) (j i : Nat)
    (hj : j < a.Dimensions.Height.toNat) (hi : i < a.Dimensions.Width.toNat)
    (hne : (a.entry j i == b.entry j i) = false) : a.Equal b = some false := by
  have h1 := Equal_same_shape a b ha hb hd
  have h2 := Equal_true_iff a b ha hb
  rw [h1] at h2 ⊢
  cases hr : (List.range a.Dimensions.Width.toNat).all (fun i =>
      (List.range a.Dimensions.Height.toNat).all (fun j =>
        a.entry j i == b.entry j i)) with
  | false => rfl
  | true =>
    rw [hr] at h2
    have h3 := (h2.mp rfl).2 j i hj hi
    rw [hne] at h3
    cases h3

theorem dimensions_two {T : Type} (a : Matrix T) (hW : a.Dimensions.Width = 2)
    (hH : a.Dimensions.Height = 2) : a.Dimensions = ⟨2, 2⟩ := by
  cases hd : a.Dimensions
  simp only [hd] at hW hH
  rw [hW, hH]

theorem Inverse_integer_zero (a : Matrix Int) (ha : a.WellFormed)
    (hW : a.Dimensions.Width = 2) (hH : a.Dimensions.Height = 2) (hd : 2 ≤ |a.det2|) :
    a.Inverse none = some (⟨⟨2, 2⟩, [[0, 0], [0, 0]]⟩, none) ∧
    ∃ p i : Matrix Int,
      (⟨⟨2, 2⟩, [[0, 0], [0, 0]]⟩ : Matrix Int).Multiply none a = some (p, none) ∧
      NewIdentity none a.Dimensions = some (i, none) ∧ p.Equal i = some false := by
  have hz := one_div_of_two_le_abs a.det2 hd
  have hdet : ¬ a.det2 = 0 := by
    intro hc
    rw [hc] at hd
    simp at hd
  have hinv := Inverse_nonsingular a ha hW hH (beq_eq_false_iff_ne.mpr hdet)
  have hz' : (1 : Int) / (a.entry 0 0 * a.entry 1 1 - a.entry 0 1 * a.entry 1 0) = 0 := hz
  rw [hz'] at hinv
  simp only [mul_zero] at hinv
  refine ⟨hinv, _, _, Multiply_eq _ a (wellFormed_rows 0 0 0 0) ha (by simp [hH]),
    NewIdentity_eq a.Dimensions (by omega) (by omega), ?_⟩
  have hdim := dimensions_two a hW hH
  refine Equal_false_of_entry_ne _ _ (wellFormed_table _ _ (by omega) (by decide) _)
    (wellFormed_table _ _ (by omega) (by omega) _) (by rw [hdim]) 0 0
    (show 0 < (2 : Int).toNat by decide) (by simp [hW]) ?_
  rw [entry_table _ _ _ _ 0 0 (show 0 < (2 : Int).toNat by decide) (by simp [hW]),
    entry_table _ _ _ _ 0 0 (by simp [hH]) (by simp [hW])]
  rw [show (⟨⟨2, 2⟩, [[0, 0], [0, 0]]⟩ : Matrix Int).Dimensions.Width.toNat = 2 from rfl,
    dotSum_two]
  simp [entry_rows]

theorem Inverse_integer_singular (a : Matrix Int) (ha : a.WellFormed)
    (hW : a.Dimensions.Width = 2) (hH : a.Dimensions.Height = 2) (hd : a.det2 = 0)
    (inv p i : Matrix Int) (e e' : ErrorSlot) (h1 : a.Inverse none = some (inv, e))
    (h2 : inv.Multiply e a = some (p, e'))
    (h3 : NewIdentity none a.Dimensions = some (i, none)) : p.Equal i = some false := by
  have hd' : a.entry 0 0 * a.entry 1 1 - a.entry 0 1 * a.entry 1 0 = 0 := hd
  rw [Inverse_two_by_two a ha hW hH, if_pos (beq_iff_eq.mpr hd')] at h1
  simp only [Option.some.injEq, Prod.mk.injEq] at h1
  obtain ⟨rfl, rfl⟩ := h1
  rw [(slot_held (Matrix.empty : Matrix Int) a 0 .singular).2.1] at h2
  simp only [Option.some.injEq, Prod.mk.injEq] at h2
  obtain ⟨rfl, rfl⟩ := h2
  rw [NewIdentity_eq a.Dimensions (by omega) (by omega)] at h3
  simp only [Option.some.injEq, Prod.mk.injEq, and_true] at h3
  subst h3
  apply Equal_shape_mismatch
  rw [dimensions_two a hW hH]
  decide

/-- C21: for the signed-integer instantiation (unbounded integers; `1 / d` is the
truncating quotient) and every well-formed 2×2 matrix `a` with determinant
`d = a[0][0]*a[1][1] - a[0][1]*a[1][0]`: when `|d| ≥ 2`, `Inverse` reports no error and
returns the 2×2 all-zero matrix, whose product with `a` is not `Equal` to the identity;
when `|d| = 1`, `Inverse`, `Multiply` and `NewIdentity` report no error and the product
`Inverse(a) × a` is the identity; and the product of what `Inverse` returns with `a` is
`Equal` to the identity only when `|d| = 1`. -/
theorem integer_inverse (a : Matrix Int) (ha : a.WellFormed)
    (hW : a.Dimensions.Width = 2) (hH : a.Dimensions.Height = 2) :
    (1 : Int) / a.det2 = Int.tdiv 1 a.det2 ∧
    (2 ≤ |a.det2| →
      (1 : Int) / a.det2 = 0 ∧
      a.Inverse none = some (⟨⟨2, 2⟩, [[0, 0], [0, 0]]⟩, none) ∧
      ∃ p i : Matrix Int,
        (⟨⟨2, 2⟩, [[0, 0], [0, 0]]⟩ : Matrix Int).Multiply none a = some (p, none) ∧
        NewIdentity none a.Dimensions = some (i, none) ∧ p.Equal i = some false) ∧
    (|a.det2| = 1 →
      ∃ inv p : Matrix Int, a.Inverse none = some (inv, none) ∧
        inv.Multiply none a = some (p, none) ∧
        NewIdentity none a.Dimensions = some (p, none) ∧ p.Equal p = some true) ∧
    ((∃ (inv p i : Matrix Int) (e e' : ErrorSlot), a.Inverse none = some (inv, e) ∧
        inv.Multiply e a = some (p, e') ∧
        NewIdentity none a.Dimensions = some (i, none) ∧ p.Equal i = some true) ↔
      |a.det2| = 1) := by
  have hone : |a.det2| = 1 →
      ∃ inv p : Matrix Int, a.Inverse none = some (inv, none) ∧
        inv.Multiply none a = some (p, none) ∧
        NewIdentity none a.Dimensions = some (p, none) ∧ p.Equal p = some true := by
    intro h1
    have hdet : a.det2 ≠ 0 := by
      intro hc
      rw [hc] at h1
      simp at h1
    obtain ⟨inv, p, hi, hm, hn, hwf⟩ :=
      inverse_times_matrix a ha hW hH hdet (one_div_of_abs_one a.det2 h1)
    exact ⟨inv, p, hi, hm, hn, Equal_self_lawful p hwf⟩
  refine ⟨one_div_eq_tdiv a.det2, ?_, hone, ?_⟩
  · intro h2
    exact ⟨one_div_of_two_le_abs a.det2 h2, Inverse_integer_zero a ha hW hH h2⟩
  · constructor
    · rintro ⟨inv, p, i, e, e', h1, h2, h3, h4⟩
      by_contra hne
      rcases Nat.lt_or_ge (a.det2).natAbs 1 with h0 | h0
      · have hz : a.det2 = 0 := by omega
        have hf := Inverse_integer_singular a ha hW hH hz inv p i e e' h1 h2 h3
        rw [hf] at h4
        exact absurd h4 (by simp)
      · have hge : 2 ≤ |a.det2| := by
          rw [Int.abs_eq_natAbs] at hne ⊢
          omega
        obtain ⟨hinv, p', i', hm, hn, hf⟩ := Inverse_integer_zero a ha hW hH hge
        rw [hinv] at h1
        simp only [Option.some.injEq, Prod.mk.injEq] at h1
        obtain ⟨rfl, rfl⟩ := h1
        rw [hm] at h2
        simp only [Option.some.injEq, Prod.mk.injEq] at h2
        obtain ⟨rfl, rfl⟩ := h2
        rw [hn] at h3
        simp only [Option.some.injEq, Prod.mk.injEq, and_true] at h3
        subst h3
        rw [hf] at h4
        exact absurd h4 (by simp)
    · intro h1
      obtain ⟨inv, p, hi, hm, hn, he⟩ := hone h1
      exact ⟨inv, p, p, none, none, hi, hm, hn, he⟩

/-- C21 at concrete inputs: the inverse of `[[2,0],[0,2]]` (determinant 4) and of
`[[0,2],[2,0]]` (determinant -4) is the all-zero matrix, with no error reported; the
inverse of `[[2,1],[1,1]]` (determinant 1) is `[[1,-1],[-1,2]]` and that of `[[1,2],[1,1]]`
(determinant -1) is `[[-1,2],[1,-1]]`, and their products with the matrix are the
identity. -/
theorem integer_inverse_example :
    testDouble.WellFormed ∧ testDouble.det2 = 4 ∧ testDetMinusFour.det2 = -4 ∧
      testDetOne.det2 = 1 ∧ testDetMinusOne.det2 = -1 ∧
      testDouble.Inverse none = some ((New none [[0, 0], [0, 0]]).1, none) ∧
      testDetMinusFour.Inverse none = some ((New none [[0, 0], [0, 0]]).1, none) ∧
      testDetOne.Inverse none = some ((New none [[1, -1], [-1, 2]]).1, none) ∧
      testDetMinusOne.Inverse none = some ((New none [[-1, 2], [1, -1]]).1, none) ∧
      (∃ inv p : Matrix Int, testDetMinusOne.Inverse none = some (inv, none) ∧
        inv.Multiply none testDetMinusOne = some (p, none) ∧
        NewIdentity none testDetMinusOne.Dimensions = some (p, none) ∧
        p.Equal p = some true) := by
  refine ⟨by decide, by decide, by decide, by decide, by decide, ?_, ?_, by decide,
    by decide, ?_⟩
  · exact ((integer_inverse testDouble (by decide) rfl rfl).2.1 (by decide)).2.1
  · exact ((integer_inverse testDetMinusFour (by decide) rfl rfl).2.1 (by decide)).2.1
  · exact (integer_inverse testDetMinusOne (by decide) rfl rfl).2.2.1 (by decide)

/-! ## Rounding errors of `float64` arithmetic -/

theorem F64.roundShift_err (m k : Nat) (hk : 1 ≤ k) :
    F64.roundShift m k * 2 ^ k ≤ m + 2 ^ (k - 1) ∧
      m ≤ F64.roundShift m k * 2 ^ k + 2 ^ (k - 1) := by
  have h2 : 2 ^ k = 2 * 2 ^ (k - 1) := by
    rw [← pow_succ']
    congr 1
    omega
  have hdm := Nat.div_add_mod m (2 ^ k)
  have hlt : m % 2 ^ k < 2 ^ k := Nat.mod_lt _ (by positivity)
  unfold F64.roundShift
  simp only
  split_ifs with h
  · rw [Nat.add_mul, Nat.one_mul]
    have hge : 2 ^ (k - 1) ≤ m % 2 ^ k := by
      rcases h with h | ⟨h, _⟩ <;> omega
    have hcomm : 2 ^ k * (m / 2 ^ k) = m / 2 ^ k * 2 ^ k := Nat.mul_comm _ _
    omega
  · have hle : m % 2 ^ k ≤ 2 ^ (k - 1) := by
      by_contra hc
      exact h (Or.inl (by omega))
    have hcomm : 2 ^ k * (m / 2 ^ k) = m / 2 ^ k * 2 ^ k := Nat.mul_comm _ _
    omega

theorem bitLength_le_of_lt (n k : Nat) (h : n < 2 ^ k) : bitLength n ≤ k := by
  by_cases h0 : n = 0
  · subst h0
    show bitLengthAux 0 0 ≤ k
    simp [bitLengthAux]
  · have h1 := two_pow_bitLength_le n h0
    have h2 : 2 ^ (bitLength n - 1) < 2 ^ k := lt_of_le_of_lt h1 h
    have h3 := (Nat.pow_lt_pow_iff_right (by decide : 1 < 2)).mp h2
    omega

theorem F64.signed_cast (s : Bool) (m : Nat) :
    ((F64.signed s m : Int) : ℚ) = if s then -(m : ℚ) else (m : ℚ) := by
  cases s <;> simp [F64.signed]

theorem F64.abs_signed_cast (s : Bool) (m : Nat) : |((F64.signed s m : Int) : ℚ)| = (m : ℚ) := by
  cases s <;> simp [F64.signed]

theorem F64.toRat_fin (s : Bool) (m : Nat) (e : Int) :
    (F64.fin s m e).toRat = ((F64.signed s m : Int) : ℚ) * 2 ^ e := rfl

theorem F64.abs_toRat_fin (s : Bool) (m : Nat) (e : Int) :
    |(F64.fin s m e).toRat| = (m : ℚ) * 2 ^ e := by
  rw [F64.toRat_fin, abs_mul, F64.abs_signed_cast, abs_of_pos (zpow_pos (by norm_num) e)]

/-- Rounding a number below `2 ^ 1023` with exponent at least `-1021` gives a finite number
within the relative distance `2 ^ (-53)`. -/
theorem F64.round_err (s : Bool) (m : Nat) (e : Int) (he : -1021 ≤ e)
    (hv : (m : ℚ) * 2 ^ e < 2 ^ (1023 : Int)) :
    (F64.round s m e).IsFinAbove (min e 0) ∧
      |(F64.round s m e).toRat - ((F64.signed s m : Int) : ℚ) * 2 ^ e| ≤
        1 / 2 ^ 53 * ((m : ℚ) * 2 ^ e) := by
  by_cases hm : m = 0
  · subst hm
    rw [F64.round_zero]
    refine ⟨?_, ?_⟩
    · show min e 0 ≤ 0
      omega
    · simp [F64.toRat, F64.signed]
  · have hP : (0 : ℚ) < 2 ^ e := zpow_pos (by norm_num) e
    have hlow := two_pow_bitLength_le m hm
    have hupp := lt_two_pow_bitLength m
    have hb1 : 1 ≤ bitLength m := by
      by_contra hc
      have : bitLength m = 0 := by omega
      rw [this] at hupp
      simp at hupp
      exact hm hupp
    -- the exponent of the leading digit is below 1023
    have hbe : (bitLength m : Int) + e ≤ 1023 := by
      have h1 : ((2 : ℚ) ^ (bitLength m - 1 : Nat)) * 2 ^ e < 2 ^ (1023 : Int) := by
        refine lt_of_le_of_lt ?_ hv
        apply mul_le_mul_of_nonneg_right _ hP.le
        exact_mod_cast hlow
      rw [← zpow_natCast, ← zpow_add₀ (by norm_num : (2 : ℚ) ≠ 0)] at h1
      have h2 := (zpow_lt_zpow_iff_right₀ (by norm_num : (1 : ℚ) < 2)).mp h1
      push_cast at h2
      omega
    rw [F64.round_eq s m e hm]
    by_cases hb : bitLength m ≤ 53
    · have hmax : max ((bitLength m : Int) - 53) (-1074 - e) ≤ 0 := by omega
      rw [if_pos hmax, if_neg (by omega)]
      refine ⟨?_, ?_⟩
      · show min e 0 ≤ e
        omega
      · rw [F64.toRat_fin, sub_self, abs_zero]
        positivity
    · have hmax : max ((bitLength m : Int) - 53) (-1074 - e) = (bitLength m : Int) - 53 := by
        omega
      have hd : ((bitLength m : Int) - 53).toNat = bitLength m - 53 := by omega
      rw [hmax, hd, if_neg (by omega)]
      have herr := F64.roundShift_err m (bitLength m - 53) (by omega)
      have hq1 : F64.roundShift m (bitLength m - 53) < 2 ^ 54 := by
        have h1 := F64.roundShift_le m (bitLength m - 53)
        have h2 : m / 2 ^ (bitLength m - 53) < 2 ^ 53 := by
          rw [Nat.div_lt_iff_lt_mul (by positivity), ← pow_add]
          have : 53 + (bitLength m - 53) = bitLength m := by omega
          rw [this]
          exact hupp
        omega
      have hbq := bitLength_le_of_lt _ 54 hq1
      rw [if_neg (by omega)]
      refine ⟨?_, ?_⟩
      · show min e 0 ≤ e + ((bitLength m : Int) - 53)
        omega
      · rw [F64.toRat_fin]
        have hsplit : (2 : ℚ) ^ (e + ((bitLength m : Int) - 53)) =
            2 ^ e * 2 ^ (bitLength m - 53 : Nat) := by
          rw [zpow_add₀ (by norm_num : (2 : ℚ) ≠ 0), ← zpow_natCast]
          congr 2
          omega
        rw [hsplit]
        have hlow' : (2 : ℚ) ^ (bitLength m - 53 - 1 : Nat) * 2 ^ 53 ≤ m := by
          have : 2 ^ (bitLength m - 53 - 1) * 2 ^ 53 ≤ m := by
            rw [← pow_add]
            have : bitLength m - 53 - 1 + 53 = bitLength m - 1 := by omega
            rw [this]
            exact hlow
          exact_mod_cast this
        have h1 : ((F64.roundShift m (bitLength m - 53) : ℚ)) * 2 ^ (bitLength m - 53 : Nat) ≤
            m + 2 ^ (bitLength m - 53 - 1 : Nat) := by exact_mod_cast herr.1
        have h2 : (m : ℚ) ≤ (F64.roundShift m (bitLength m - 53) : ℚ) *
            2 ^ (bitLength m - 53 : Nat) + 2 ^ (bitLength m - 53 - 1 : Nat) := by
          exact_mod_cast herr.2
        have habs : |((F64.signed s (F64.roundShift m (bitLength m - 53)) : Int) : ℚ) *
            (2 ^ e * 2 ^ (bitLength m - 53 : Nat)) - ((F64.signed s m : Int) : ℚ) * 2 ^ e| =
            |(F64.roundShift m (bitLength m - 53) : ℚ) * 2 ^ (bitLength m - 53 : Nat) - m| *
              2 ^ e := by
          rw [F64.signed_cast, F64.signed_cast]
          cases s
          · simp only [Bool.false_eq_true, if_false]
            rw [show (F64.roundShift m (bitLength m - 53) : ℚ) *
                (2 ^ e * 2 ^ (bitLength m - 53 : Nat)) - (m : ℚ) * 2 ^ e =
                ((F64.roundShift m (bitLength m - 53) : ℚ) * 2 ^ (bitLength m - 53 : Nat) - m) *
                  2 ^ e by ring, abs_mul, abs_of_pos hP]
          · simp only [if_true]
            rw [show -(F64.roundShift m (bitLength m - 53) : ℚ) *
                (2 ^ e * 2 ^ (bitLength m - 53 : Nat)) - -(m : ℚ) * 2 ^ e =
                -(((F64.roundShift m (bitLength m - 53) : ℚ) * 2 ^ (bitLength m - 53 : Nat) - m) *
                  2 ^ e) by ring, abs_neg, abs_mul, abs_of_pos hP]
        rw [habs]
        have h3 : |(F64.roundShift m (bitLength m - 53) : ℚ) * 2 ^ (bitLength m - 53 : Nat) - m|
            ≤ 2 ^ (bitLength m - 53 - 1 : Nat) := by
          rw [abs_le]
          constructor <;> linarith
        have h4 : (2 : ℚ) ^ (bitLength m - 53 - 1 : Nat) ≤ 1 / 2 ^ 53 * m := by
          rw [one_div, inv_mul_eq_div, le_div_iff₀ (by positivity)]
          exact hlow'
        calc |(F64.roundShift m (bitLength m - 53) : ℚ) * 2 ^ (bitLength m - 53 : Nat) - m| *
              2 ^ e ≤ (1 / 2 ^ 53 * m) * 2 ^ e :=
            mul_le_mul_of_nonneg_right (h3.trans h4) hP.le
          _ = 1 / 2 ^ 53 * ((m : ℚ) * 2 ^ e) := by ring

theorem F64.IsFinAbove.mono {x : F64} {L L' : Int} (h : x.IsFinAbove L) (hL : L' ≤ L) :
    x.IsFinAbove L' := by
  cases x with
  | nan => exact h
  | inf s => exact h
  | fin s m e => exact le_trans hL h

theorem F64.signed_xor (s t : Bool) (m n : Nat) :
    F64.signed (xor s t) (m * n) = F64.signed s m * F64.signed t n := by
  cases s <;> cases t <;> simp [F64.signed]

theorem F64.signed_natAbs (z : Int) : F64.signed (decide (z < 0)) z.natAbs = z := by
  by_cases hz : z < 0
  · simp only [F64.signed, hz, decide_True, if_true]
    omega
  · simp only [F64.signed, hz, decide_False, Bool.false_eq_true, if_false]
    omega

theorem F64.signed_shift (s : Bool) (m : Nat) (e g : Int) (hg : g ≤ e) :
    ((F64.signed s (m * 2 ^ (e - g).toNat) : Int) : ℚ) * 2 ^ g =
      ((F64.signed s m : Int) : ℚ) * 2 ^ e := by
  have h2 : (2 : ℚ) ^ e = 2 ^ ((e - g).toNat : Int) * 2 ^ g := by
    rw [← zpow_add₀ (by norm_num : (2 : ℚ) ≠ 0)]
    congr 1
    omega
  rw [h2, zpow_natCast, F64.signed_cast, F64.signed_cast]
  cases s <;> simp <;> ring

/-- The product of two finite numbers is their exact product rounded: within the relative
distance `2 ^ (-53)` when no overflow or underflow is near. -/
theorem F64.mul_err (x y : F64) (L1 L2 : Int) (hx : x.IsFinAbove L1) (hy : y.IsFinAbove L2)
    (hL : -1021 ≤ L1 + L2) (hL0 : L1 + L2 ≤ 0)
    (hv : |x.toRat * y.toRat| < 2 ^ (1023 : Int)) :
    (x * y).IsFinAbove (L1 + L2) ∧
      |(x * y).toRat - x.toRat * y.toRat| ≤ 1 / 2 ^ 53 * |x.toRat * y.toRat| := by
  cases x with
  | nan => exact absurd hx id
  | inf s => exact absurd hx id
  | fin s m e =>
    cases y with
    | nan => exact absurd hy id
    | inf t => exact absurd hy id
    | fin t n f =>
      have he : L1 ≤ e := hx
      have hf : L2 ≤ f := hy
      have hprod : (F64.fin s m e).toRat * (F64.fin t n f).toRat =
          ((F64.signed (xor s t) (m * n) : Int) : ℚ) * 2 ^ (e + f) := by
        rw [F64.toRat_fin, F64.toRat_fin, F64.signed_xor, zpow_add₀ (by norm_num : (2 : ℚ) ≠ 0)]
        push_cast
        ring
      have habs : |(F64.fin s m e).toRat * (F64.fin t n f).toRat| =
          ((m * n : Nat) : ℚ) * 2 ^ (e + f) := by
        rw [hprod, abs_mul, F64.abs_signed_cast, abs_of_pos (zpow_pos (by norm_num) _)]
      rw [habs] at hv ⊢
      rw [hprod]
      have h := F64.round_err (xor s t) (m * n) (e + f) (by omega) hv
      exact ⟨h.1.mono (by omega), h.2⟩

/-- The sum of two finite numbers is their exact sum rounded. -/
theorem F64.add_err (x y : F64) (L : Int) (hx : x.IsFinAbove L) (hy : y.IsFinAbove L)
    (hL : -1021 ≤ L) (hL0 : L ≤ 0) (hv : |x.toRat + y.toRat| < 2 ^ (1023 : Int)) :
    (x + y).IsFinAbove L ∧
      |(x + y).toRat - (x.toRat + y.toRat)| ≤ 1 / 2 ^ 53 * |x.toRat + y.toRat| := by
  cases x with
  | nan => exact absurd hx id
  | inf s => exact absurd hx id
  | fin s m e =>
    cases y with
    | nan => exact absurd hy id
    | inf t => exact absurd hy id
    | fin t n f =>
      have he : L ≤ e := hx
      have hf : L ≤ f := hy
      have hsum : (F64.fin s m e).toRat + (F64.fin t n f).toRat =
          ((F64.signed s (m * 2 ^ (e - min e f).toNat) +
            F64.signed t (n * 2 ^ (f - min e f).toNat) : Int) : ℚ) * 2 ^ (min e f) := by
        rw [F64.toRat_fin, F64.toRat_fin, Int.cast_add, add_mul,
          F64.signed_shift s m e (min e f) (min_le_left e f),
          F64.signed_shift t n f (min e f) (min_le_right e f)]
      show (F64.add (.fin s m e) (.fin t n f)).IsFinAbove L ∧
        |(F64.add (.fin s m e) (.fin t n f)).toRat -
          ((F64.fin s m e).toRat + (F64.fin t n f).toRat)| ≤
          1 / 2 ^ 53 * |(F64.fin s m e).toRat + (F64.fin t n f).toRat|
      simp only [F64.add]
      by_cases hz : F64.signed s (m * 2 ^ (e - min e f).toNat) +
          F64.signed t (n * 2 ^ (f - min e f).toNat) = 0
      · rw [if_pos hz]
        rw [hsum, hz]
        refine ⟨hL0, ?_⟩
        simp [F64.toRat, F64.signed]
      · rw [if_neg hz]
        have hcast : ((F64.signed s (m * 2 ^ (e - min e f).toNat) +
            F64.signed t (n * 2 ^ (f - min e f).toNat) : Int) : ℚ) =
            ((F64.signed (decide (F64.signed s (m * 2 ^ (e - min e f).toNat) +
              F64.signed t (n * 2 ^ (f - min e f).toNat) < 0))
              (F64.signed s (m * 2 ^ (e - min e f).toNat) +
                F64.signed t (n * 2 ^ (f - min e f).toNat)).natAbs : Int) : ℚ) := by
          rw [F64.signed_natAbs]
        have habs : |(F64.fin s m e).toRat + (F64.fin t n f).toRat| =
            (((F64.signed s (m * 2 ^ (e - min e f).toNat) +
              F64.signed t (n * 2 ^ (f - min e f).toNat)).natAbs : Nat) : ℚ) *
              2 ^ (min e f) := by
          rw [hsum, hcast, abs_mul, F64.abs_signed_cast,
            abs_of_pos (zpow_pos (by norm_num) _)]
        rw [habs] at hv ⊢
        rw [hsum, hcast]
        have h := F64.round_err
          (decide (F64.signed s (m * 2 ^ (e - min e f).toNat) +
            F64.signed t (n * 2 ^ (f - min e f).toNat) < 0))
          (F64.signed s (m * 2 ^ (e - min e f).toNat) +
            F64.signed t (n * 2 ^ (f - min e f).toNat)).natAbs (min e f) (by omega) hv
        exact ⟨h.1.mono (by omega), h.2⟩

theorem F64.toRat_neg (x : F64) : (-x).toRat = -x.toRat := by
  cases x with
  | nan =>
    show F64.nan.toRat = -F64.nan.toRat
    simp [F64.toRat]
  | inf s =>
    show (F64.inf (!s)).toRat = -(F64.inf s).toRat
    simp [F64.toRat]
  | fin s m e =>
    show (F64.fin (!s) m e).toRat = -(F64.fin s m e).toRat
    rw [F64.toRat_fin, F64.toRat_fin, F64.signed_not]
    push_cast
    ring

theorem F64.IsFinAbove.neg {x : F64} {L : Int} (h : x.IsFinAbove L) : (-x).IsFinAbove L := by
  cases x with
  | nan => exact h
  | inf s => exact h
  | fin s m e => exact h

/-- The difference of two finite numbers is their exact difference rounded. -/
theorem F64.sub_err (x y : F64) (L : Int) (hx : x.IsFinAbove L) (hy : y.IsFinAbove L)
    (hL : -1021 ≤ L) (hL0 : L ≤ 0) (hv : |x.toRat - y.toRat| < 2 ^ (1023 : Int)) :
    (x - y).IsFinAbove L ∧
      |(x - y).toRat - (x.toRat - y.toRat)| ≤ 1 / 2 ^ 53 * |x.toRat - y.toRat| := by
  have h := F64.add_err x (-y) L hx hy.neg hL hL0 (by rw [F64.toRat_neg, ← sub_eq_add_neg]; exact hv)
  rw [F64.toRat_neg, ← sub_eq_add_neg] at h
  exact h

theorem div_sticky (n K : Nat) (hn : n ≠ 0) :
    (2 * (2 ^ K / n) + (if 2 ^ K % n = 0 then 0 else 1)) * n ≤ 2 ^ (K + 1) + n ∧
      2 ^ (K + 1) ≤ (2 * (2 ^ K / n) + (if 2 ^ K % n = 0 then 0 else 1)) * n + n := by
  have h := Nat.div_add_mod (2 ^ K) n
  have hr : 2 ^ K % n < n := Nat.mod_lt _ (Nat.pos_of_ne_zero hn)
  have h2 : 2 ^ (K + 1) = 2 * 2 ^ K := by rw [pow_succ']
  split_ifs with h0
  · have e1 : (2 * (2 ^ K / n) + 0) * n = 2 * (n * (2 ^ K / n)) := by ring
    rw [e1]
    omega
  · have e1 : (2 * (2 ^ K / n) + 1) * n = 2 * (n * (2 ^ K / n)) + n := by ring
    rw [e1]
    omega

theorem err_chain_div (a b c W : ℚ) (hW : 0 ≤ W) (h1 : a ≤ 1 / 2 ^ 53 * b)
    (h2 : b ≤ (1 + 1 / 2 ^ 56) * W) (h3 : c ≤ 1 / 2 ^ 56 * W) :
    a + c ≤ 2 / 2 ^ 53 * W := by
  norm_num at h1 h2 h3 ⊢
  linarith

/-- The quotient `1 / y` for a finite `y ≠ 0` is the exact reciprocal rounded: within the
relative distance `2 ^ (-52)` when no overflow or underflow is near. -/
theorem F64.one_div_err (y : F64) (U V : Int) (hU0 : -56 ≤ U) (hU : U ≤ 900) (hV : V ≤ 1000)
    (hlo : (2 : ℚ) ^ (-V) ≤ |y.toRat|) (hhi : |y.toRat| < 2 ^ U) :
    (1 / y).IsFinAbove (-U - 56) ∧
      |(1 / y).toRat - 1 / y.toRat| ≤ 2 / 2 ^ 53 * |1 / y.toRat| := by
  have hVpos : (0 : ℚ) < 2 ^ (-V) := zpow_pos (by norm_num) _
  cases y with
  | nan =>
    simp only [F64.toRat, abs_zero] at hlo
    linarith
  | inf s =>
    simp only [F64.toRat, abs_zero] at hlo
    linarith
  | fin t n f =>
    have hP : (0 : ℚ) < 2 ^ f := zpow_pos (by norm_num) f
    have habs := F64.abs_toRat_fin t n f
    rw [habs] at hlo hhi
    have hn : n ≠ 0 := by
      intro h0
      subst h0
      simp only [Nat.cast_zero, zero_mul] at hlo
      linarith
    have hnQ : (0 : ℚ) < n := by exact_mod_cast Nat.pos_of_ne_zero hn
    have hlow := two_pow_bitLength_le n hn
    have hupp := lt_two_pow_bitLength n
    have hb1 : 1 ≤ bitLength n := by
      by_contra hc
      have : bitLength n = 0 := by omega
      rw [this] at hupp
      simp at hupp
      exact hn hupp
    -- the exponent of the leading digit of `y` is below `U`
    have hbf : (bitLength n : Int) + f ≤ U := by
      have h1 : ((2 : ℚ) ^ (bitLength n - 1 : Nat)) * 2 ^ f < 2 ^ U := by
        refine lt_of_le_of_lt ?_ hhi
        apply mul_le_mul_of_nonneg_right _ hP.le
        exact_mod_cast hlow
      rw [← zpow_natCast, ← zpow_add₀ (by norm_num : (2 : ℚ) ≠ 0)] at h1
      have h2 := (zpow_lt_zpow_iff_right₀ (by norm_num : (1 : ℚ) < 2)).mp h1
      push_cast at h2
      omega
    obtain ⟨hs1, hs2⟩ := div_sticky n (bitLength n + 55) hn
    show (F64.div (.fin false 1 0) (.fin t n f)).IsFinAbove (-U - 56) ∧
      |(F64.div (.fin false 1 0) (.fin t n f)).toRat - 1 / (F64.fin t n f).toRat| ≤
        2 / 2 ^ 53 * |1 / (F64.fin t n f).toRat|
    simp only [F64.div, hn, if_false, Bool.false_xor, one_mul]
    generalize hmant : 2 * (2 ^ (bitLength n + 55) / n) +
      (if 2 ^ (bitLength n + 55) % n = 0 then 0 else 1) = mant at hs1 hs2 ⊢
    -- the exact reciprocal `w` of `|y|` and the exponent `E` of the cut quotient
    have hE : (2 : ℚ) ^ ((0 : Int) - f - ((bitLength n + 55 : Nat) : Int) - 1) * 2 ^ f *
        2 ^ (bitLength n + 55 + 1 : Nat) = 1 := by
      rw [← zpow_natCast, ← zpow_add₀ (by norm_num : (2 : ℚ) ≠ 0),
        ← zpow_add₀ (by norm_num : (2 : ℚ) ≠ 0)]
      have : (0 : Int) - f - ((bitLength n + 55 : Nat) : Int) - 1 + f +
          ((bitLength n + 55 + 1 : Nat) : Int) = 0 := by
        push_cast
        ring
      rw [this, zpow_zero]
    generalize hEdef : (0 : Int) - f - ((bitLength n + 55 : Nat) : Int) - 1 = E at hE ⊢
    have hEge : -U - 56 ≤ E := by
      rw [← hEdef]
      push_cast
      omega
    have hPE : (0 : ℚ) < 2 ^ E := zpow_pos (by norm_num) E
    have hw : 1 / ((n : ℚ) * 2 ^ f) = 2 ^ E * 2 ^ (bitLength n + 55 + 1 : Nat) / n := by
      rw [div_eq_div_iff (by positivity) (by positivity)]
      linear_combination (-(n : ℚ)) * hE
    have h1 : (mant : ℚ) * n ≤ 2 ^ (bitLength n + 55 + 1 : Nat) + n := by exact_mod_cast hs1
    have h2 : (2 : ℚ) ^ (bitLength n + 55 + 1 : Nat) ≤ mant * n + n := by exact_mod_cast hs2
    -- the cut quotient is within `2 ^ E` of `w`
    have hcut : |(mant : ℚ) * 2 ^ E - 1 / ((n : ℚ) * 2 ^ f)| ≤ 2 ^ E := by
      rw [hw, abs_le]
      constructor
      · rw [neg_le_sub_iff_le_add, div_le_iff₀ hnQ]
        nlinarith
      · rw [sub_le_iff_le_add, ← sub_le_iff_le_add', le_div_iff₀ hnQ]
        nlinarith
    -- and `2 ^ E` is at most `2 ^ (-56)` of `w`
    have hsmall : (2 : ℚ) ^ E ≤ 1 / 2 ^ 56 * (1 / ((n : ℚ) * 2 ^ f)) := by
      rw [hw, ← mul_div_assoc, le_div_iff₀ hnQ]
      have h3 : (n : ℚ) * 2 ^ 56 ≤ 2 ^ (bitLength n + 55 + 1 : Nat) := by
        have : n * 2 ^ 56 ≤ 2 ^ (bitLength n + 55 + 1) := by
          have : bitLength n + 55 + 1 = bitLength n + 56 := by omega
          rw [this, pow_add]
          exact Nat.mul_le_mul_right _ hupp.le
        exact_mod_cast this
      have h4 : (2 : ℚ) ^ E * n ≤ 2 ^ E * (1 / 2 ^ 56 * 2 ^ (bitLength n + 55 + 1 : Nat)) := by
        apply mul_le_mul_of_nonneg_left _ hPE.le
        rw [one_div, inv_mul_eq_div, le_div_iff₀ (by positivity)]
        exact h3
      linarith
    have hwpos : (0 : ℚ) < 1 / ((n : ℚ) * 2 ^ f) := by positivity
    have hwle : 1 / ((n : ℚ) * 2 ^ f) ≤ 2 ^ V := by
      rw [div_le_iff₀ (by positivity)]
      have : (2 : ℚ) ^ V * 2 ^ (-V) = 1 := by
        rw [← zpow_add₀ (by norm_num : (2 : ℚ) ≠ 0)]
        simp
      nlinarith [zpow_pos (by norm_num : (0 : ℚ) < 2) V]
    have hcut' := abs_le.mp hcut
    have hmantle : (mant : ℚ) * 2 ^ E ≤ 2 * (1 / ((n : ℚ) * 2 ^ f)) := by
      have : (1 : ℚ) / 2 ^ 56 ≤ 1 := by norm_num
      nlinarith
    have hrange : (mant : ℚ) * 2 ^ E < 2 ^ (1023 : Int) := by
      have h5 : (2 : ℚ) * 2 ^ V ≤ 2 * 2 ^ (1000 : Int) := by
        apply mul_le_mul_of_nonneg_left _ (by norm_num)
        exact zpow_le_zpow_right₀ (by norm_num) hV
      have h6 : (2 : ℚ) * 2 ^ (1000 : Int) < 2 ^ (1023 : Int) := by norm_num
      linarith
    have hr := F64.round_err t mant E (by omega) hrange
    refine ⟨hr.1.mono (by omega), ?_⟩
    have hinv : 1 / (F64.fin t n f).toRat =
        (if t then -(1 / ((n : ℚ) * 2 ^ f)) else 1 / ((n : ℚ) * 2 ^ f)) := by
      rw [F64.toRat_fin, F64.signed_cast]
      cases t
      · simp
      · simp only [if_true]
        rw [neg_mul, one_div, one_div, inv_neg]
    have habsinv : |1 / (F64.fin t n f).toRat| = 1 / ((n : ℚ) * 2 ^ f) := by
      rw [hinv]
      cases t
      · simp only [Bool.false_eq_true, if_false]
        exact abs_of_pos hwpos
      · simp only [if_true]
        rw [abs_neg]
        exact abs_of_pos hwpos
    have hsign : |((F64.signed t mant : Int) : ℚ) * 2 ^ E - 1 / (F64.fin t n f).toRat| =
        |(mant : ℚ) * 2 ^ E - 1 / ((n : ℚ) * 2 ^ f)| := by
      rw [hinv, F64.signed_cast]
      cases t
      · simp
      · simp only [if_true]
        rw [show -(mant : ℚ) * 2 ^ E - -(1 / ((n : ℚ) * 2 ^ f)) =
          -((mant : ℚ) * 2 ^ E - 1 / ((n : ℚ) * 2 ^ f)) by ring, abs_neg]
    rw [habsinv]
    have htri : |(F64.round t mant E).toRat - 1 / (F64.fin t n f).toRat| ≤
        |(F64.round t mant E).toRat - ((F64.signed t mant : Int) : ℚ) * 2 ^ E| +
          |((F64.signed t mant : Int) : ℚ) * 2 ^ E - 1 / (F64.fin t n f).toRat| := by
      have := abs_sub_le (F64.round t mant E).toRat (((F64.signed t mant : Int) : ℚ) * 2 ^ E)
        (1 / (F64.fin t n f).toRat)
      exact this
    rw [hsign] at htri
    exact le_trans htri (err_chain_div _ _ _ _ hwpos.le hr.2 (by linarith) (hcut.trans hsmall))

theorem F64.toRat_abs (x : F64) : (F64.abs x).toRat = |x.toRat| := by
  cases x with
  | nan => simp [F64.abs, F64.toRat]
  | inf s => simp [F64.abs, F64.toRat]
  | fin s m e =>
    rw [F64.abs_toRat_fin]
    show (F64.fin false m e).toRat = _
    rw [F64.toRat_fin, F64.signed_cast]
    simp

theorem F64.IsFinAbove.abs {x : F64} {L : Int} (h : x.IsFinAbove L) :
    (F64.abs x).IsFinAbove L := by
  cases x with
  | nan => exact h
  | inf s => exact h
  | fin s m e => exact h

theorem F64.toRat_zero : (0 : F64).toRat = 0 := by
  show (F64.fin false 0 0).toRat = 0
  simp [F64.toRat, F64.signed]

theorem F64.toRat_one : (1 : F64).toRat = 1 := by
  show (F64.fin false 1 0).toRat = 1
  simp [F64.toRat, F64.signed]

theorem F64.gt_of_fin (x y : F64) (L : Int) (hx : x.IsFinAbove L) (hy : y.IsFinAbove L) :
    F64.gt x y = decide (y.toRat < x.toRat) := by
  cases x with
  | nan => exact absurd hx id
  | inf s => exact absurd hx id
  | fin s m e =>
    cases y with
    | nan => exact absurd hy id
    | inf t => exact absurd hy id
    | fin t n f =>
      have hP : (0 : ℚ) < 2 ^ (min e f) := zpow_pos (by norm_num) _
      simp only [F64.gt]
      rw [F64.toRat_fin, F64.toRat_fin, ← F64.signed_shift s m e (min e f) (min_le_left e f),
        ← F64.signed_shift t n f (min e f) (min_le_right e f)]
      congr 1
      rw [gt_iff_lt, mul_lt_mul_right hP, Int.cast_lt]

theorem F64.beq_of_fin (x y : F64) (L : Int) (hx : x.IsFinAbove L) (hy : y.IsFinAbove L) :
    (x == y) = decide (x.toRat = y.toRat) := by
  cases x with
  | nan => exact absurd hx id
  | inf s => exact absurd hx id
  | fin s m e =>
    cases y with
    | nan => exact absurd hy id
    | inf t => exact absurd hy id
    | fin t n f =>
      have hP : (0 : ℚ) < 2 ^ (min e f) := zpow_pos (by norm_num) _
      show F64.eq (.fin s m e) (.fin t n f) = _
      simp only [F64.eq]
      rw [F64.toRat_fin, F64.toRat_fin, ← F64.signed_shift s m e (min e f) (min_le_left e f),
        ← F64.signed_shift t n f (min e f) (min_le_right e f)]
      congr 1
      rw [mul_left_inj' hP.ne', Int.cast_inj]

theorem det_bound (x y p1 p2 dc S D : ℚ) (h1 : |p1 - x| ≤ 1 / 2 ^ 53 * |x|)
    (h2 : |p2 - y| ≤ 1 / 2 ^ 53 * |y|) (h3 : |dc - (p1 - p2)| ≤ 1 / 2 ^ 53 * |p1 - p2|)
    (hx : |x| ≤ S) (hy : |y| ≤ S) (hS : S ≤ 65536 * |D|) (hD : D = x - y) :
    |dc - D| ≤ 1 / 2 ^ 35 * |D| := by
  have e1 : |p1 - p2| ≤ |D| + |p1 - x| + |p2 - y| := by
    have : p1 - p2 = D + (p1 - x) - (p2 - y) := by rw [hD]; ring
    rw [this]
    calc |D + (p1 - x) - (p2 - y)| ≤ |D + (p1 - x)| + |p2 - y| := abs_sub _ _
      _ ≤ |D| + |p1 - x| + |p2 - y| := by
        have := abs_add D (p1 - x)
        linarith
  have e2 : |dc - D| ≤ |dc - (p1 - p2)| + |p1 - x| + |p2 - y| := by
    have : dc - D = (dc - (p1 - p2)) + (p1 - x) - (p2 - y) := by rw [hD]; ring
    rw [this]
    calc |dc - (p1 - p2) + (p1 - x) - (p2 - y)| ≤ |dc - (p1 - p2) + (p1 - x)| + |p2 - y| :=
          abs_sub _ _
      _ ≤ |dc - (p1 - p2)| + |p1 - x| + |p2 - y| := by
        have := abs_add (dc - (p1 - p2)) (p1 - x)
        linarith
  have hD0 := abs_nonneg D
  norm_num at h1 h2 h3 hS ⊢
  linarith

theorem recip_bound (dc D r : ℚ) (hD : D ≠ 0) (h1 : |dc - D| ≤ 1 / 2 ^ 35 * |D|)
    (h2 : |r - 1 / dc| ≤ 2 / 2 ^ 53 * |1 / dc|) :
    |r - 1 / D| ≤ 1 / 2 ^ 34 * |1 / D| := by
  have hDpos : 0 < |D| := abs_pos.mpr hD
  have hdc : dc ≠ 0 := by
    intro h0
    rw [h0, zero_sub, abs_neg] at h1
    have : (1 : ℚ) / 2 ^ 35 * |D| < |D| := by
      have : (1 : ℚ) / 2 ^ 35 < 1 := by norm_num
      nlinarith
    linarith
  have hdcpos : 0 < |dc| := abs_pos.mpr hdc
  -- |dc| ≥ (1 - 2^-35) |D|
  have hlow : (1 - 1 / 2 ^ 35) * |D| ≤ |dc| := by
    have := abs_sub_abs_le_abs_sub D dc
    rw [abs_sub_comm] at this
    linarith
  have e1 : 1 / dc - 1 / D = (D - dc) / (dc * D) := by
    field_simp
  have e2 : |1 / dc - 1 / D| ≤ 1 / 2 ^ 35 * |1 / dc| := by
    rw [e1, abs_div, abs_mul, abs_sub_comm, abs_div, abs_one, div_le_iff₀ (by positivity)]
    have : 1 / 2 ^ 35 * (1 / |dc|) * (|dc| * |D|) = 1 / 2 ^ 35 * |D| := by
      field_simp
      ring
    rw [this]
    exact h1
  have e3 : |1 / dc| ≤ (1 + 1 / 2 ^ 34) * |1 / D| := by
    rw [abs_div, abs_div, abs_one, div_le_iff₀ hdcpos]
    have : (1 + 1 / 2 ^ 34) * (1 / |D|) * |dc| = (1 + 1 / 2 ^ 34) * (|dc| / |D|) := by ring
    rw [this]
    have h4 : (1 - 1 / 2 ^ 35) ≤ |dc| / |D| := by
      rw [le_div_iff₀ hDpos]
      exact hlow
    have h5 : (1 : ℚ) ≤ (1 + 1 / 2 ^ 34) * (1 - 1 / 2 ^ 35) := by norm_num
    nlinarith
  have e4 : |r - 1 / D| ≤ |r - 1 / dc| + |1 / dc - 1 / D| := abs_sub_le _ _ _
  have h6 : |r - 1 / D| ≤ (2 / 2 ^ 53 + 1 / 2 ^ 35) * |1 / dc| := by linarith
  have h7 : (2 / 2 ^ 53 + 1 / 2 ^ 35) * |1 / dc| ≤
      (2 / 2 ^ 53 + 1 / 2 ^ 35) * ((1 + 1 / 2 ^ 34) * |1 / D|) :=
    mul_le_mul_of_nonneg_left e3 (by norm_num)
  have h8 : (2 / 2 ^ 53 + 1 / 2 ^ 35) * ((1 + 1 / 2 ^ 34) * |1 / D|) ≤ 1 / 2 ^ 34 * |1 / D| := by
    have h9 : ((2 : ℚ) / 2 ^ 53 + 1 / 2 ^ 35) * (1 + 1 / 2 ^ 34) ≤ 1 / 2 ^ 34 := by norm_num
    have := mul_le_mul_of_nonneg_right h9 (abs_nonneg (1 / D))
    linarith
  linarith

theorem scale_round (r w α i ε : ℚ) (hε : 1 / 2 ^ 53 * (1 + ε) ≤ ε)
    (h1 : |r - w| ≤ ε * |w|) (h2 : |i - α * r| ≤ 1 / 2 ^ 53 * |α * r|) :
    |i - α * w| ≤ 2 * ε * |α * w| := by
  have e1 : |α * r - α * w| ≤ ε * |α * w| := by
    rw [← mul_sub, abs_mul, abs_mul]
    have := mul_le_mul_of_nonneg_left h1 (abs_nonneg α)
    linarith
  have e2 : |α * r| ≤ (1 + ε) * |α * w| := by
    have := abs_sub_abs_le_abs_sub (α * r) (α * w)
    linarith
  have e3 : |i - α * w| ≤ |i - α * r| + |α * r - α * w| := abs_sub_le _ _ _
  have e4 : 1 / 2 ^ 53 * |α * r| ≤ 1 / 2 ^ 53 * ((1 + ε) * |α * w|) :=
    mul_le_mul_of_nonneg_left e2 (by norm_num)
  have e5 : 1 / 2 ^ 53 * ((1 + ε) * |α * w|) ≤ ε * |α * w| := by
    have := mul_le_mul_of_nonneg_right hε (abs_nonneg (α * w))
    linarith
  linarith

theorem sum_bound (t0 t1 e0 e1 s1 s2 : ℚ) (h0 : |t0 - e0| ≤ 1 / 2 ^ 32 * |e0|)
    (h1 : |t1 - e1| ≤ 1 / 2 ^ 32 * |e1|) (hb0 : |e0| ≤ 65536) (hb1 : |e1| ≤ 65536)
    (hs1 : |s1 - (0 + t0)| ≤ 1 / 2 ^ 53 * |0 + t0|)
    (hs2 : |s2 - (s1 + t1)| ≤ 1 / 2 ^ 53 * |s1 + t1|) :
    |s2 - (e0 + e1)| ≤ 1 / 2 ^ 14 := by
  rw [zero_add] at hs1
  have a0 : |t0| ≤ |e0| + |t0 - e0| := by
    have := abs_sub_abs_le_abs_sub t0 e0
    linarith
  have a1 : |t1| ≤ |e1| + |t1 - e1| := by
    have := abs_sub_abs_le_abs_sub t1 e1
    linarith
  have a2 : |s1| ≤ |t0| + |s1 - t0| := by
    have := abs_sub_abs_le_abs_sub s1 t0
    linarith
  have a3 : |s1 + t1| ≤ |s1| + |t1| := abs_add _ _
  have a4 : |s2 - (e0 + e1)| ≤ |s2 - (s1 + t1)| + |s1 - t0| + |t0 - e0| + |t1 - e1| := by
    have : s2 - (e0 + e1) = (s2 - (s1 + t1)) + (s1 - t0) + (t0 - e0) + (t1 - e1) := by ring
    rw [this]
    have b1 := abs_add (s2 - (s1 + t1) + (s1 - t0) + (t0 - e0)) (t1 - e1)
    have b2 := abs_add (s2 - (s1 + t1) + (s1 - t0)) (t0 - e0)
    have b3 := abs_add (s2 - (s1 + t1)) (s1 - t0)
    linarith
  have n0 := abs_nonneg e0
  have n1 := abs_nonneg e1
  norm_num at h0 h1 hs1 hs2 ⊢
  linarith

theorem F64.scaled_entry (α r : F64) (w M : ℚ) (hα : α.IsFinAbove (-200))
    (hr : r.IsFinAbove (-564)) (hrw : |r.toRat - w| ≤ 1 / 2 ^ 34 * |w|)
    (hαM : |α.toRat| ≤ M) (hMw : M * |w| ≤ 2 ^ (300 : Int)) :
    (α * r).IsFinAbove (-764) ∧
      |(α * r).toRat - α.toRat * w| ≤ 1 / 2 ^ 33 * |α.toRat * w| := by
  have hrabs : |r.toRat| ≤ 2 * |w| := by
    have := abs_sub_abs_le_abs_sub r.toRat w
    have h0 := abs_nonneg w
    norm_num at hrw ⊢
    linarith
  have hv : |α.toRat * r.toRat| < 2 ^ (1023 : Int) := by
    rw [abs_mul]
    have h1 : |α.toRat| * |r.toRat| ≤ M * (2 * |w|) :=
      mul_le_mul hαM hrabs (abs_nonneg _) (le_trans (abs_nonneg _) hαM)
    have h2 : (2 : ℚ) * 2 ^ (300 : Int) < 2 ^ (1023 : Int) := by norm_num
    linarith
  have h := F64.mul_err α r (-200) (-564) hα hr (by norm_num) (by norm_num) hv
  refine ⟨h.1, ?_⟩
  have := scale_round r.toRat w α.toRat (α * r).toRat (1 / 2 ^ 34) (by norm_num) hrw h.2
  norm_num at this ⊢
  linarith

theorem F64.product_term (i y : F64) (β : ℚ) (hi : i.IsFinAbove (-764))
    (hy : y.IsFinAbove (-200)) (hiβ : |i.toRat - β| ≤ 1 / 2 ^ 33 * |β|)
    (hb : |β * y.toRat| ≤ 65536) :
    (i * y).IsFinAbove (-964) ∧
      |(i * y).toRat - β * y.toRat| ≤ 1 / 2 ^ 32 * |β * y.toRat| := by
  have hiabs : |i.toRat| ≤ 2 * |β| := by
    have := abs_sub_abs_le_abs_sub i.toRat β
    have h0 := abs_nonneg β
    norm_num at hiβ ⊢
    linarith
  have hv : |i.toRat * y.toRat| < 2 ^ (1023 : Int) := by
    rw [abs_mul]
    have h1 : |i.toRat| * |y.toRat| ≤ 2 * |β| * |y.toRat| :=
      mul_le_mul_of_nonneg_right hiabs (abs_nonneg _)
    rw [abs_mul] at hb
    have h2 : (2 : ℚ) * 65536 < 2 ^ (1023 : Int) := by norm_num
    nlinarith
  have h := F64.mul_err i y (-764) (-200) hi hy (by norm_num) (by norm_num) hv
  refine ⟨h.1, ?_⟩
  have h2 : |(i * y).toRat - y.toRat * i.toRat| ≤ 1 / 2 ^ 53 * |y.toRat * i.toRat| := by
    rw [mul_comm y.toRat i.toRat]
    exact h.2
  have := scale_round i.toRat β y.toRat (i * y).toRat (1 / 2 ^ 33) (by norm_num) hiβ h2
  rw [mul_comm β y.toRat]
  norm_num at this ⊢
  linarith

theorem F64.isFinAbove_zero (L : Int) (hL : L ≤ 0) : (0 : F64).IsFinAbove L := hL

theorem F64.isFinAbove_one (L : Int) (hL : L ≤ 0) : (1 : F64).IsFinAbove L := hL

/-- The running sum of `Multiply` for a 2×2 product, within `2 ^ (-14)` of the exact sum
when its two terms are accurate to `2 ^ (-33)`. -/
theorem F64.dot_two (i0 i1 y0 y1 : F64) (β0 β1 : ℚ) (hi0 : i0.IsFinAbove (-764))
    (hi1 : i1.IsFinAbove (-764)) (hy0 : y0.IsFinAbove (-200)) (hy1 : y1.IsFinAbove (-200))
    (h0 : |i0.toRat - β0| ≤ 1 / 2 ^ 33 * |β0|) (h1 : |i1.toRat - β1| ≤ 1 / 2 ^ 33 * |β1|)
    (hb0 : |β0 * y0.toRat| ≤ 65536) (hb1 : |β1 * y1.toRat| ≤ 65536) :
    (0 + i0 * y0 + i1 * y1).IsFinAbove (-964) ∧
      |(0 + i0 * y0 + i1 * y1).toRat - (β0 * y0.toRat + β1 * y1.toRat)| ≤ 1 / 2 ^ 14 := by
  obtain ⟨f0, e0⟩ := F64.product_term i0 y0 β0 hi0 hy0 h0 hb0
  obtain ⟨f1, e1⟩ := F64.product_term i1 y1 β1 hi1 hy1 h1 hb1
  have t0abs : |(i0 * y0).toRat| ≤ 2 * 65536 := by
    have := abs_sub_abs_le_abs_sub (i0 * y0).toRat (β0 * y0.toRat)
    have n0 := abs_nonneg (β0 * y0.toRat)
    norm_num at e0 ⊢
    linarith
  have t1abs : |(i1 * y1).toRat| ≤ 2 * 65536 := by
    have := abs_sub_abs_le_abs_sub (i1 * y1).toRat (β1 * y1.toRat)
    have n0 := abs_nonneg (β1 * y1.toRat)
    norm_num at e1 ⊢
    linarith
  have hv1 : |(0 : F64).toRat + (i0 * y0).toRat| < 2 ^ (1023 : Int) := by
    rw [F64.toRat_zero, zero_add]
    have h2 : (2 : ℚ) * 65536 < 2 ^ (1023 : Int) := by norm_num
    linarith
  obtain ⟨fs1, es1⟩ := F64.add_err 0 (i0 * y0) (-964) (F64.isFinAbove_zero _ (by norm_num)) f0
    (by norm_num) (by norm_num) hv1
  rw [F64.toRat_zero] at es1
  have s1abs : |(0 + i0 * y0).toRat| ≤ 4 * 65536 := by
    have := abs_sub_abs_le_abs_sub (0 + i0 * y0).toRat (0 + (i0 * y0).toRat)
    rw [zero_add] at es1 this
    norm_num at es1 ⊢
    linarith
  have hv2 : |(0 + i0 * y0).toRat + (i1 * y1).toRat| < 2 ^ (1023 : Int) := by
    have := abs_add (0 + i0 * y0).toRat (i1 * y1).toRat
    have h2 : (6 : ℚ) * 65536 < 2 ^ (1023 : Int) := by norm_num
    linarith
  obtain ⟨fs2, es2⟩ := F64.add_err (0 + i0 * y0) (i1 * y1) (-964) fs1 f1
    (by norm_num) (by norm_num) hv2
  exact ⟨fs2, sum_bound _ _ _ _ _ _ e0 e1 hb0 hb1 es1 es2⟩

theorem tolerance_eq : tolerance = F64.fin false 7378697629483821 (-66) := by decide

/-- A number within `2 ^ (-14)` of `δ` passes the comparison of `ApproxEqual` with the
tolerance `0.0001`. -/
theorem F64.approx_step (c δ : F64) (hc : c.IsFinAbove (-964)) (hδ : δ.IsFinAbove (-964))
    (herr : |c.toRat - δ.toRat| ≤ 1 / 2 ^ 14) :
    F64.gt (F64.abs (c - δ)) tolerance = false := by
  have hv : |c.toRat - δ.toRat| < 2 ^ (1023 : Int) := by
    have h2 : (1 : ℚ) / 2 ^ 14 < 2 ^ (1023 : Int) := by norm_num
    linarith
  obtain ⟨fd, ed⟩ := F64.sub_err c δ (-964) hc hδ (by norm_num) (by norm_num) hv
  have ht : tolerance.IsFinAbove (-964) := by
    rw [tolerance_eq]
    show (-964 : Int) ≤ -66
    norm_num
  rw [F64.gt_of_fin _ _ (-964) fd.abs ht, F64.toRat_abs, decide_eq_false_iff_not, not_lt]
  have hval : tolerance.toRat = 7378697629483821 * 2 ^ (-66 : Int) := by
    rw [tolerance_eq, F64.toRat_fin]
    simp [F64.signed]
  rw [hval]
  have habs : |(c - δ).toRat| ≤ |c.toRat - δ.toRat| + |(c - δ).toRat - (c.toRat - δ.toRat)| := by
    have := abs_sub_abs_le_abs_sub (c - δ).toRat (c.toRat - δ.toRat)
    linarith
  have h3 : (1 : ℚ) / 2 ^ 14 + 1 / 2 ^ 53 * (1 / 2 ^ 14) ≤ 7378697629483821 * 2 ^ (-66 : Int) := by
    norm_num
  have h4 : 1 / 2 ^ 53 * |c.toRat - δ.toRat| ≤ 1 / 2 ^ 53 * (1 / 2 ^ 14) :=
    mul_le_mul_of_nonneg_left herr (by norm_num)
  refine le_trans ?_ h3
  linarith

theorem F64.Moderate.isFinAbove {x : F64} (h : x.Moderate) : x.IsFinAbove (-200) := by
  cases x with
  | nan => exact h
  | inf s => exact h
  | fin s m e => exact h.2.1

theorem F64.Moderate.abs_le {x : F64} (h : x.Moderate) : |x.toRat| ≤ 2 ^ (253 : Int) := by
  cases x with
  | nan => exact absurd h id
  | inf s => exact absurd h id
  | fin s m e =>
    obtain ⟨hm, _, he⟩ := h
    rw [F64.abs_toRat_fin]
    have h1 : (m : ℚ) ≤ 2 ^ (53 : Int) := by
      have : (m : ℚ) ≤ 2 ^ 53 := by exact_mod_cast hm.le
      rw [show (53 : Int) = ((53 : Nat) : Int) from rfl, zpow_natCast]
      exact this
    have h2 : (2 : ℚ) ^ e ≤ 2 ^ (200 : Int) := zpow_le_zpow_right₀ (by norm_num) he
    calc (m : ℚ) * 2 ^ e ≤ 2 ^ (53 : Int) * 2 ^ (200 : Int) :=
          mul_le_mul h1 h2 (zpow_pos (by norm_num) e).le (by positivity)
      _ = 2 ^ (253 : Int) := by norm_num

theorem F64.Moderate.abs_ge {x : F64} (h : x.Moderate) (h0 : x.toRat ≠ 0) :
    (2 : ℚ) ^ (-200 : Int) ≤ |x.toRat| := by
  cases x with
  | nan => exact absurd h id
  | inf s => exact absurd h id
  | fin s m e =>
    obtain ⟨_, he, _⟩ := h
    rw [F64.abs_toRat_fin]
    have hm : m ≠ 0 := by
      intro hm
      apply h0
      rw [F64.toRat_fin, hm]
      simp [F64.signed]
    have h1 : (1 : ℚ) ≤ m := by exact_mod_cast Nat.pos_of_ne_zero hm
    have h2 : (2 : ℚ) ^ (-200 : Int) ≤ 2 ^ e := zpow_le_zpow_right₀ (by norm_num) he
    have h3 : (0 : ℚ) < 2 ^ e := zpow_pos (by norm_num) e
    nlinarith

theorem det_size (dc D : ℚ) (hdb : |dc - D| ≤ 1 / 2 ^ 35 * |D|)
    (hDlo : (2 : ℚ) ^ (-416 : Int) ≤ |D|) (hDhi : |D| ≤ 2 * 2 ^ (506 : Int)) :
    (2 : ℚ) ^ (-417 : Int) ≤ |dc| ∧ |dc| < 2 ^ (508 : Int) := by
  have h1 := abs_sub_abs_le_abs_sub dc D
  have h2 := abs_sub_abs_le_abs_sub D dc
  rw [abs_sub_comm D dc] at h2
  have hpos : (0 : ℚ) < 2 ^ (-416 : Int) := zpow_pos (by norm_num) _
  have e1 : (2 : ℚ) ^ (-417 : Int) = 1 / 2 * 2 ^ (-416 : Int) := by norm_num
  have e2 : (2 : ℚ) ^ (508 : Int) = 4 * 2 ^ (506 : Int) := by norm_num
  have hpos2 : (0 : ℚ) < 2 ^ (506 : Int) := zpow_pos (by norm_num) _
  rw [e1, e2]
  generalize (2 : ℚ) ^ (-416 : Int) = lo at *
  generalize (2 : ℚ) ^ (506 : Int) = hi at *
  norm_num at hdb
  constructor <;> linarith

theorem recip_size (M D : ℚ) (hM0 : 0 ≤ M) (hMlo : (2 : ℚ) ^ (-200 : Int) ≤ M) (hD : D ≠ 0)
    (hcond : M * M ≤ 65536 * |D|) :
    M * |1 / D| ≤ 2 ^ (300 : Int) ∧ M * M * |1 / D| ≤ 65536 := by
  have hDpos : 0 < |D| := abs_pos.mpr hD
  have hwabs : |1 / D| = 1 / |D| := by rw [abs_div, abs_one]
  rw [hwabs, mul_one_div, mul_one_div, div_le_iff₀ hDpos, div_le_iff₀ hDpos]
  refine ⟨?_, hcond⟩
  have h1 : (2 : ℚ) ^ (-200 : Int) * M ≤ M * M := mul_le_mul_of_nonneg_right hMlo hM0
  have h3 : (2 : ℚ) ^ (200 : Int) * (2 ^ (-200 : Int) * M) = M := by
    rw [← mul_assoc, ← zpow_add₀ (by norm_num : (2 : ℚ) ≠ 0)]
    norm_num
  have h4 : (2 : ℚ) ^ (200 : Int) * (2 ^ (-200 : Int) * M) ≤
      2 ^ (200 : Int) * (65536 * |D|) :=
    mul_le_mul_of_nonneg_left (h1.trans hcond) (by positivity)
  have h5 : (2 : ℚ) ^ (200 : Int) * (65536 * |D|) ≤ 2 ^ (300 : Int) * |D| := by
    have h6 : (2 : ℚ) ^ (200 : Int) * 65536 ≤ 2 ^ (300 : Int) := by norm_num
    have := mul_le_mul_of_nonneg_right h6 hDpos.le
    linarith
  linarith

/-- The determinant that `Inverse` computes for moderate elements: finite and within
`2 ^ (-35)` of the exact determinant `D`. -/
theorem F64.det_stage (a b c d : F64) (M D : ℚ) (ha : a.Moderate) (hb : b.Moderate)
    (hc : c.Moderate) (hd : d.Moderate) (haM : |a.toRat| ≤ M) (hbM : |b.toRat| ≤ M)
    (hcM : |c.toRat| ≤ M) (hdM : |d.toRat| ≤ M)
    (hDdef : D = a.toRat * d.toRat - b.toRat * c.toRat) (hD : D ≠ 0)
    (hcond : M * M ≤ 65536 * |D|) :
    (a * d - b * c).IsFinAbove (-400) ∧ |(a * d - b * c).toRat - D| ≤ 1 / 2 ^ 35 * |D| ∧
      (2 : ℚ) ^ (-200 : Int) ≤ M ∧ (2 : ℚ) ^ (-416 : Int) ≤ |D| ∧
      |D| ≤ 2 * 2 ^ (506 : Int) := by
  have hM0 : 0 ≤ M := le_trans (abs_nonneg _) haM
  have fa := ha.isFinAbove
  have fb := hb.isFinAbove
  have fc := hc.isFinAbove
  have fd := hd.isFinAbove
  have hbig : (2 : ℚ) ^ (253 : Int) * 2 ^ (253 : Int) = 2 ^ (506 : Int) := by norm_num
  have hx : |a.toRat * d.toRat| ≤ M * M := by
    rw [abs_mul]
    exact mul_le_mul haM hdM (abs_nonneg _) hM0
  have hy : |b.toRat * c.toRat| ≤ M * M := by
    rw [abs_mul]
    exact mul_le_mul hbM hcM (abs_nonneg _) hM0
  have hx' : |a.toRat * d.toRat| ≤ 2 ^ (506 : Int) := by
    rw [abs_mul, ← hbig]
    exact mul_le_mul ha.abs_le hd.abs_le (abs_nonneg _) (by positivity)
  have hy' : |b.toRat * c.toRat| ≤ 2 ^ (506 : Int) := by
    rw [abs_mul, ← hbig]
    exact mul_le_mul hb.abs_le hc.abs_le (abs_nonneg _) (by positivity)
  have hlt : (2 : ℚ) ^ (506 : Int) < 2 ^ (1023 : Int) := by norm_num
  obtain ⟨f1, e1⟩ := F64.mul_err a d (-200) (-200) fa fd (by norm_num) (by norm_num)
    (lt_of_le_of_lt hx' hlt)
  obtain ⟨f2, e2⟩ := F64.mul_err b c (-200) (-200) fb fc (by norm_num) (by norm_num)
    (lt_of_le_of_lt hy' hlt)
  have hv3 : |(a * d).toRat - (b * c).toRat| < 2 ^ (1023 : Int) := by
    have t1 := abs_sub_abs_le_abs_sub (a * d).toRat (a.toRat * d.toRat)
    have t2 := abs_sub_abs_le_abs_sub (b * c).toRat (b.toRat * c.toRat)
    have t3 := abs_sub (a * d).toRat (b * c).toRat
    have n1 := abs_nonneg (a.toRat * d.toRat)
    have n2 := abs_nonneg (b.toRat * c.toRat)
    have h4 : (4 : ℚ) * 2 ^ (506 : Int) < 2 ^ (1023 : Int) := by norm_num
    generalize (2 : ℚ) ^ (506 : Int) = hi at *
    generalize (2 : ℚ) ^ (1023 : Int) = top at *
    norm_num at e1 e2
    linarith
  obtain ⟨f3, e3⟩ := F64.sub_err (a * d) (b * c) (-400) (f1.mono (by norm_num))
    (f2.mono (by norm_num)) (by norm_num) (by norm_num) hv3
  have hdb := det_bound _ _ _ _ _ (M * M) D e1 e2 e3 hx hy hcond hDdef
  have hDhi : |D| ≤ 2 * 2 ^ (506 : Int) := by
    rw [hDdef]
    have := abs_sub (a.toRat * d.toRat) (b.toRat * c.toRat)
    linarith
  have hMlo : (2 : ℚ) ^ (-200 : Int) ≤ M := by
    by_cases ha0 : a.toRat = 0
    · have hb0 : b.toRat ≠ 0 := by
        intro hb0
        apply hD
        rw [hDdef, ha0, hb0]
        ring
      exact le_trans (hb.abs_ge hb0) hbM
    · exact le_trans (ha.abs_ge ha0) haM
  have hDlo : (2 : ℚ) ^ (-416 : Int) ≤ |D| := by
    have h1 : (2 : ℚ) ^ (-200 : Int) * 2 ^ (-200 : Int) ≤ M * M :=
      mul_le_mul hMlo hMlo (by positivity) hM0
    have h2 : (2 : ℚ) ^ (-200 : Int) * 2 ^ (-200 : Int) = 65536 * 2 ^ (-416 : Int) := by
      norm_num
    linarith
  exact ⟨f3, hdb, hMlo, hDlo, hDhi⟩

/-- One element of the product `Inverse(A) × A`: with the reciprocal `r` of the determinant
within `2 ^ (-34)` of `w`, the running sum of `α0 * r * y0` and `α1 * r * y1` passes the
comparison of `ApproxEqual` with `δ`, the exact value of the sum. -/
theorem F64.key_stage (r : F64) (w M : ℚ) (fr : r.IsFinAbove (-564))
    (hrw : |r.toRat - w| ≤ 1 / 2 ^ 34 * |w|) (hM0 : 0 ≤ M) (hMw : M * |w| ≤ 2 ^ (300 : Int))
    (hMMw : M * M * |w| ≤ 65536) (α0 α1 y0 y1 δ : F64) (g0 : α0.IsFinAbove (-200))
    (g1 : α1.IsFinAbove (-200)) (gy0 : y0.IsFinAbove (-200)) (gy1 : y1.IsFinAbove (-200))
    (gδ : δ.IsFinAbove (-964)) (m0 : |α0.toRat| ≤ M) (m1 : |α1.toRat| ≤ M)
    (my0 : |y0.toRat| ≤ M) (my1 : |y1.toRat| ≤ M)
    (hex : α0.toRat * w * y0.toRat + α1.toRat * w * y1.toRat = δ.toRat) :
    F64.gt (F64.abs (0 + α0 * r * y0 + α1 * r * y1 - δ)) tolerance = false := by
  obtain ⟨fi0, ei0⟩ := F64.scaled_entry α0 r w M g0 fr hrw m0 hMw
  obtain ⟨fi1, ei1⟩ := F64.scaled_entry α1 r w M g1 fr hrw m1 hMw
  have hb : ∀ p q : ℚ, |p| ≤ M → |q| ≤ M → |p * w * q| ≤ 65536 := by
    intro p q hp hq
    rw [abs_mul, abs_mul]
    have h1 : |p| * |w| * |q| ≤ M * |w| * M :=
      mul_le_mul (mul_le_mul_of_nonneg_right hp (abs_nonneg _)) hq (abs_nonneg _)
        (mul_nonneg hM0 (abs_nonneg _))
    have h2 : M * |w| * M = M * M * |w| := by ring
    linarith
  obtain ⟨fs, es⟩ := F64.dot_two _ _ y0 y1 _ _ fi0 fi1 gy0 gy1 ei0 ei1
    (hb _ _ m0 my0) (hb _ _ m1 my1)
  rw [hex] at es
  exact F64.approx_step _ δ fs gδ es

/-- The computation of `Inverse` and of the product `Inverse(A) × A` for a 2×2 matrix with
the moderate elements `a b / c d`, exact determinant `D ≠ 0` and
`M * M ≤ 65536 * |D|`, where `M` bounds the magnitude of the elements: the determinant that
`float64` computes is not zero and each element of the product passes the comparison of
`ApproxEqual` with the matching element of the identity. -/
theorem F64.inverse_product_close (a b c d : F64) (M D : ℚ) (ha : a.Moderate)
    (hb : b.Moderate) (hc : c.Moderate) (hd : d.Moderate) (haM : |a.toRat| ≤ M)
    (hbM : |b.toRat| ≤ M) (hcM : |c.toRat| ≤ M) (hdM : |d.toRat| ≤ M)
    (hDdef : D = a.toRat * d.toRat - b.toRat * c.toRat) (hD : D ≠ 0)
    (hcond : M * M ≤ 65536 * |D|) :
    (a * d - b * c == 0) = false ∧
      F64.gt (F64.abs (0 + d * (1 / (a * d - b * c)) * a + -b * (1 / (a * d - b * c)) * c - 1))
        tolerance = false ∧
      F64.gt (F64.abs (0 + d * (1 / (a * d - b * c)) * b + -b * (1 / (a * d - b * c)) * d - 0))
        tolerance = false ∧
      F64.gt (F64.abs (0 + -c * (1 / (a * d - b * c)) * a + a * (1 / (a * d - b * c)) * c - 0))
        tolerance = false ∧
      F64.gt (F64.abs (0 + -c * (1 / (a * d - b * c)) * b + a * (1 / (a * d - b * c)) * d - 1))
        tolerance = false := by
  have hM0 : 0 ≤ M := le_trans (abs_nonneg _) haM
  obtain ⟨f3, hdb, hMlo, hDlo, hDhi⟩ :=
    F64.det_stage a b c d M D ha hb hc hd haM hbM hcM hdM hDdef hD hcond
  obtain ⟨hdclo, hdchi⟩ := det_size _ D hdb hDlo hDhi
  have hdc0 : (a * d - b * c).toRat ≠ 0 := by
    intro h0
    rw [h0, abs_zero] at hdclo
    have : (0 : ℚ) < 2 ^ (-417 : Int) := zpow_pos (by norm_num) _
    linarith
  obtain ⟨fr, er⟩ := F64.one_div_err (a * d - b * c) 508 417 (by norm_num) (by norm_num)
    (by norm_num) hdclo hdchi
  have fr' : (1 / (a * d - b * c)).IsFinAbove (-564) := fr.mono (by norm_num)
  have hrw := recip_bound _ _ _ hD hdb er
  obtain ⟨hMw, hMMw⟩ := recip_size M D hM0 hMlo hD hcond
  have fa := ha.isFinAbove
  have fb := hb.isFinAbove
  have fc := hc.isFinAbove
  have fd := hd.isFinAbove
  have hnb : |(-b).toRat| ≤ M := by
    rw [F64.toRat_neg, abs_neg]
    exact hbM
  have hnc : |(-c).toRat| ≤ M := by
    rw [F64.toRat_neg, abs_neg]
    exact hcM
  have f0 := F64.isFinAbove_zero (-964) (by norm_num)
  have f1 := F64.isFinAbove_one (-964) (by norm_num)
  have key := F64.key_stage (1 / (a * d - b * c)) (1 / D) M fr' hrw hM0 hMw hMMw
  refine ⟨?_, ?_, ?_, ?_, ?_⟩
  · rw [F64.beq_of_fin _ 0 (-400) f3 (F64.isFinAbove_zero _ (by norm_num)), F64.toRat_zero]
    exact decide_eq_false hdc0
  · refine key d (-b) a c 1 fd fb.neg fa fc f1 hdM hnb haM hcM ?_
    rw [F64.toRat_neg, F64.toRat_one, hDdef]
    rw [hDdef] at hD
    field_simp
    ring
  · refine key d (-b) b d 0 fd fb.neg fb fd f0 hdM hnb hbM hdM ?_
    rw [F64.toRat_neg, F64.toRat_zero, hDdef]
    rw [hDdef] at hD
    field_simp
    ring
  · refine key (-c) a a c 0 fc.neg fa fa fc f0 hnc haM haM hcM ?_
    rw [F64.toRat_neg, F64.toRat_zero, hDdef]
    rw [hDdef] at hD
    field_simp
    ring
  · refine key (-c) a b d 1 fc.neg fa fb fd f1 hnc haM hbM hdM ?_
    rw [F64.toRat_neg, F64.toRat_one, hDdef]
    rw [hDdef] at hD
    field_simp
    ring

/-! ## The identity law in `float64` -/

theorem Matrix.entry_le_maxAbs (A : Matrix F64) :
    |(A.entry 0 0).toRat| ≤ A.maxAbs ∧ |(A.entry 0 1).toRat| ≤ A.maxAbs ∧
      |(A.entry 1 0).toRat| ≤ A.maxAbs ∧ |(A.entry 1 1).toRat| ≤ A.maxAbs :=
  ⟨le_trans (le_max_left _ _) (le_max_left _ _), le_trans (le_max_right _ _) (le_max_left _ _),
    le_trans (le_max_left _ _) (le_max_right _ _),
    le_trans (le_max_right _ _) (le_max_right _ _)⟩

theorem identity_law_of_close (A : Matrix F64) (hA : A.WellFormed)
    (hW : A.Dimensions.Width = 2) (hH : A.Dimensions.Height = 2)
    (hmod : (A.entry 0 0).Moderate ∧ (A.entry 0 1).Moderate ∧ (A.entry 1 0).Moderate ∧
      (A.entry 1 1).Moderate)
    (hdet : A.exactDet ≠ 0) (hcond : A.maxAbs * A.maxAbs ≤ 65536 * |A.exactDet|) :
    IdentityLaw (fun x => x) A tolerance := by
  obtain ⟨m00, m01, m10, m11⟩ := A.entry_le_maxAbs
  obtain ⟨h0, h00, h01, h10, h11⟩ := F64.inverse_product_close (A.entry 0 0) (A.entry 0 1)
    (A.entry 1 0) (A.entry 1 1) A.maxAbs A.exactDet hmod.1 hmod.2.1 hmod.2.2.1 hmod.2.2.2
    m00 m01 m10 m11 rfl hdet hcond
  have hinv := Inverse_nonsingular A hA hW hH h0
  have hmul := Multiply_eq _ A (wellFormed_rows
    (A.entry 1 1 * (1 / (A.entry 0 0 * A.entry 1 1 - A.entry 0 1 * A.entry 1 0)))
    (-A.entry 0 1 * (1 / (A.entry 0 0 * A.entry 1 1 - A.entry 0 1 * A.entry 1 0)))
    (-A.entry 1 0 * (1 / (A.entry 0 0 * A.entry 1 1 - A.entry 0 1 * A.entry 1 0)))
    (A.entry 0 0 * (1 / (A.entry 0 0 * A.entry 1 1 - A.entry 0 1 * A.entry 1 0)))) hA
    (by simp [hH])
  have hid := @NewIdentity_eq F64 _ _ A.Dimensions (by omega) (by omega)
  refine ⟨_, none, _, none, _, hinv, hmul, hid, ?_⟩
  rw [ApproxEqual_true_iff _ _ _ _ (wellFormed_table _ _ (by omega) (show (1 : Int) ≤ 2 by norm_num) _)
    (wellFormed_table _ _ (by omega) (by omega) _)]
  refine ⟨by simp [hH], ?_⟩
  intro j i hj hi
  have hj2 : j < 2 := hj
  have hi2 : i < 2 := by
    have : i < A.Dimensions.Width.toNat := hi
    rw [hW] at this
    exact this
  rw [entry_table _ _ _ _ j i hj hi, entry_table _ _ _ _ j i (by rw [hH]; exact hj2) hi]
  rw [show (⟨⟨2, 2⟩,
    [[A.entry 1 1 * (1 / (A.entry 0 0 * A.entry 1 1 - A.entry 0 1 * A.entry 1 0)),
      -A.entry 0 1 * (1 / (A.entry 0 0 * A.entry 1 1 - A.entry 0 1 * A.entry 1 0))],
     [-A.entry 1 0 * (1 / (A.entry 0 0 * A.entry 1 1 - A.entry 0 1 * A.entry 1 0)),
      A.entry 0 0 * (1 / (A.entry 0 0 * A.entry 1 1 - A.entry 0 1 * A.entry 1 0))]]⟩ :
      Matrix F64).Dimensions.Width.toNat = 2 from rfl, dotSum_two]
  have hj' : j = 0 ∨ j = 1 := by omega
  have hi' : i = 0 ∨ i = 1 := by omega
  rcases hj' with rfl | rfl <;> rcases hi' with rfl | rfl <;>
    simp only [entry_rows, if_true, one_ne_zero, zero_ne_one, if_false]
  · exact h00
  · exact h01
  · exact h10
  · exact h11

theorem not_identityLaw_of_error {T : Type} [Zero T] [One T] [Add T] [Sub T] [Mul T] [Neg T]
    [Div T] [BEq T] (toFloat64 : T → F64) (A : Matrix T) (margin : T) (err : MatrixError)
    (h : A.Inverse none = some (Matrix.empty, some err)) :
    ¬ IdentityLaw toFloat64 A margin := by
  rintro ⟨inv, e1, r, e2, i, h1, h2, h3, _⟩
  rw [h] at h1
  simp only [Option.some.injEq, Prod.mk.injEq] at h1
  obtain ⟨rfl, rfl⟩ := h1
  rw [(slot_held (Matrix.empty : Matrix T) A 0 err).2.1] at h2
  simp only [Option.some.injEq, Prod.mk.injEq] at h2
  obtain ⟨rfl, rfl⟩ := h2
  simp [NewIdentity] at h3

/-- C6, refuted as stated, at three invertible square `float64` matrices and the tolerance
`0.0001` of the test.  Size: the 1×1 matrix `[[1]]` is its own inverse (`[[1]] × [[1]]` is
the 1×1 identity), yet `Inverse` reports the unsupported-size error for it.  Range:
`[[2^600,0],[0,2^600]]` has the exact inverse `[[2^-600,0],[0,2^-600]]`, whose product with
it is the identity; in `Inverse` the determinant overflows to `+Inf`, `1 / detA` is `0`, no
error is reported and the returned matrix has only zeros, so its product with the matrix is
not approximately the identity.  Conditioning: `[[2^27+1,2^27],[2^27,2^27-1]]` has elements
of moderate size and determinant `-1`, but the determinant computed in `float64` is `0` and
`Inverse` reports the singular-matrix error. -/
theorem identity_law_fails :
    (testUnit.WellFormed ∧
      testUnit.Dimensions.Width = testUnit.Dimensions.Height ∧
      testUnit.Multiply none testUnit = NewIdentity none testUnit.Dimensions ∧
      testUnit.Inverse none = some (Matrix.empty, some .inverseNotImplemented) ∧
      ¬ IdentityLaw (fun x => x) testUnit tolerance) ∧
    (testHuge.WellFormed ∧
      testHuge.Dimensions = ⟨2, 2⟩ ∧
      testTiny.Multiply none testHuge = NewIdentity none testHuge.Dimensions ∧
      testHuge.Inverse none =
        some (⟨⟨2, 2⟩, [[F64.fin false 0 0, F64.fin true 0 0],
          [F64.fin true 0 0, F64.fin false 0 0]]⟩, none) ∧
      ¬ IdentityLaw (fun x => x) testHuge tolerance) ∧
    (testNearSingular.WellFormed ∧
      testNearSingular.Dimensions = ⟨2, 2⟩ ∧
      ((testNearSingular.entry 0 0).Moderate ∧ (testNearSingular.entry 0 1).Moderate ∧
        (testNearSingular.entry 1 0).Moderate ∧ (testNearSingular.entry 1 1).Moderate) ∧
      testNearSingular.exactDet = -1 ∧
      testNearSingular.Inverse none = some (Matrix.empty, some .singular) ∧
      ¬ IdentityLaw (fun x => x) testNearSingular tolerance) := by
  have hU : testUnit.Inverse none = some (Matrix.empty, some .inverseNotImplemented) := by
    decide
  have hN : testNearSingular.Inverse none = some (Matrix.empty, some .singular) := by decide
  have c1 : testHuge.Inverse none =
      some (⟨⟨2, 2⟩, [[F64.fin false 0 0, F64.fin true 0 0],
        [F64.fin true 0 0, F64.fin false 0 0]]⟩, none) := by decide
  refine ⟨⟨by decide, by decide, by decide, hU, not_identityLaw_of_error _ _ _ _ hU⟩,
    ⟨by decide, by decide, by decide, c1, ?_⟩,
    ⟨by decide, by decide, by decide, ?_, hN, not_identityLaw_of_error _ _ _ _ hN⟩⟩
  · rintro ⟨inv, e1, r, e2, i, h1, h2, h3, h4⟩
    rw [c1] at h1
    simp only [Option.some.injEq, Prod.mk.injEq] at h1
    obtain ⟨rfl, rfl⟩ := h1
    have c2 : (⟨⟨2, 2⟩, [[F64.fin false 0 0, F64.fin true 0 0],
        [F64.fin true 0 0, F64.fin false 0 0]]⟩ : Matrix F64).Multiply none testHuge =
        some (⟨⟨2, 2⟩, [[F64.fin false 0 0, F64.fin false 0 0],
          [F64.fin false 0 0, F64.fin false 0 0]]⟩, none) := by decide
    rw [c2] at h2
    simp only [Option.some.injEq, Prod.mk.injEq] at h2
    obtain ⟨rfl, rfl⟩ := h2
    have c3 : (NewIdentity none testHuge.Dimensions : Option (Matrix F64 × ErrorSlot)) =
        some (⟨⟨2, 2⟩, [[F64.fin false 1 0, F64.fin false 0 0],
          [F64.fin false 0 0, F64.fin false 1 0]]⟩, none) := by decide
    rw [c3] at h3
    simp only [Option.some.injEq, Prod.mk.injEq, and_true] at h3
    subst h3
    have c4 : (⟨⟨2, 2⟩, [[F64.fin false 0 0, F64.fin false 0 0],
        [F64.fin false 0 0, F64.fin false 0 0]]⟩ : Matrix F64).ApproxEqual (fun x => x)
        ⟨⟨2, 2⟩, [[F64.fin false 1 0, F64.fin false 0 0],
          [F64.fin false 0 0, F64.fin false 1 0]]⟩ tolerance = some false := by decide
    rw [c4] at h4
    exact absurd h4 (by decide)
  · have e00 : testNearSingular.entry 0 0 = F64.fin false 134217729 0 := by decide
    have e01 : testNearSingular.entry 0 1 = F64.fin false 134217728 0 := by decide
    have e10 : testNearSingular.entry 1 0 = F64.fin false 134217728 0 := by decide
    have e11 : testNearSingular.entry 1 1 = F64.fin false 134217727 0 := by decide
    simp only [Matrix.exactDet, e00, e01, e10, e11, F64.toRat_fin, F64.signed]
    norm_num

/-- C6, amended: for every well-formed 2×2 `float64` matrix `A` whose elements are finite
of moderate size (`m * 2 ^ e` up to sign with `m < 2 ^ 53` and `-200 ≤ e ≤ 200`), whose
exact determinant is not zero and which is well conditioned in the sense that the square of
its largest element magnitude is at most `65536` times the magnitude of the determinant,
the chain `Inverse`, `Multiply`, `NewIdentity` run in `float64` from an empty slot does not
panic and reports no error, and `Inverse(A) × A` is `ApproxEqual` to
`NewIdentity(A.Dimensions)` with the tolerance `0.0001`. -/
theorem identity_law_two_by_two (A : Matrix F64) (hA : A.WellFormed)
    (hW : A.Dimensions.Width = 2) (hH : A.Dimensions.Height = 2)
    (hmod : (A.entry 0 0).Moderate ∧ (A.entry 0 1).Moderate ∧ (A.entry 1 0).Moderate ∧
      (A.entry 1 1).Moderate)
    (hdet : A.exactDet ≠ 0) (hcond : A.maxAbs * A.maxAbs ≤ 65536 * |A.exactDet|) :
    IdentityLaw (fun x => x) A tolerance :=
  identity_law_of_close A hA hW hH hmod hdet hcond

/-- C6 at the test's inputs: `[[1,-1],[0,2]]` (determinant 2) and `[[1,2],[3,-5]]`
(determinant -11) meet the conditions of the amended law, so the identity law holds at both
in `float64` with the tolerance `0.0001`. -/
theorem identity_law_examples :
    (testInverseA.WellFormed ∧ testInverseA.exactDet = 2 ∧ testInverseA.maxAbs = 2 ∧
      IdentityLaw (fun x => x) testInverseA tolerance) ∧
    (testInverseB.WellFormed ∧ testInverseB.exactDet = -11 ∧ testInverseB.maxAbs = 5 ∧
      IdentityLaw (fun x => x) testInverseB tolerance) := by
  have a00 : testInverseA.entry 0 0 = F64.fin false 1 0 := by decide
  have a01 : testInverseA.entry 0 1 = F64.fin true 1 0 := by decide
  have a10 : testInverseA.entry 1 0 = F64.fin false 0 0 := by decide
  have a11 : testInverseA.entry 1 1 = F64.fin false 2 0 := by decide
  have b00 : testInverseB.entry 0 0 = F64.fin false 1 0 := by decide
  have b01 : testInverseB.entry 0 1 = F64.fin false 2 0 := by decide
  have b10 : testInverseB.entry 1 0 = F64.fin false 3 0 := by decide
  have b11 : testInverseB.entry 1 1 = F64.fin true 5 0 := by decide
  have dA : testInverseA.exactDet = 2 := by
    simp only [Matrix.exactDet, a00, a01, a10, a11, F64.toRat_fin, F64.signed]
    norm_num
  have mA : testInverseA.maxAbs = 2 := by
    simp only [Matrix.maxAbs, a00, a01, a10, a11, F64.abs_toRat_fin]
    norm_num
  have dB : testInverseB.exactDet = -11 := by
    simp only [Matrix.exactDet, b00, b01, b10, b11, F64.toRat_fin, F64.signed]
    norm_num
  have mB : testInverseB.maxAbs = 5 := by
    simp only [Matrix.maxAbs, b00, b01, b10, b11, F64.abs_toRat_fin]
    norm_num
  refine ⟨⟨by decide, dA, mA, ?_⟩, ⟨by decide, dB, mB, ?_⟩⟩
  · exact identity_law_two_by_two testInverseA (by decide) (by decide) (by decide)
      (by decide) (by rw [dA]; norm_num) (by rw [dA, mA]; norm_num)
  · exact identity_law_two_by_two testInverseB (by decide) (by decide) (by decide)
      (by decide) (by rw [dB]; norm_num) (by rw [dB, mB]; norm_num)

end MoreMath
